import Mathlib

/-!
Verification development for the audio-engine Controller
(`kiro-audio-engine/src/controller/controller.rs`).

The controller is embedded shallowly:

* `HashMap` values are association lists kept in insertion order; insertion
  overwrites the value of an existing key in place (`aInsert`), lookups take
  the first hit (`alookup`).
* `HashSet` values are duplicate-free lists; union and difference preserve
  the set semantics.  The arbitrary element taken by
  `Controller::allocate_buffer` from the free set is determinized to the
  head of the list; this is one of the elements the real `HashSet` iteration
  may yield.
* `Key<T>` values and `NodeRef` are natural numbers; registries
  (`OwnedData`, `KeyStore`) are association lists plus a next-key counter,
  modelling generationally unique keys.  `Ref<Buffer>` and
  `Ref<ProcessorBox>` carry a key plus a shared pointer; the controller
  logic only ever uses the key, so refs are embedded as their key.
  Buffer contents are never read or written by the controller (only the
  renderer touches samples), so a buffer is represented by its key alone.
* The `Arc<ParamValue>` handles stored in `ParamRenderPort::Value` and in the
  `KeyStore` are a shared heap cell; the store plays the role of the heap and
  the handle is embedded as the store key.
* `usize` arithmetic is modelled on `Nat` with explicit wrap-around where the
  source can underflow (`usizeSub1`, release-build semantics of
  `*e = *e - 1` on a 64-bit target).
* Fallible code returns `Except ControllerError`; the two `unwrap` calls
  that can in principle fail are modelled by the dedicated
  `ControllerError.Panic` value, keeping Rust panics distinct from the
  error returns of the source.
* The `ringbuf` SPSC channel is a bounded queue: `push` fails with
  `SendFailure` when `tx_queue` already holds `tx_capacity` messages.

The `kiro-audio-graph` crate is not part of the analysed sources; the graph
side (`Graph`, `GraphTopology`, `Node`, ports, `sources()`, invalidation) is
modelled from the specification of the consumed interfaces: a graph exposes a
node map, a topology (dependency-ordered node list plus a destination-count
map), bound audio outputs, and per-node port maps; `Node.sources` yields one
entry per incoming connection, matching the destination counts which count
downstream port connections.
-/

deriving instance DecidableEq for Except

/-! ## Association-list maps and list sets -/

/-- Lookup in an association list (first match wins). -/
def alookup {α : Type} [DecidableEq α] {β : Type} : List (α × β) → α → Option β
  | [], _ => none
  | (k, v) :: rest, key => if k = key then some v else alookup rest key

/-- Map insertion with overwrite semantics: replaces the value of an existing
key in place, otherwise appends the binding. -/
def aInsert {α : Type} [DecidableEq α] {β : Type} : List (α × β) → α → β → List (α × β)
  | [], key, v => [(key, v)]
  | (k, w) :: rest, key, v =>
    if k = key then (key, v) :: rest else (k, w) :: aInsert rest key v

/-- Update the value of a key if present (models the entry API `and_modify`). -/
def aUpdate {α : Type} [DecidableEq α] {β : Type} : List (α × β) → α → (β → β) → List (α × β)
  | [], _, _ => []
  | (k, w) :: rest, key, f =>
    if k = key then (k, f w) :: aUpdate rest key f else (k, w) :: aUpdate rest key f

@[simp] theorem alookup_nil {α : Type} [DecidableEq α] {β : Type} (key : α) :
    alookup ([] : List (α × β)) key = none := rfl

@[simp] theorem alookup_cons {α : Type} [DecidableEq α] {β : Type} (k : α) (v : β)
    (rest : List (α × β)) (key : α) :
    alookup ((k, v) :: rest) key = if k = key then some v else alookup rest key := rfl

@[simp] theorem aInsert_nil {α : Type} [DecidableEq α] {β : Type} (key : α) (v : β) :
    aInsert ([] : List (α × β)) key v = [(key, v)] := rfl

@[simp] theorem aInsert_cons {α : Type} [DecidableEq α] {β : Type} (k : α) (w : β)
    (rest : List (α × β)) (key : α) (v : β) :
    aInsert ((k, w) :: rest) key v =
      if k = key then (key, v) :: rest else (k, w) :: aInsert rest key v := rfl

/-- Set union on duplicate-free lists (models `HashSet::union`). -/
def sUnion (a b : List Nat) : List Nat :=
  a ++ b.filter (fun x => decide (¬ x ∈ a))

/-- Set difference on lists (models `HashSet::difference`). -/
def sDiff (a b : List Nat) : List Nat :=
  a.filter (fun x => decide (¬ x ∈ b))

@[simp] theorem mem_sUnion {a b : List Nat} {x : Nat} :
    x ∈ sUnion a b ↔ x ∈ a ∨ x ∈ b := by
  simp only [sUnion, List.mem_append, List.mem_filter, decide_eq_true_eq]
  constructor
  · rintro (h | ⟨h, _⟩)
    · exact Or.inl h
    · exact Or.inr h
  · rintro (h | h)
    · exact Or.inl h
    · by_cases hx : x ∈ a
      · exact Or.inl hx
      · exact Or.inr ⟨h, hx⟩

@[simp] theorem mem_sDiff {a b : List Nat} {x : Nat} :
    x ∈ sDiff a b ↔ x ∈ a ∧ ¬ x ∈ b := by
  simp [sDiff]

/-! ## Data model -/

/-- The 64-bit `usize` modulus. -/
def USIZE : Nat := 2 ^ 64

/-- Wrapping decrement of a `usize` (release-build semantics of `*e = *e - 1`):
for `e < 2^64` this equals `(e + 2^64 - 1) % 2^64`. -/
def usizeSub1 (e : Nat) : Nat := if e = 0 then USIZE - 1 else e - 1

theorem usizeSub1_eq_mod (e : Nat) (h : e < USIZE) :
    usizeSub1 e = (e + (USIZE - 1)) % USIZE := by
  unfold usizeSub1 USIZE at *
  rcases Nat.eq_zero_or_pos e with h0 | h0
  · subst h0; simp
  · have h1 : ¬ e = 0 := Nat.pos_iff_ne_zero.mp h0
    simp only [h1, if_false]
    have : e + (2 ^ 64 - 1) = (e - 1) + 2 ^ 64 := by omega
    rw [this, Nat.add_mod_right, Nat.mod_eq_of_lt (by omega)]

/-- Reference to an audio output port of a node (`AudioOutRef`). -/
structure AudioOutRef where
  node_ref : Nat
  audio_port_key : Nat
deriving DecidableEq

/-- A parameter port as seen through the graph interface: id string, the
descriptor's initial value, and an optional audio connection. -/
structure ParamPort where
  id : String
  initial : Float
  connection : Option AudioOutRef

/-- An audio input port: id, channel count from the descriptor, optional
connection. -/
structure AudioInPort where
  id : String
  channels : Nat
  connection : Option AudioOutRef
deriving DecidableEq

/-- An audio output port: id and channel count from the descriptor. -/
structure AudioOutPort where
  id : String
  channels : Nat
deriving DecidableEq

/-- Modelled from the spec: a graph node as consumed by the controller,
exposing `ref_string`, the descriptor class, the invalidation bit and the
port maps (`params`, `audio_inputs`, `audio_outputs`), keyed by their port
keys. -/
structure Node where
  ref_string : String
  node_class : String
  invalidated : Bool
  params : List (Nat × ParamPort)
  audio_inputs : List (Nat × AudioInPort)
  audio_outputs : List (Nat × AudioOutPort)

/-- Modelled from the spec: `Node::sources()` yields the source node of every
incoming connection (audio inputs first, then parameter connections), one
entry per connection, so that the destination counts - which count downstream
port connections - reach zero exactly at the last consumer. -/
def Node.sources (n : Node) : List Nat :=
  n.audio_inputs.filterMap (fun p => p.2.connection.map (fun a => a.node_ref)) ++
    n.params.filterMap (fun p => p.2.connection.map (fun a => a.node_ref))

/-- Modelled from the spec: the graph topology, an ordered list of node refs in
dependency order plus the destination-count map. -/
structure GraphTopology where
  nodes : List Nat
  destination_counts : List (Nat × Nat)

/-- Modelled from the spec: the graph as consumed by the controller: node map,
topology and bound audio outputs. -/
structure Graph where
  node_map : List (Nat × Node)
  topo : GraphTopology
  bound_audio_outputs : List (String × AudioOutRef)

def Graph.get_node (g : Graph) (r : Nat) : Option Node := alookup g.node_map r

def Graph.topology (g : Graph) : GraphTopology := g.topo

/-- An atomic parameter cell (`ParamValue`): stores one float, shared between
the control thread (writer) and the render thread (reader). -/
structure ParamValue where
  value : Float

def ParamValue.new (v : Float) : ParamValue := ⟨v⟩

def ParamValue.set (_p : ParamValue) (v : Float) : ParamValue := ⟨v⟩

/-- An opaque boxed processor produced by a factory; its contents are never
inspected by the controller. -/
structure ProcessorBox where
  tag : Nat
deriving DecidableEq

/-- A processor factory: supported class strings plus the `create` capability. -/
structure ProcessorFactory where
  supported_classes : List String
  create : Node → Option ProcessorBox

/-- A parameter render port binding (`ParamRenderPort`): either
`Value(param_value, slice_buffer)` for an unconnected port (the `Arc` handle
is embedded as the parameter-store key) or `Buffer(buffer)` for an
audio-driven port. -/
inductive ParamRenderPort where
  | value (param_value : Nat) (slice_buffer : Nat)
  | buffer (buffer : Nat)
deriving DecidableEq

/-- A render operation (`RenderOp`). Buffer and processor refs are embedded as
their keys. -/
inductive RenderOp where
  | RenderProcessor (processor_ref : Nat) (audio_inputs : List (String × List Nat))
      (audio_outputs : List (String × List Nat)) (parameters : List (String × ParamRenderPort))
  | RenderOutput (alias_name : String) (audio_input : List Nat)
deriving DecidableEq

/-- The ordered render plan. -/
structure RenderPlan where
  operations : List RenderOp
deriving DecidableEq

/-- The single message variant carried by the SPSC channel. -/
inductive Message where
  | MoveRenderPlan (plan : RenderPlan)
deriving DecidableEq

/-- The controller errors of `ControllerError`, plus a `Panic` value standing
for the Rust panics reachable through the two `unwrap` calls of the source. -/
inductive ControllerError where
  | ProcessorNotFound (k : Nat)
  | ParametersNotFound (k : Nat)
  | BufferNotFound (k : Nat)
  | NodeCacheNotFound (r : Nat)
  | NodeNotFound (r : Nat)
  | SendFailure
  | ProcessorFactoryNotFound (ref_string : String) (node_class : String)
  | ProcessorCreationFailed (ref_string : String) (node_class : String)
  | ParamValueKeyNotFound (k : Nat)
  | ParamValueNotFound (k : Nat)
  | SliceBufferNotFound (k : Nat)
  | AudioOutBufferNotFound (k : Nat)
  | Panic (msg : String)
deriving DecidableEq

/-- Per-node memo (`NodeCache`). -/
structure NodeCache where
  processor_key : Nat
  parameter_value_keys : List (Nat × Nat)
  audio_output_buffers : List (Nat × List Nat)
  allocated_buffers : List Nat
  render_ops : List RenderOp
deriving DecidableEq

def NodeCache.new (processor_key : Nat) (parameter_keys : List (Nat × Nat)) : NodeCache :=
  { processor_key := processor_key
    parameter_value_keys := parameter_keys
    audio_output_buffers := []
    allocated_buffers := []
    render_ops := [] }

/-- The cache components other than the transient `allocated_buffers`
ownership set: processor key, parameter keys, output buffer map, render
ops. -/
def NodeCache.shape (nc : NodeCache) :
    Nat × List (Nat × Nat) × List (Nat × List Nat) × List RenderOp :=
  (nc.processor_key, nc.parameter_value_keys, nc.audio_output_buffers, nc.render_ops)

def NodeCache.get_param_key (nc : NodeCache) (port_key : Nat) :
    Except ControllerError Nat :=
  match alookup nc.parameter_value_keys port_key with
  | some k => .ok k
  | none => .error (.ParamValueKeyNotFound port_key)

def NodeCache.get_audio_output_buffer (nc : NodeCache) (port_key : Nat) :
    Except ControllerError (List Nat) :=
  match alookup nc.audio_output_buffers port_key with
  | some bufs => .ok bufs
  | none => .error (.AudioOutBufferNotFound port_key)

/-- Transient per-update state (`UpdateContext`). -/
structure UpdateContext where
  destination_counts : List (Nat × Nat)
  free_buffers : List Nat
deriving DecidableEq

def UpdateContext.new (topology : GraphTopology) (free_buffers : List Nat) : UpdateContext :=
  { destination_counts := topology.destination_counts
    free_buffers := free_buffers }

def UpdateContext.add_to_free_buffers (ctx : UpdateContext) (buffers : List Nat) :
    UpdateContext :=
  { ctx with free_buffers := sUnion ctx.free_buffers buffers }

def UpdateContext.remove_from_free_buffers (ctx : UpdateContext) (buffers : List Nat) :
    UpdateContext :=
  { ctx with free_buffers := sDiff ctx.free_buffers buffers }

/-- Reference to a parameter port of a node (`ParamRef`). -/
structure ParamRef where
  node_ref : Nat
  param_port_key : Nat
deriving DecidableEq

/-- The controller state. The `tx`/`rx` halves of the SPSC channels are the
bounded `tx_queue` (capacity `tx_capacity`) and the `rx_queue`. -/
structure Controller where
  tx_capacity : Nat
  tx_queue : List Message
  rx_queue : List Message
  buffer_size : Nat
  parameters : List (Nat × ParamValue)
  parameters_next : Nat
  processor_factories : List (String × ProcessorFactory)
  processors : List (Nat × ProcessorBox)
  processors_next : Nat
  buffers : List Nat
  buffers_next : Nat
  empty_buffer : Nat
  nodes : List (Nat × NodeCache)

/-- `Controller::new`: registers the preallocated, silence-filled empty buffer
(key 0) and starts with empty registries. -/
def Controller.new (tx_capacity : Nat) (buffer_size : Nat) : Controller :=
  { tx_capacity := tx_capacity
    tx_queue := []
    rx_queue := []
    buffer_size := buffer_size
    parameters := []
    parameters_next := 0
    processor_factories := []
    processors := []
    processors_next := 0
    buffers := [0]
    buffers_next := 1
    empty_buffer := 0
    nodes := [] }

/-- `Controller::register_processor_factory`: index the factory under every
supported class string; later registrations overwrite. -/
def Controller.register_processor_factory (c : Controller) (factory : ProcessorFactory) :
    Controller :=
  { c with
    processor_factories :=
      factory.supported_classes.foldl (fun m cls => aInsert m cls factory)
        c.processor_factories }

def Controller.get_node_cache (c : Controller) (node_ref : Nat) :
    Except ControllerError NodeCache :=
  match alookup c.nodes node_ref with
  | some nc => .ok nc
  | none => .error (.NodeCacheNotFound node_ref)

def Controller.get_param_value (c : Controller) (param_key : Nat) :
    Except ControllerError ParamValue :=
  match alookup c.parameters param_key with
  | some pv => .ok pv
  | none => .error (.ParamValueNotFound param_key)

/-- `Controller::set_param_value`: resolve the node cache, the parameter key
and the `ParamValue` handle, then store the float into the shared cell. -/
def Controller.set_param_value (c : Controller) (param : ParamRef) (value : Float) :
    Except ControllerError Unit × Controller :=
  match alookup c.nodes param.node_ref with
  | none => (.error (.NodeCacheNotFound param.node_ref), c)
  | some node_cache =>
    match node_cache.get_param_key param.param_port_key with
    | .error e => (.error e, c)
    | .ok param_value_key =>
      match alookup c.parameters param_value_key with
      | none => (.error (.ParamValueNotFound param_value_key), c)
      | some _ =>
        (.ok (),
          { c with
            parameters := aUpdate c.parameters param_value_key (fun pv => pv.set value) })

/-- Helper of `Controller::create_node`: allocate one `ParamValue` per
parameter port, initialized to the descriptor's initial value, returning the
port-key-to-parameter-key map in port order. -/
def Controller.add_param_values (c : Controller) :
    List (Nat × ParamPort) → Controller × List (Nat × Nat)
  | [] => (c, [])
  | (port_key, port) :: rest =>
    let param_key := c.parameters_next
    let c1 := { c with
      parameters := c.parameters ++ [(param_key, ParamValue.new port.initial)]
      parameters_next := param_key + 1 }
    let (c2, tail) := Controller.add_param_values c1 rest
    (c2, (port_key, param_key) :: tail)

/-- `Controller::create_node`: look up the factory by the node's class, create
the processor, allocate the parameter values, return the fresh cache. -/
def Controller.create_node (c : Controller) (node_ref : Nat) (g : Graph) :
    Except ControllerError NodeCache × Controller :=
  match g.get_node node_ref with
  | none => (.error (.NodeNotFound node_ref), c)
  | some node =>
    match alookup c.processor_factories node.node_class with
    | none => (.error (.ProcessorFactoryNotFound node.ref_string node.node_class), c)
    | some factory =>
      match factory.create node with
      | none => (.error (.ProcessorCreationFailed node.ref_string node.node_class), c)
      | some processor =>
        let processor_key := c.processors_next
        let c1 := { c with
          processors := c.processors ++ [(processor_key, processor)]
          processors_next := processor_key + 1 }
        let (c2, parameter_values) := Controller.add_param_values c1 node.params
        (.ok (NodeCache.new processor_key parameter_values), c2)

/-- `Controller::allocate_buffer`: take an element of the free set if any
(determinized to the head), otherwise mint a new buffer in the registry. -/
def Controller.allocate_buffer (c : Controller) (ctx : UpdateContext) :
    Nat × Controller × UpdateContext :=
  match ctx.free_buffers with
  | key :: rest => (key, c, { ctx with free_buffers := rest })
  | [] =>
    let key := c.buffers_next
    (key, { c with buffers := c.buffers ++ [key], buffers_next := key + 1 }, ctx)

/-- `Controller::allocate_param_value_buffers`: one slice buffer per
unconnected parameter port, in port order; connected ports get none. -/
def Controller.alloc_param_bufs_go (c : Controller) (ctx : UpdateContext) :
    List (Nat × ParamPort) → List (Nat × Nat) × Controller × UpdateContext
  | [] => ([], c, ctx)
  | (port_key, port) :: rest =>
    match port.connection with
    | none =>
      let (buffer_key, c1, ctx1) := Controller.allocate_buffer c ctx
      let (tail, c2, ctx2) := Controller.alloc_param_bufs_go c1 ctx1 rest
      ((port_key, buffer_key) :: tail, c2, ctx2)
    | some _ => Controller.alloc_param_bufs_go c ctx rest

def Controller.allocate_param_value_buffers (c : Controller) (node : Node)
    (ctx : UpdateContext) : List (Nat × Nat) × Controller × UpdateContext :=
  Controller.alloc_param_bufs_go c ctx node.params

/-- `Controller::build_param_render_ports` (read-only): unconnected ports are
bound as `Value(param_value, slice_buffer)`, connected ports read channel 0 of
the source node's audio output buffers. -/
def Controller.build_param_render_ports_go (c : Controller) (node_ref : Nat)
    (value_buffers : List (Nat × Nat)) :
    List (Nat × ParamPort) → Except ControllerError (List (String × ParamRenderPort))
  | [] => .ok []
  | (port_key, port) :: rest =>
    match port.connection with
    | none =>
      match alookup c.nodes node_ref with
      | none => .error (.NodeCacheNotFound node_ref)
      | some node_cache =>
        match node_cache.get_param_key port_key with
        | .error e => .error e
        | .ok param_key =>
          match alookup c.parameters param_key with
          | none => .error (.ParamValueNotFound param_key)
          | some _ =>
            match alookup value_buffers port_key with
            | none => .error (.SliceBufferNotFound port_key)
            | some slice_buffer =>
              match Controller.build_param_render_ports_go c node_ref value_buffers rest with
              | .error e => .error e
              | .ok ports =>
                .ok ((port.id, ParamRenderPort.value param_key slice_buffer) :: ports)
    | some audio_out_ref =>
      match alookup c.nodes audio_out_ref.node_ref with
      | none => .error (.NodeCacheNotFound audio_out_ref.node_ref)
      | some node_cache =>
        match node_cache.get_audio_output_buffer audio_out_ref.audio_port_key with
        | .error e => .error e
        | .ok buffers =>
          match buffers.head? with
          | none => .error (.Panic "channel 0 missing")
          | some buffer =>
            match Controller.build_param_render_ports_go c node_ref value_buffers rest with
            | .error e => .error e
            | .ok ports => .ok ((port.id, ParamRenderPort.buffer buffer) :: ports)

def Controller.build_param_render_ports (c : Controller) (node_ref : Nat) (node : Node)
    (value_buffers : List (Nat × Nat)) :
    Except ControllerError (List (String × ParamRenderPort)) :=
  Controller.build_param_render_ports_go c node_ref value_buffers node.params

/-- `Controller::build_empty_audio_input_buffers`: one reference to the empty
buffer per channel (the `unwrap` on the registry lookup is a panic). -/
def Controller.build_empty_audio_input_buffers (c : Controller) (num_channels : Nat) :
    Except ControllerError (List Nat) :=
  if c.empty_buffer ∈ c.buffers then .ok (List.replicate num_channels c.empty_buffer)
  else .error (.Panic "empty buffer missing")

/-- `Controller::build_audio_input_buffers`: the source node's output buffer
list, verbatim. -/
def Controller.build_audio_input_buffers (c : Controller) (audio_out_ref : AudioOutRef) :
    Except ControllerError (List Nat) :=
  match alookup c.nodes audio_out_ref.node_ref with
  | none => .error (.NodeCacheNotFound audio_out_ref.node_ref)
  | some node_cache => node_cache.get_audio_output_buffer audio_out_ref.audio_port_key

/-- `Controller::collect_audio_input_buffers`: empty-buffer references for
unconnected inputs, the source's buffer list for connected ones. -/
def Controller.collect_audio_input_buffers_go (c : Controller) :
    List (Nat × AudioInPort) → Except ControllerError (List (String × List Nat))
  | [] => .ok []
  | (_, port) :: rest =>
    let buffers :=
      match port.connection with
      | none => Controller.build_empty_audio_input_buffers c port.channels
      | some audio_out_ref => Controller.build_audio_input_buffers c audio_out_ref
    match buffers with
    | .error e => .error e
    | .ok bufs =>
      match Controller.collect_audio_input_buffers_go c rest with
      | .error e => .error e
      | .ok m => .ok ((port.id, bufs) :: m)

def Controller.collect_audio_input_buffers (c : Controller) (node : Node) :
    Except ControllerError (List (String × List Nat)) :=
  Controller.collect_audio_input_buffers_go c node.audio_inputs

/-- Allocate `n` buffers in sequence (the per-channel loop of
`allocate_audio_output_buffers`). -/
def Controller.allocate_n_buffers (c : Controller) (ctx : UpdateContext) :
    Nat → List Nat × Controller × UpdateContext
  | 0 => ([], c, ctx)
  | n + 1 =>
    let (key, c1, ctx1) := Controller.allocate_buffer c ctx
    let (rest, c2, ctx2) := Controller.allocate_n_buffers c1 ctx1 n
    (key :: rest, c2, ctx2)

/-- `Controller::allocate_audio_output_buffers`: one buffer per declared
channel on each output port; the `filter_map` over the registry lookups is
mirrored by the registry-membership filter. -/
def Controller.alloc_audio_out_go (c : Controller) (ctx : UpdateContext) :
    List (Nat × AudioOutPort) → List (Nat × String × List Nat) × Controller × UpdateContext
  | [] => ([], c, ctx)
  | (port_key, port) :: rest =>
    let (buffer_keys, c1, ctx1) := Controller.allocate_n_buffers c ctx port.channels
    let buffers := buffer_keys.filter (fun k => decide (k ∈ c1.buffers))
    let (tail, c2, ctx2) := Controller.alloc_audio_out_go c1 ctx1 rest
    ((port_key, port.id, buffers) :: tail, c2, ctx2)

def Controller.allocate_audio_output_buffers (c : Controller) (node : Node)
    (ctx : UpdateContext) : List (Nat × String × List Nat) × Controller × UpdateContext :=
  Controller.alloc_audio_out_go c ctx node.audio_outputs

/-- `Controller::release_input_buffers`: for each source of the node,
decrement its destination count (inserting a default 0 when absent); when the
count is not positive, return that source's allocated buffers to the free set
and clear its allocated set. -/
def Controller.release_sources_go (c : Controller) (ctx : UpdateContext) :
    List Nat → Except ControllerError Unit × Controller × UpdateContext
  | [] => (.ok (), c, ctx)
  | s :: rest =>
    let step :=
      match alookup ctx.destination_counts s with
      | some e => (aUpdate ctx.destination_counts s (fun _ => usizeSub1 e), usizeSub1 e)
      | none => (ctx.destination_counts ++ [(s, 0)], 0)
    let ctx1 : UpdateContext := { ctx with destination_counts := step.1 }
    if step.2 = 0 then
      match alookup c.nodes s with
      | none => (.error (.NodeCacheNotFound s), c, ctx1)
      | some source_node_cache =>
        let ctx2 := ctx1.add_to_free_buffers source_node_cache.allocated_buffers
        let c1 := { c with
          nodes := aInsert c.nodes s { source_node_cache with allocated_buffers := [] } }
        Controller.release_sources_go c1 ctx2 rest
    else
      Controller.release_sources_go c ctx1 rest

def Controller.release_input_buffers (c : Controller) (node : Node) (ctx : UpdateContext) :
    Except ControllerError Unit × Controller × UpdateContext :=
  Controller.release_sources_go c ctx node.sources

/-- `Controller::clear_node_cache`: return the cache's allocated buffers to
the free set and clear the allocated set, the output map and the op list. -/
def Controller.clear_node_cache (c : Controller) (node_ref : Nat) (ctx : UpdateContext) :
    Except ControllerError Unit × Controller × UpdateContext :=
  match alookup c.nodes node_ref with
  | none => (.error (.NodeCacheNotFound node_ref), c, ctx)
  | some node_cache =>
    let ctx1 := ctx.add_to_free_buffers node_cache.allocated_buffers
    let c1 := { c with
      nodes := aInsert c.nodes node_ref
        { node_cache with allocated_buffers := [], audio_output_buffers := [], render_ops := [] } }
    (.ok (), c1, ctx1)

/-- `Controller::update_node_cache`: store the new allocated set and output
map on the cache, then (after the processor lookup) push the
`RenderProcessor` op. The allocated set and output map are written before the
processor lookup, exactly as in the source. -/
def Controller.update_node_cache (c : Controller) (node_ref : Nat)
    (param_value_buffers : List (Nat × Nat))
    (param_render_ports : List (String × ParamRenderPort))
    (audio_input_buffers : List (String × List Nat))
    (audio_output_buffers : List (Nat × String × List Nat)) :
    Except ControllerError Unit × Controller :=
  match alookup c.nodes node_ref with
  | none => (.error (.NodeCacheNotFound node_ref), c)
  | some node_cache =>
    let allocated :=
      param_value_buffers.map (fun p => p.2) ++
        (audio_output_buffers.map (fun p => p.2.2)).flatten
    let out_map := audio_output_buffers.map (fun p => (p.1, p.2.2))
    let nc1 := { node_cache with
      allocated_buffers := allocated
      audio_output_buffers := out_map }
    let c1 := { c with nodes := aInsert c.nodes node_ref nc1 }
    match alookup c1.processors nc1.processor_key with
    | none => (.error (.ProcessorNotFound nc1.processor_key), c1)
    | some _ =>
      let audio_outputs := audio_output_buffers.map (fun p => p.2)
      let nc2 := { nc1 with
        render_ops := nc1.render_ops ++
          [RenderOp.RenderProcessor nc1.processor_key audio_input_buffers audio_outputs
            param_render_ports] }
      (.ok (), { c1 with nodes := aInsert c1.nodes node_ref nc2 })

/-- `Controller::visit_invalidated_node`. -/
def Controller.visit_invalidated_node (c : Controller) (node_ref : Nat) (g : Graph)
    (ctx : UpdateContext) : Except ControllerError Unit × Controller × UpdateContext :=
  match Controller.clear_node_cache c node_ref ctx with
  | (.error e, c1, ctx1) => (.error e, c1, ctx1)
  | (.ok _, c1, ctx1) =>
    match g.get_node node_ref with
    | none => (.error (.NodeNotFound node_ref), c1, ctx1)
    | some node =>
      let (param_value_buffers, c2, ctx2) :=
        Controller.allocate_param_value_buffers c1 node ctx1
      match Controller.build_param_render_ports c2 node_ref node param_value_buffers with
      | .error e => (.error e, c2, ctx2)
      | .ok param_render_ports =>
        match Controller.collect_audio_input_buffers c2 node with
        | .error e => (.error e, c2, ctx2)
        | .ok audio_input_buffers =>
          let (audio_output_buffers, c3, ctx3) :=
            Controller.allocate_audio_output_buffers c2 node ctx2
          match Controller.release_input_buffers c3 node ctx3 with
          | (.error e, c4, ctx4) => (.error e, c4, ctx4)
          | (.ok _, c4, ctx4) =>
            match Controller.update_node_cache c4 node_ref param_value_buffers
                param_render_ports audio_input_buffers audio_output_buffers with
            | (.error e, c5) => (.error e, c5, ctx4)
            | (.ok _, c5) => (.ok (), c5, ctx4)

/-- `Controller::visit_unchanged_node`: release consumed input buffers and
remove this node's own buffers from the free set. -/
def Controller.visit_unchanged_node (c : Controller) (node_ref : Nat) (g : Graph)
    (ctx : UpdateContext) : Except ControllerError Unit × Controller × UpdateContext :=
  match g.get_node node_ref with
  | none => (.error (.NodeNotFound node_ref), c, ctx)
  | some node =>
    match Controller.release_input_buffers c node ctx with
    | (.error e, c1, ctx1) => (.error e, c1, ctx1)
    | (.ok _, c1, ctx1) =>
      match alookup c1.nodes node_ref with
      | none => (.error (.NodeCacheNotFound node_ref), c1, ctx1)
      | some node_cache =>
        (.ok (), c1, ctx1.remove_from_free_buffers node_cache.allocated_buffers)

/-- `Controller::update_nodes`: visit the nodes in topological order, creating
missing caches, rebuilding fresh or invalidated ones and refreshing the
unchanged ones. -/
def Controller.update_nodes (c : Controller) (node_refs : List Nat) (g : Graph)
    (ctx : UpdateContext) : Except ControllerError Unit × Controller × UpdateContext :=
  match node_refs with
  | [] => (.ok (), c, ctx)
  | node_ref :: rest =>
    let node_cache_create := (alookup c.nodes node_ref).isNone
    let step : Except ControllerError Unit × Controller :=
      if node_cache_create then
        match Controller.create_node c node_ref g with
        | (.error e, c1) => (.error e, c1)
        | (.ok node_cache, c1) =>
          (.ok (), { c1 with nodes := aInsert c1.nodes node_ref node_cache })
      else (.ok (), c)
    match step with
    | (.error e, c1) => (.error e, c1, ctx)
    | (.ok _, c1) =>
      match g.get_node node_ref with
      | none => (.error (.NodeNotFound node_ref), c1, ctx)
      | some node =>
        let visit :=
          if node.invalidated || node_cache_create then
            Controller.visit_invalidated_node c1 node_ref g ctx
          else
            Controller.visit_unchanged_node c1 node_ref g ctx
        match visit with
        | (.error e, c2, ctx2) => (.error e, c2, ctx2)
        | (.ok _, c2, ctx2) => Controller.update_nodes c2 rest g ctx2

/-- The per-node op concatenation loop of `Controller::update_graph`. -/
def Controller.collect_plan_ops (c : Controller) :
    List Nat → Except ControllerError (List RenderOp)
  | [] => .ok []
  | node_ref :: rest =>
    match alookup c.nodes node_ref with
    | none => .error (.NodeCacheNotFound node_ref)
    | some node_cache =>
      match Controller.collect_plan_ops c rest with
      | .error e => .error e
      | .ok ops => .ok (node_cache.render_ops ++ ops)

/-- The bound-output loop of `Controller::update_graph`. -/
def Controller.collect_output_ops (c : Controller) :
    List (String × AudioOutRef) → Except ControllerError (List RenderOp)
  | [] => .ok []
  | (al, audio_out_ref) :: rest =>
    match alookup c.nodes audio_out_ref.node_ref with
    | none => .error (.NodeCacheNotFound audio_out_ref.node_ref)
    | some node_cache =>
      match node_cache.get_audio_output_buffer audio_out_ref.audio_port_key with
      | .error e => .error e
      | .ok output_buffers =>
        match Controller.collect_output_ops c rest with
        | .error e => .error e
        | .ok ops => .ok (RenderOp.RenderOutput al output_buffers :: ops)

/-- `Controller::update_graph`: seed the update context with all non-empty
buffer keys as free and a copy of the destination counts, visit all nodes,
assemble the plan (processor ops in topological order, then the bound-output
ops) and push it to the renderer. -/
def Controller.update_graph (c : Controller) (g : Graph) :
    Except ControllerError Unit × Controller :=
  let topology := g.topology
  let free := c.buffers.filter (fun k => decide (¬ k = c.empty_buffer))
  let ctx := UpdateContext.new topology free
  match Controller.update_nodes c topology.nodes g ctx with
  | (.error e, c1, _) => (.error e, c1)
  | (.ok _, c1, _) =>
    match Controller.collect_plan_ops c1 topology.nodes with
    | .error e => (.error e, c1)
    | .ok proc_ops =>
      match Controller.collect_output_ops c1 g.bound_audio_outputs with
      | .error e => (.error e, c1)
      | .ok out_ops =>
        let plan : RenderPlan := { operations := proc_ops ++ out_ops }
        if c1.tx_queue.length < c1.tx_capacity then
          (.ok (), { c1 with tx_queue := c1.tx_queue ++ [Message.MoveRenderPlan plan] })
        else
          (.error .SendFailure, c1)

/-- `Controller::process_messages`: drain and destroy the returned plans. -/
def Controller.process_messages (c : Controller) : Controller :=
  { c with rx_queue := [] }

/-! ## Derived notions used by the properties -/

/-- Buffer keys referenced by a parameter render port. -/
def ParamRenderPort.bufferKeys : ParamRenderPort → List Nat
  | .value _ slice_buffer => [slice_buffer]
  | .buffer b => [b]

/-- All buffer keys referenced by a render op. -/
def RenderOp.bufferKeys : RenderOp → List Nat
  | .RenderProcessor _ audio_inputs audio_outputs parameters =>
    (audio_inputs.map (fun p => p.2)).flatten ++ (audio_outputs.map (fun p => p.2)).flatten ++
      (parameters.map (fun p => p.2.bufferKeys)).flatten
  | .RenderOutput _ audio_input => audio_input

/-- Discriminator for `RenderProcessor` ops. -/
def RenderOp.isProc : RenderOp → Bool
  | .RenderProcessor .. => true
  | .RenderOutput .. => false

/-- Whether an op is a `RenderOutput` carrying the given alias. -/
def RenderOp.hasAlias (al : String) : RenderOp → Bool
  | .RenderOutput a _ => a == al
  | .RenderProcessor .. => false

/-- The node refs whose cache currently owns buffer `k` in its
`allocated_buffers` set. -/
def Controller.ownersOf (c : Controller) (k : Nat) : List Nat :=
  (c.nodes.filter (fun p => decide (k ∈ p.2.allocated_buffers))).map Prod.fst

/-- All render-op lists of the caches hold only `RenderProcessor` ops (the
bound-output `RenderOutput` ops are appended directly to the plan and never
stored in a cache). -/
def Controller.cacheOpsProc (c : Controller) : Prop :=
  ∀ p ∈ c.nodes, ∀ op ∈ p.2.render_ops, op.isProc = true

/-- Controller states reachable through the public interface.  The `pop` and
`recv` constructors model the renderer's side of the two channels: it pops
plans from the front of the outbound queue and sends retired plans back. -/
inductive Controller.Reachable : Controller → Prop
  | new (cap bs : Nat) : Controller.Reachable (Controller.new cap bs)
  | register {c : Controller} (f : ProcessorFactory) :
      Controller.Reachable c → Controller.Reachable (c.register_processor_factory f)
  | set_param {c : Controller} (p : ParamRef) (v : Float) :
      Controller.Reachable c → Controller.Reachable (c.set_param_value p v).2
  | update {c : Controller} (g : Graph) :
      Controller.Reachable c → Controller.Reachable (c.update_graph g).2
  | process {c : Controller} :
      Controller.Reachable c → Controller.Reachable c.process_messages
  | pop {c : Controller} :
      Controller.Reachable c → Controller.Reachable { c with tx_queue := c.tx_queue.drop 1 }
  | recv {c : Controller} (m : Message) :
      Controller.Reachable c → Controller.Reachable { c with rx_queue := c.rx_queue ++ [m] }

/-- The sources of a node as seen from the graph (empty when the node is
missing). -/
def Graph.sourcesOf (g : Graph) (r : Nat) : List Nat :=
  match g.get_node r with
  | some node => node.sources
  | none => []

/-- Dependency order of a node list relative to already-visited nodes: every
source of every node has been listed before it. -/
def Graph.topoOrderedFrom (g : Graph) : List Nat → List Nat → Prop
  | _, [] => True
  | seen, r :: rest =>
    (∀ s ∈ g.sourcesOf r, s ∈ seen) ∧ g.topoOrderedFrom (seen ++ [r]) rest

instance Graph.instDecTopoOrderedFrom (g : Graph) :
    (seen l : List Nat) → Decidable (g.topoOrderedFrom seen l)
  | _, [] => .isTrue trivial
  | seen, r :: rest =>
    have : Decidable (g.topoOrderedFrom (seen ++ [r]) rest) :=
      Graph.instDecTopoOrderedFrom g (seen ++ [r]) rest
    inferInstanceAs (Decidable (_ ∧ _))

/-- Port keys and port id strings of a node are duplicate-free. -/
def Node.portIdsNodup (n : Node) : Prop :=
  (n.params.map Prod.fst).Nodup ∧ (n.params.map (fun p => p.2.id)).Nodup ∧
    (n.audio_inputs.map Prod.fst).Nodup ∧ (n.audio_inputs.map (fun p => p.2.id)).Nodup ∧
    (n.audio_outputs.map Prod.fst).Nodup ∧ (n.audio_outputs.map (fun p => p.2.id)).Nodup

instance (n : Node) : Decidable n.portIdsNodup :=
  inferInstanceAs (Decidable (_ ∧ _))

/-- Modelled from the spec: well-formedness of the graph as guaranteed by the
graph library interface - the topology lists each node exactly once in
dependency order, node refs resolve, port keys and ids are unique per node,
and bound-output aliases are unique. -/
structure Graph.Wf (g : Graph) : Prop where
  topo_nodup : g.topo.nodes.Nodup
  topo_has_node : ∀ r ∈ g.topo.nodes, (g.get_node r).isSome = true
  nodes_in_topo : ∀ p ∈ g.node_map, p.1 ∈ g.topo.nodes
  node_keys_nodup : (g.node_map.map Prod.fst).Nodup
  ordered : g.topoOrderedFrom [] g.topo.nodes
  port_ids : ∀ p ∈ g.node_map, Node.portIdsNodup p.2
  alias_nodup : (g.bound_audio_outputs.map Prod.fst).Nodup
  sources_in_topo : ∀ r ∈ g.topo.nodes, ∀ s ∈ g.sourcesOf r, s ∈ g.topo.nodes

/-! ## Concrete scenarios

`tpFactory` plays the role of the `TestProcessorFactory` of the source's test
module.  `graphN` is the three-node graph of that test module; `graphST` is a
minimal two-node chain; `graphABC inv` is a three-node chain whose middle
node carries one unconnected parameter and whose invalidation bit is `inv`,
used across two consecutive updates. -/

def tpFactory : ProcessorFactory :=
  { supported_classes := ["source-class", "sink-class"]
    create := fun _ => some ⟨0⟩ }

def nodeN1 : Node :=
  { ref_string := "Node[N1]", node_class := "source-class", invalidated := false
    params := [], audio_inputs := []
    audio_outputs := [(10, { id := "OUT", channels := 1 })] }

def nodeN2 : Node := { nodeN1 with ref_string := "Node[N2]" }

def nodeN3 : Node :=
  { ref_string := "Node[N3]", node_class := "sink-class", invalidated := false
    params := [(30, { id := "P1", initial := 0.0, connection := some ⟨2, 10⟩ }),
               (31, { id := "P2", initial := 0.0, connection := none }),
               (32, { id := "P3", initial := 0.0, connection := none })]
    audio_inputs := [(20, { id := "IN1", channels := 1, connection := some ⟨1, 10⟩ }),
                     (21, { id := "IN2", channels := 1, connection := some ⟨2, 10⟩ })]
    audio_outputs := [(10, { id := "OUT", channels := 1 })] }

def graphN : Graph :=
  { node_map := [(1, nodeN1), (2, nodeN2), (3, nodeN3)]
    topo := { nodes := [1, 2, 3], destination_counts := [(1, 1), (2, 2), (3, 0)] }
    bound_audio_outputs := [("OUT", ⟨3, 10⟩)] }

def ctrl1 : Controller := (Controller.new 1 64).register_processor_factory tpFactory

def nodeS : Node :=
  { ref_string := "Node[S]", node_class := "source-class", invalidated := false
    params := [], audio_inputs := []
    audio_outputs := [(10, { id := "OUT", channels := 1 })] }

def nodeT : Node :=
  { ref_string := "Node[T]", node_class := "sink-class", invalidated := false
    params := []
    audio_inputs := [(20, { id := "IN", channels := 1, connection := some ⟨4, 10⟩ })]
    audio_outputs := [(11, { id := "OUT", channels := 1 })] }

def graphST : Graph :=
  { node_map := [(4, nodeS), (5, nodeT)]
    topo := { nodes := [4, 5], destination_counts := [(4, 1), (5, 0)] }
    bound_audio_outputs := [("OUT", ⟨5, 11⟩)] }

def nodeA : Node :=
  { ref_string := "Node[A]", node_class := "source-class", invalidated := false
    params := [], audio_inputs := []
    audio_outputs := [(10, { id := "OUT", channels := 1 })] }

def nodeB (inv : Bool) : Node :=
  { ref_string := "Node[B]", node_class := "sink-class", invalidated := inv
    params := [(30, { id := "P", initial := 0.0, connection := none })]
    audio_inputs := [(20, { id := "IN", channels := 1, connection := some ⟨6, 10⟩ })]
    audio_outputs := [(11, { id := "OUT", channels := 1 })] }

def nodeC : Node :=
  { ref_string := "Node[C]", node_class := "sink-class", invalidated := false
    params := []
    audio_inputs := [(21, { id := "IN", channels := 1, connection := some ⟨7, 11⟩ })]
    audio_outputs := [(12, { id := "OUT", channels := 1 })] }

def graphABC (inv : Bool) : Graph :=
  { node_map := [(6, nodeA), (7, nodeB inv), (8, nodeC)]
    topo := { nodes := [6, 7, 8], destination_counts := [(6, 1), (7, 1), (8, 0)] }
    bound_audio_outputs := [("OUT", ⟨8, 12⟩)] }

def ctrl2 : Controller := (Controller.new 2 64).register_processor_factory tpFactory

/-- A controller holding one cached node (ref 9) that owns buffer 7, used for
the destination-count scenarios. -/
def cacheNine : NodeCache :=
  { processor_key := 0, parameter_value_keys := [], audio_output_buffers := [(10, [7])]
    allocated_buffers := [7], render_ops := [] }

def ctrlNine : Controller :=
  { Controller.new 1 64 with nodes := [(9, cacheNine)], buffers := [0, 7], buffers_next := 8 }

/-- A controller holding one cached node (ref 12) with one parameter port
(key 30) mapped to parameter 0, used for the parameter-write scenarios. -/
def cacheTwelve : NodeCache :=
  { processor_key := 0, parameter_value_keys := [(30, 0)], audio_output_buffers := []
    allocated_buffers := [], render_ops := [] }

def ctrlTwelve : Controller :=
  { Controller.new 1 64 with
    nodes := [(12, cacheTwelve)], parameters := [(0, ParamValue.new 0.5)], parameters_next := 1 }

def ctxNineZero : UpdateContext := { destination_counts := [(9, 0)], free_buffers := [] }

def ctxNineOne : UpdateContext := { destination_counts := [(9, 1)], free_buffers := [] }

/-- First update pass on the `A -> B -> C` chain (nothing invalidated). -/
def runABC1 : Except ControllerError Unit × Controller :=
  Controller.update_graph ctrl2 (graphABC false)

/-- Second update pass on the chain after invalidating the middle node `B`:
the source `B` is rebuilt while its sink `C` is unchanged. -/
def runABC2 : Except ControllerError Unit × Controller :=
  Controller.update_graph runABC1.2 (graphABC true)

/-- First update pass on the two-node chain `S -> T`. -/
def runST1 : Except ControllerError Unit × Controller :=
  Controller.update_graph ctrl1 graphST

/-- State after the first update pass on the three-node test graph. -/
def ctrlN1 : Controller := (Controller.update_graph ctrl1 graphN).2

/-- A fresh update context over the test graph's topology, seeded like
`update_graph` seeds it: all non-empty registered buffers are free. -/
def ctxN1 : UpdateContext :=
  UpdateContext.new graphN.topology
    (ctrlN1.buffers.filter (fun k => decide (¬ k = ctrlN1.empty_buffer)))

/-- An isolated rebuild of the sink node of the test graph. -/
def visitN3 : Except ControllerError Unit × Controller × UpdateContext :=
  Controller.visit_invalidated_node ctrlN1 3 graphN ctxN1

/-- Frame of an update pass: the controller fields that no function reachable
from `update_nodes` ever touches. -/
def updFrame (c c' : Controller) : Prop :=
  c'.tx_capacity = c.tx_capacity ∧ c'.tx_queue = c.tx_queue ∧ c'.rx_queue = c.rx_queue ∧
    c'.buffer_size = c.buffer_size ∧ c'.empty_buffer = c.empty_buffer ∧
    c'.processor_factories = c.processor_factories

/-- Buffer-ownership invariant of an update pass that starts from an empty
cache table: the free pool is duplicate-free and holds registered, non-empty
keys below the buffer counter; the empty buffer is registered and below the
counter; cache keys are unique; every cache's allocated set is duplicate-free
and holds registered non-empty keys below the counter that are not free; all
cached output-map and render-op buffer keys are registered and below the
counter; and the allocated sets of distinct caches are disjoint. -/
def UpdInv (c : Controller) (ctx : UpdateContext) : Prop :=
  ctx.free_buffers.Nodup ∧
  (∀ f ∈ ctx.free_buffers,
    f ∈ c.buffers ∧ f < c.buffers_next ∧ f ≠ c.empty_buffer) ∧
  c.empty_buffer < c.buffers_next ∧
  c.empty_buffer ∈ c.buffers ∧
  (c.nodes.map Prod.fst).Nodup ∧
  (∀ p ∈ c.nodes,
    p.2.allocated_buffers.Nodup ∧
    (∀ b ∈ p.2.allocated_buffers,
      b ∈ c.buffers ∧ b < c.buffers_next ∧ b ∉ ctx.free_buffers ∧ b ≠ c.empty_buffer) ∧
    (∀ q ∈ p.2.audio_output_buffers, ∀ b ∈ q.2, b ∈ c.buffers ∧ b < c.buffers_next) ∧
    (∀ op ∈ p.2.render_ops, ∀ b ∈ op.bufferKeys, b ∈ c.buffers ∧ b < c.buffers_next)) ∧
  (∀ p ∈ c.nodes, ∀ q ∈ c.nodes, p.1 ≠ q.1 →
    ∀ b ∈ p.2.allocated_buffers, b ∉ q.2.allocated_buffers)

/-! ## General lemmas about the map and set helpers -/

theorem alookup_append {α : Type} [DecidableEq α] {β : Type} (a b : List (α × β)) (key : α) :
    alookup (a ++ b) key = ((alookup a key).rec (alookup b key) (fun v => some v)) := by
  induction a with
  | nil => simp
  | cons p rest ih =>
    rcases p with ⟨k, v⟩
    by_cases h : k = key <;> simp [alookup, h, ih]

theorem alookup_append_left {α : Type} [DecidableEq α] {β : Type} {a : List (α × β)}
    (b : List (α × β)) {key : α} {v : β} (h : alookup a key = some v) :
    alookup (a ++ b) key = some v := by
  rw [alookup_append, h]

theorem alookup_append_right {α : Type} [DecidableEq α] {β : Type} {a : List (α × β)}
    (b : List (α × β)) {key : α} (h : alookup a key = none) :
    alookup (a ++ b) key = alookup b key := by
  rw [alookup_append, h]

theorem mem_of_alookup {α : Type} [DecidableEq α] {β : Type} {m : List (α × β)} {key : α}
    {v : β} (h : alookup m key = some v) : (key, v) ∈ m := by
  induction m with
  | nil => simp [alookup] at h
  | cons p rest ih =>
    rcases p with ⟨k, w⟩
    by_cases hk : k = key
    · subst hk
      simp [alookup] at h
      subst h
      exact List.mem_cons_self _ _
    · simp [alookup, hk] at h
      exact List.mem_cons_of_mem _ (ih h)

theorem alookup_eq_none_of_not_mem {α : Type} [DecidableEq α] {β : Type} {m : List (α × β)}
    {key : α} (h : key ∉ m.map Prod.fst) : alookup m key = none := by
  induction m with
  | nil => rfl
  | cons p rest ih =>
    rcases p with ⟨k, w⟩
    simp only [List.map_cons, List.mem_cons] at h
    push_neg at h
    have hk : ¬ k = key := fun hk => h.1 hk.symm
    simp [alookup, hk, ih h.2]

theorem alookup_isSome_of_mem {α : Type} [DecidableEq α] {β : Type} {m : List (α × β)}
    {key : α} (h : key ∈ m.map Prod.fst) : (alookup m key).isSome = true := by
  induction m with
  | nil => simp at h
  | cons p rest ih =>
    rcases p with ⟨k, w⟩
    by_cases hk : k = key
    · simp [alookup, hk]
    · simp only [List.map_cons, List.mem_cons] at h
      rcases h with h | h
      · exact absurd h.symm hk
      · simp [alookup, hk, ih h]

theorem alookup_aInsert_self {α : Type} [DecidableEq α] {β : Type} (m : List (α × β))
    (key : α) (v : β) : alookup (aInsert m key v) key = some v := by
  induction m with
  | nil => simp [aInsert, alookup]
  | cons p rest ih =>
    rcases p with ⟨k, w⟩
    by_cases h : k = key <;> simp [aInsert, alookup, h, ih]

theorem alookup_aInsert_ne {α : Type} [DecidableEq α] {β : Type} (m : List (α × β))
    {key key' : α} (v : β) (h : key ≠ key') :
    alookup (aInsert m key v) key' = alookup m key' := by
  induction m with
  | nil => simp [aInsert, alookup, h]
  | cons p rest ih =>
    rcases p with ⟨k, w⟩
    by_cases hk : k = key
    · subst hk; simp [aInsert, alookup, h]
    · simp [aInsert, alookup, hk, ih]

theorem mem_aInsert {α : Type} [DecidableEq α] {β : Type} {m : List (α × β)} {key : α}
    {v : β} {p : α × β} (h : p ∈ aInsert m key v) : p = (key, v) ∨ p ∈ m := by
  induction m with
  | nil => simpa [aInsert] using h
  | cons q rest ih =>
    rcases q with ⟨k, w⟩
    by_cases hk : k = key
    · simp only [aInsert, hk, if_true] at h
      rcases List.mem_cons.mp h with h | h
      · exact Or.inl h
      · exact Or.inr (List.mem_cons_of_mem _ h)
    · simp only [aInsert, hk, if_false] at h
      rcases List.mem_cons.mp h with h | h
      · exact Or.inr (by simp [h])
      · rcases ih h with h | h
        · exact Or.inl h
        · exact Or.inr (List.mem_cons_of_mem _ h)

theorem aInsert_keys_of_mem {α : Type} [DecidableEq α] {β : Type} (m : List (α × β))
    (key : α) (v : β) (h : key ∈ m.map Prod.fst) :
    (aInsert m key v).map Prod.fst = m.map Prod.fst := by
  induction m with
  | nil => simp at h
  | cons p rest ih =>
    rcases p with ⟨k, w⟩
    by_cases hk : k = key
    · subst hk; simp [aInsert]
    · simp only [List.map_cons, List.mem_cons] at h
      rcases h with h | h
      · exact absurd h.symm hk
      · simp [aInsert, hk, ih h]

theorem aInsert_keys_of_not_mem {α : Type} [DecidableEq α] {β : Type} (m : List (α × β))
    (key : α) (v : β) (h : key ∉ m.map Prod.fst) :
    (aInsert m key v).map Prod.fst = m.map Prod.fst ++ [key] := by
  induction m with
  | nil => simp [aInsert]
  | cons p rest ih =>
    rcases p with ⟨k, w⟩
    simp only [List.map_cons, List.mem_cons] at h
    push_neg at h
    have hk : ¬ k = key := fun hk => h.1 hk.symm
    simp [aInsert, hk, ih h.2]

theorem aUpdate_cons {α : Type} [DecidableEq α] {β : Type} (k : α) (w : β)
    (rest : List (α × β)) (key : α) (f : β → β) :
    aUpdate ((k, w) :: rest) key f =
      (if k = key then (k, f w) else (k, w)) :: aUpdate rest key f := by
  by_cases h : k = key <;> simp [aUpdate, h]

theorem alookup_aUpdate_self {α : Type} [DecidableEq α] {β : Type} (m : List (α × β))
    (key : α) (f : β → β) :
    alookup (aUpdate m key f) key = (alookup m key).map f := by
  induction m with
  | nil => rfl
  | cons p rest ih =>
    rcases p with ⟨k, w⟩
    by_cases h : k = key <;> simp [aUpdate, alookup, h, ih]

theorem alookup_aUpdate_ne {α : Type} [DecidableEq α] {β : Type} (m : List (α × β))
    {key key' : α} (f : β → β) (h : key ≠ key') :
    alookup (aUpdate m key f) key' = alookup m key' := by
  induction m with
  | nil => rfl
  | cons p rest ih =>
    rcases p with ⟨k, w⟩
    by_cases hk : k = key
    · simp [aUpdate, alookup, hk, h, ih]
    · simp [aUpdate, alookup, hk, ih]

theorem allocate_buffer_head (c : Controller) (ctx : UpdateContext) (b : Nat) (l : List Nat)
    (h : ctx.free_buffers = b :: l) :
    Controller.allocate_buffer c ctx = (b, c, { ctx with free_buffers := l }) := by
  unfold Controller.allocate_buffer
  rw [h]

/-! ## Parameter writes (claims C8, C10) -/

/-- C8: for a parameter reference whose node cache, parameter key and
ParamValue handle resolve, `set_param_value` stores the float into that
ParamValue (a subsequent read of the cell returns the written value) and
changes nothing else: no other parameter entry, no node cache (hence no
render op), no buffer or processor registry entry, no factory, and nothing is
pushed on either channel (no plan rebuilt or sent). -/
theorem set_param_value_spec (c : Controller) (pr : ParamRef) (v : Float)
    (nc : NodeCache) (pvk : Nat) (pv : ParamValue)
    (hnc : alookup c.nodes pr.node_ref = some nc)
    (hkey : alookup nc.parameter_value_keys pr.param_port_key = some pvk)
    (hpv : alookup c.parameters pvk = some pv) :
    (c.set_param_value pr v).1 = .ok () ∧
    alookup (c.set_param_value pr v).2.parameters pvk = some (pv.set v) ∧
    (pv.set v).value = v ∧
    (∀ k, k ≠ pvk → alookup (c.set_param_value pr v).2.parameters k = alookup c.parameters k) ∧
    (c.set_param_value pr v).2.nodes = c.nodes ∧
    (c.set_param_value pr v).2.buffers = c.buffers ∧
    (c.set_param_value pr v).2.processors = c.processors ∧
    (c.set_param_value pr v).2.processor_factories = c.processor_factories ∧
    (c.set_param_value pr v).2.tx_queue = c.tx_queue ∧
    (c.set_param_value pr v).2.rx_queue = c.rx_queue := by
  have hres : c.set_param_value pr v =
      (.ok (), { c with parameters := aUpdate c.parameters pvk (fun p => p.set v) }) := by
    simp only [Controller.set_param_value, NodeCache.get_param_key, hnc, hkey, hpv]
  rw [hres]
  refine ⟨rfl, ?_, rfl, ?_, rfl, rfl, rfl, rfl, rfl, rfl⟩
  · show alookup (aUpdate c.parameters pvk (fun p => p.set v)) pvk = _
    rw [alookup_aUpdate_self, hpv]
    rfl
  · intro k hk
    exact alookup_aUpdate_ne _ _ (Ne.symm hk)

theorem set_param_value_spec_witness :
    (ctrlTwelve.set_param_value ⟨12, 30⟩ 2.5).1 = .ok () ∧
    alookup (ctrlTwelve.set_param_value ⟨12, 30⟩ 2.5).2.parameters 0 =
      some (ParamValue.new 2.5) ∧
    (ctrlTwelve.set_param_value ⟨12, 30⟩ 2.5).2.nodes = ctrlTwelve.nodes ∧
    (ctrlTwelve.set_param_value ⟨12, 30⟩ 2.5).2.tx_queue = ctrlTwelve.tx_queue := by
  obtain ⟨h1, h2, _, _, h5, _, _, _, h9, _⟩ :=
    set_param_value_spec ctrlTwelve ⟨12, 30⟩ 2.5 cacheTwelve 0 (ParamValue.new 0.5) rfl rfl rfl
  exact ⟨h1, h2, h5, h9⟩

/-- C10: for a parameter reference whose node has no cache,
`set_param_value` returns `NodeCacheNotFound`; for a cached node whose cache
lacks the parameter port key it returns `ParamValueKeyNotFound`; in both
cases the controller - every ParamValue included - is returned unchanged, and
no panic occurs. -/
theorem set_param_value_errors (c : Controller) (pr : ParamRef) (v : Float) :
    (alookup c.nodes pr.node_ref = none →
      c.set_param_value pr v = (.error (.NodeCacheNotFound pr.node_ref), c)) ∧
    (∀ nc, alookup c.nodes pr.node_ref = some nc →
      alookup nc.parameter_value_keys pr.param_port_key = none →
      c.set_param_value pr v = (.error (.ParamValueKeyNotFound pr.param_port_key), c)) := by
  constructor
  · intro h
    simp only [Controller.set_param_value, h]
  · intro nc h h2
    simp only [Controller.set_param_value, NodeCache.get_param_key, h, h2]

theorem set_param_value_errors_witness :
    (Controller.new 1 64).set_param_value ⟨0, 0⟩ 1.5 =
      (.error (.NodeCacheNotFound 0), Controller.new 1 64) ∧
    ctrlNine.set_param_value ⟨9, 30⟩ 1.5 =
      (.error (.ParamValueKeyNotFound 30), ctrlNine) :=
  ⟨(set_param_value_errors (Controller.new 1 64) ⟨0, 0⟩ 1.5).1 rfl,
   (set_param_value_errors ctrlNine ⟨9, 30⟩ 1.5).2 cacheNine rfl rfl⟩

/-! ## Destination counts and buffer recycling (claims C3, C4) -/

/-- C3: during a node visit, `release_input_buffers` decrements each
referenced source's destination count in the update-context copy (the graph
itself is never passed to, let alone mutated by, the release step); exactly
when the count reaches zero the source's allocated buffers are returned to
the free pool and its allocated set is cleared, and a buffer at the head of
the free pool - in particular a buffer just released when the pool was empty
before - is handed out again by `allocate_buffer` within the same update
pass, without minting a new buffer. -/
theorem release_decrements_and_recycles (c : Controller) (ctx : UpdateContext) (s : Nat)
    (rest : List Nat) (e : Nat) (snc : NodeCache)
    (hcount : alookup ctx.destination_counts s = some e) (hpos : 1 ≤ e)
    (hnc : alookup c.nodes s = some snc) :
    ∃ c1 ctx1,
      Controller.release_sources_go c ctx (s :: rest) =
        Controller.release_sources_go c1 ctx1 rest ∧
      ctx1.destination_counts = aUpdate ctx.destination_counts s (fun _ => e - 1) ∧
      (e = 1 →
        c1.nodes = aInsert c.nodes s { snc with allocated_buffers := [] } ∧
        ctx1.free_buffers = sUnion ctx.free_buffers snc.allocated_buffers ∧
        ∀ b ∈ snc.allocated_buffers, b ∈ ctx1.free_buffers) ∧
      (2 ≤ e → c1 = c ∧ ctx1 = { ctx with
        destination_counts := aUpdate ctx.destination_counts s (fun _ => e - 1) }) ∧
      (∀ b l, ctx1.free_buffers = b :: l →
        Controller.allocate_buffer c1 ctx1 = (b, c1, { ctx1 with free_buffers := l })) := by
  have he0 : ¬ e = 0 := by omega
  have hsub : usizeSub1 e = e - 1 := by simp [usizeSub1, he0]
  by_cases h1 : e = 1
  · subst h1
    refine ⟨{ c with nodes := aInsert c.nodes s { snc with allocated_buffers := [] } },
      { destination_counts := aUpdate ctx.destination_counts s (fun _ => usizeSub1 1),
        free_buffers := sUnion ctx.free_buffers snc.allocated_buffers }, ?_, ?_, ?_, ?_, ?_⟩
    · simp only [Controller.release_sources_go, hcount, hsub, hnc]
      simp [UpdateContext.add_to_free_buffers]
    · simp [hsub]
    · intro _
      refine ⟨rfl, rfl, ?_⟩
      intro b hb
      simp [hb]
    · intro h2; omega
    · intro b l hfree
      exact allocate_buffer_head _ _ _ _ hfree
  · refine ⟨c, { ctx with
      destination_counts := aUpdate ctx.destination_counts s (fun _ => usizeSub1 e) },
      ?_, ?_, ?_, ?_, ?_⟩
    · have hne : ¬ usizeSub1 e = 0 := by rw [hsub]; omega
      simp only [Controller.release_sources_go, hcount, hne]
      simp
    · simp [hsub]
    · intro h2; omega
    · intro _
      exact ⟨rfl, by simp [hsub]⟩
    · intro b l hfree
      exact allocate_buffer_head _ _ _ _ hfree

theorem release_decrements_and_recycles_witness :
    alookup ctxNineOne.destination_counts 9 = some 1 ∧
    alookup ctrlNine.nodes 9 = some cacheNine ∧
    ∃ c1 ctx1,
      Controller.release_sources_go ctrlNine ctxNineOne [9] =
        Controller.release_sources_go c1 ctx1 [] ∧
      ctx1.destination_counts = aUpdate ctxNineOne.destination_counts 9 (fun _ => 0) ∧
      (1 = 1 →
        c1.nodes = aInsert ctrlNine.nodes 9 { cacheNine with allocated_buffers := [] } ∧
        ctx1.free_buffers = sUnion ctxNineOne.free_buffers cacheNine.allocated_buffers ∧
        ∀ b ∈ cacheNine.allocated_buffers, b ∈ ctx1.free_buffers) ∧
      (2 ≤ 1 → c1 = ctrlNine ∧ ctx1 = { ctxNineOne with
        destination_counts := aUpdate ctxNineOne.destination_counts 9 (fun _ => 0) }) ∧
      (∀ b l, ctx1.free_buffers = b :: l →
        Controller.allocate_buffer c1 ctx1 = (b, c1, { ctx1 with free_buffers := l })) :=
  ⟨rfl, rfl,
    release_decrements_and_recycles ctrlNine ctxNineOne 9 [] 1 cacheNine rfl (by decide) rfl⟩

/-- C4 (counterexample): a source whose destination count is already present
as zero when `release_input_buffers` processes it is NOT treated as already
releasable: the unsigned decrement wraps around to `2^64 - 1`, its cache
keeps its allocated buffers and nothing is returned to the free pool,
refuting the claim at this input. -/
theorem release_zero_count_counterexample :
    alookup ctxNineZero.destination_counts 9 = some 0 ∧
    cacheNine.allocated_buffers = [7] ∧
    (Controller.release_sources_go ctrlNine ctxNineZero [9]).1 = .ok () ∧
    (Controller.release_sources_go ctrlNine ctxNineZero [9]).2.2.destination_counts =
      [(9, USIZE - 1)] ∧
    alookup (Controller.release_sources_go ctrlNine ctxNineZero [9]).2.1.nodes 9 =
      some cacheNine ∧
    (Controller.release_sources_go ctrlNine ctxNineZero [9]).2.2.free_buffers = [] := by
  decide

/-- C4 (amended): a source node absent from the destination-count map when
`release_input_buffers` processes it is treated as already releasable: a
default count of zero is inserted without any decrement (so the unsigned
counter never underflows for absent entries), and its buffers are released
and its allocated set cleared; a count that is already present as zero is
instead decremented with 64-bit wrap-around to `2^64 - 1` and the node is
not released. -/
theorem release_zero_count_amended (c : Controller) (ctx : UpdateContext) (s : Nat)
    (rest : List Nat) (snc : NodeCache) (hnc : alookup c.nodes s = some snc) :
    (alookup ctx.destination_counts s = none →
      Controller.release_sources_go c ctx (s :: rest) =
        Controller.release_sources_go
          { c with nodes := aInsert c.nodes s { snc with allocated_buffers := [] } }
          { destination_counts := ctx.destination_counts ++ [(s, 0)],
            free_buffers := sUnion ctx.free_buffers snc.allocated_buffers } rest) ∧
    (alookup ctx.destination_counts s = some 0 →
      Controller.release_sources_go c ctx (s :: rest) =
        Controller.release_sources_go c
          { ctx with
            destination_counts := aUpdate ctx.destination_counts s (fun _ => USIZE - 1) }
          rest) := by
  constructor
  · intro h
    simp only [Controller.release_sources_go, h, hnc]
    simp [UpdateContext.add_to_free_buffers]
  · intro h
    have hz : usizeSub1 0 = USIZE - 1 := rfl
    have hne : ¬ usizeSub1 0 = 0 := by rw [hz]; simp [USIZE]
    simp only [Controller.release_sources_go, h, hne]
    simp [hz]

theorem release_zero_count_amended_witness :
    alookup ctrlNine.nodes 9 = some cacheNine ∧
    Controller.release_sources_go ctrlNine ctxNineZero [9] =
      Controller.release_sources_go ctrlNine
        { ctxNineZero with
          destination_counts := aUpdate ctxNineZero.destination_counts 9 (fun _ => USIZE - 1) }
        [] :=
  ⟨rfl, (release_zero_count_amended ctrlNine ctxNineZero 9 [] cacheNine rfl).2 rfl⟩

/-! ## Frame lemmas: the update pipeline never touches the channels, the
configuration, the empty-buffer key or the factory table -/

theorem updFrame_refl (c : Controller) : updFrame c c :=
  ⟨rfl, rfl, rfl, rfl, rfl, rfl⟩

theorem updFrame_trans {a b c : Controller} (h1 : updFrame a b) (h2 : updFrame b c) :
    updFrame a c := by
  obtain ⟨u1, u2, u3, u4, u5, u6⟩ := h1
  obtain ⟨w1, w2, w3, w4, w5, w6⟩ := h2
  exact ⟨w1.trans u1, w2.trans u2, w3.trans u3, w4.trans u4, w5.trans u5, w6.trans u6⟩

theorem allocate_buffer_frame (c : Controller) (ctx : UpdateContext) :
    updFrame c (Controller.allocate_buffer c ctx).2.1 := by
  unfold Controller.allocate_buffer
  cases ctx.free_buffers
  · exact ⟨rfl, rfl, rfl, rfl, rfl, rfl⟩
  · exact updFrame_refl c

theorem alloc_param_bufs_go_frame (c : Controller) (ctx : UpdateContext)
    (ps : List (Nat × ParamPort)) :
    updFrame c (Controller.alloc_param_bufs_go c ctx ps).2.1 := by
  induction ps generalizing c ctx with
  | nil => exact updFrame_refl c
  | cons p rest ih =>
    rcases p with ⟨pk, port⟩
    cases hcon : port.connection with
    | none =>
      have h1 := allocate_buffer_frame c ctx
      rcases hA : Controller.allocate_buffer c ctx with ⟨k, c1, ctx1⟩
      rw [hA] at h1
      have h2 := ih c1 ctx1
      rcases hB : Controller.alloc_param_bufs_go c1 ctx1 rest with ⟨tail, c2, ctx2⟩
      rw [hB] at h2
      simp only [Controller.alloc_param_bufs_go, hcon, hA, hB]
      exact updFrame_trans h1 h2
    | some a =>
      simp only [Controller.alloc_param_bufs_go, hcon]
      exact ih c ctx

theorem allocate_n_buffers_frame (c : Controller) (ctx : UpdateContext) (n : Nat) :
    updFrame c (Controller.allocate_n_buffers c ctx n).2.1 := by
  induction n generalizing c ctx with
  | zero => exact updFrame_refl c
  | succ n ih =>
    have h1 := allocate_buffer_frame c ctx
    rcases hA : Controller.allocate_buffer c ctx with ⟨k, c1, ctx1⟩
    rw [hA] at h1
    have h2 := ih c1 ctx1
    rcases hB : Controller.allocate_n_buffers c1 ctx1 n with ⟨rest, c2, ctx2⟩
    rw [hB] at h2
    simp only [Controller.allocate_n_buffers, hA, hB]
    exact updFrame_trans h1 h2

theorem alloc_audio_out_go_frame (c : Controller) (ctx : UpdateContext)
    (ps : List (Nat × AudioOutPort)) :
    updFrame c (Controller.alloc_audio_out_go c ctx ps).2.1 := by
  induction ps generalizing c ctx with
  | nil => exact updFrame_refl c
  | cons p rest ih =>
    rcases p with ⟨pk, port⟩
    have h1 := allocate_n_buffers_frame c ctx port.channels
    rcases hA : Controller.allocate_n_buffers c ctx port.channels with ⟨keys, c1, ctx1⟩
    rw [hA] at h1
    have h2 := ih c1 ctx1
    rcases hB : Controller.alloc_audio_out_go c1 ctx1 rest with ⟨tail, c2, ctx2⟩
    rw [hB] at h2
    simp only [Controller.alloc_audio_out_go, hA, hB]
    exact updFrame_trans h1 h2

theorem release_sources_go_frame (c : Controller) (ctx : UpdateContext) (l : List Nat) :
    updFrame c (Controller.release_sources_go c ctx l).2.1 := by
  induction l generalizing c ctx with
  | nil => exact updFrame_refl c
  | cons s rest ih =>
    simp only [Controller.release_sources_go]
    by_cases hz : (match alookup ctx.destination_counts s with
      | some e => (aUpdate ctx.destination_counts s (fun _ => usizeSub1 e), usizeSub1 e)
      | none => (ctx.destination_counts ++ [(s, 0)], 0)).2 = 0
    · simp only [hz, if_true]
      cases hnc : alookup c.nodes s with
      | none => exact updFrame_refl c
      | some snc =>
        exact updFrame_trans (updFrame_refl _) (ih _ _)
    · simp only [hz, if_false]
      exact ih c _

theorem clear_node_cache_frame (c : Controller) (r : Nat) (ctx : UpdateContext) :
    updFrame c (Controller.clear_node_cache c r ctx).2.1 := by
  unfold Controller.clear_node_cache
  cases alookup c.nodes r
  · exact updFrame_refl c
  · exact ⟨rfl, rfl, rfl, rfl, rfl, rfl⟩

theorem update_node_cache_frame (c : Controller) (r : Nat)
    (pvb : List (Nat × Nat)) (prp : List (String × ParamRenderPort))
    (aib : List (String × List Nat)) (aob : List (Nat × String × List Nat)) :
    updFrame c (Controller.update_node_cache c r pvb prp aib aob).2 := by
  unfold Controller.update_node_cache
  split
  · exact updFrame_refl c
  · dsimp only
    split
    · exact ⟨rfl, rfl, rfl, rfl, rfl, rfl⟩
    · exact ⟨rfl, rfl, rfl, rfl, rfl, rfl⟩

theorem add_param_values_frame (c : Controller) (ps : List (Nat × ParamPort)) :
    updFrame c (Controller.add_param_values c ps).1 := by
  induction ps generalizing c with
  | nil => exact updFrame_refl c
  | cons p rest ih =>
    rcases p with ⟨pk, port⟩
    simp only [Controller.add_param_values]
    rcases hB : Controller.add_param_values
        { c with
          parameters := c.parameters ++ [(c.parameters_next, ParamValue.new port.initial)]
          parameters_next := c.parameters_next + 1 } rest with ⟨c2, tail⟩
    have h2 := ih (c := { c with
      parameters := c.parameters ++ [(c.parameters_next, ParamValue.new port.initial)]
      parameters_next := c.parameters_next + 1 })
    rw [hB] at h2
    simp only [hB]
    exact updFrame_trans ⟨rfl, rfl, rfl, rfl, rfl, rfl⟩ h2

theorem create_node_frame (c : Controller) (r : Nat) (g : Graph) :
    updFrame c (Controller.create_node c r g).2 := by
  unfold Controller.create_node
  split
  · exact updFrame_refl c
  · split
    · exact updFrame_refl c
    · split
      · exact updFrame_refl c
      · exact updFrame_trans ⟨rfl, rfl, rfl, rfl, rfl, rfl⟩ (add_param_values_frame _ _)

theorem visit_invalidated_node_frame (c : Controller) (r : Nat) (g : Graph)
    (ctx : UpdateContext) :
    updFrame c (Controller.visit_invalidated_node c r g ctx).2.1 := by
  unfold Controller.visit_invalidated_node
  have h0 := clear_node_cache_frame c r ctx
  rcases hA : Controller.clear_node_cache c r ctx with ⟨res0, c1, ctx1⟩
  have h0' : updFrame c c1 := by rw [hA] at h0; exact h0
  cases res0 with
  | error e => exact h0'
  | ok u =>
    dsimp only
    cases hn : g.get_node r with
    | none => exact h0'
    | some node =>
      dsimp only
      have h1 := alloc_param_bufs_go_frame c1 ctx1 node.params
      rcases hB : Controller.allocate_param_value_buffers c1 node ctx1 with ⟨pvb, c2, ctx2⟩
      have h1' : updFrame c1 c2 := by
        have hB' : Controller.alloc_param_bufs_go c1 ctx1 node.params = (pvb, c2, ctx2) := hB
        rw [hB'] at h1; exact h1
      dsimp only
      cases Controller.build_param_render_ports c2 r node pvb with
      | error e => exact updFrame_trans h0' h1'
      | ok prp =>
        dsimp only
        cases Controller.collect_audio_input_buffers c2 node with
        | error e => exact updFrame_trans h0' h1'
        | ok aib =>
          dsimp only
          have h2 := alloc_audio_out_go_frame c2 ctx2 node.audio_outputs
          rcases hC : Controller.allocate_audio_output_buffers c2 node ctx2 with ⟨aob, c3, ctx3⟩
          have h2' : updFrame c2 c3 := by
            have hC' : Controller.alloc_audio_out_go c2 ctx2 node.audio_outputs =
              (aob, c3, ctx3) := hC
            rw [hC'] at h2; exact h2
          dsimp only
          have h3 := release_sources_go_frame c3 ctx3 node.sources
          rcases hD : Controller.release_input_buffers c3 node ctx3 with ⟨res1, c4, ctx4⟩
          have h3' : updFrame c3 c4 := by
            have hD' : Controller.release_sources_go c3 ctx3 node.sources =
              (res1, c4, ctx4) := hD
            rw [hD'] at h3; exact h3
          cases res1 with
          | error e => exact updFrame_trans h0' (updFrame_trans h1' (updFrame_trans h2' h3'))
          | ok u2 =>
            dsimp only
            have h4 := update_node_cache_frame c4 r pvb prp aib aob
            rcases hE : Controller.update_node_cache c4 r pvb prp aib aob with ⟨res2, c5⟩
            have h4' : updFrame c4 c5 := by rw [hE] at h4; exact h4
            cases res2 with
            | error e =>
              exact updFrame_trans h0' (updFrame_trans h1' (updFrame_trans h2'
                (updFrame_trans h3' h4')))
            | ok u3 =>
              exact updFrame_trans h0' (updFrame_trans h1' (updFrame_trans h2'
                (updFrame_trans h3' h4')))

theorem visit_unchanged_node_frame (c : Controller) (r : Nat) (g : Graph)
    (ctx : UpdateContext) :
    updFrame c (Controller.visit_unchanged_node c r g ctx).2.1 := by
  unfold Controller.visit_unchanged_node
  cases hn : g.get_node r with
  | none => exact updFrame_refl c
  | some node =>
    dsimp only
    have h1 := release_sources_go_frame c ctx node.sources
    rcases hA : Controller.release_input_buffers c node ctx with ⟨res0, c1, ctx1⟩
    have h1' : updFrame c c1 := by
      have hA' : Controller.release_sources_go c ctx node.sources = (res0, c1, ctx1) := hA
      rw [hA'] at h1; exact h1
    cases res0 with
    | error e => exact h1'
    | ok u =>
      dsimp only
      cases alookup c1.nodes r with
      | none => exact h1'
      | some nc => exact h1'

theorem update_nodes_frame (c : Controller) (l : List Nat) (g : Graph) (ctx : UpdateContext) :
    updFrame c (Controller.update_nodes c l g ctx).2.1 := by
  induction l generalizing c ctx with
  | nil => exact updFrame_refl c
  | cons r rest ih =>
    unfold Controller.update_nodes
    dsimp only
    by_cases hcr : (alookup c.nodes r).isNone
    · rw [if_pos hcr]
      have h0 := create_node_frame c r g
      rcases hA : Controller.create_node c r g with ⟨res0, c1⟩
      have h0' : updFrame c c1 := by rw [hA] at h0; exact h0
      cases res0 with
      | error e => exact h0'
      | ok nc =>
        dsimp only
        have h0'' : updFrame c { c1 with nodes := aInsert c1.nodes r nc } :=
          updFrame_trans h0' ⟨rfl, rfl, rfl, rfl, rfl, rfl⟩
        cases hn : g.get_node r with
        | none => exact h0''
        | some node =>
          dsimp only
          rw [hcr, Bool.or_true, if_pos rfl]
          have h1 := visit_invalidated_node_frame
            { c1 with nodes := aInsert c1.nodes r nc } r g ctx
          rcases hB : Controller.visit_invalidated_node
              { c1 with nodes := aInsert c1.nodes r nc } r g ctx with ⟨res1, c2, ctx2⟩
          have h1' : updFrame { c1 with nodes := aInsert c1.nodes r nc } c2 := by
            rw [hB] at h1; exact h1
          cases res1 with
          | error e => exact updFrame_trans h0'' h1'
          | ok u => exact updFrame_trans h0'' (updFrame_trans h1' (ih c2 ctx2))
    · rw [if_neg hcr]
      dsimp only
      cases hn : g.get_node r with
      | none => exact updFrame_refl c
      | some node =>
        dsimp only
        have hcr' : (alookup c.nodes r).isNone = false := by
          exact Bool.not_eq_true _ ▸ eq_false_of_ne_true hcr
        rw [hcr', Bool.or_false]
        by_cases hinv : node.invalidated = true
        · rw [if_pos hinv]
          have h1 := visit_invalidated_node_frame c r g ctx
          rcases hB : Controller.visit_invalidated_node c r g ctx with ⟨res1, c2, ctx2⟩
          have h1' : updFrame c c2 := by rw [hB] at h1; exact h1
          cases res1 with
          | error e => exact h1'
          | ok u => exact updFrame_trans h1' (ih c2 ctx2)
        · rw [if_neg hinv]
          have h1 := visit_unchanged_node_frame c r g ctx
          rcases hB : Controller.visit_unchanged_node c r g ctx with ⟨res1, c2, ctx2⟩
          have h1' : updFrame c c2 := by rw [hB] at h1; exact h1
          cases res1 with
          | error e => exact h1'
          | ok u => exact updFrame_trans h1' (ih c2 ctx2)

/-! ## Parameter-value creation (claim C9) -/

theorem add_param_values_len (c : Controller) (ps : List (Nat × ParamPort)) :
    (Controller.add_param_values c ps).1.parameters.length =
      c.parameters.length + ps.length := by
  induction ps generalizing c with
  | nil => rfl
  | cons p rest ih =>
    rcases p with ⟨pk, port⟩
    simp only [Controller.add_param_values]
    rw [ih]
    simp
    omega

theorem add_param_values_keys (c : Controller) (ps : List (Nat × ParamPort)) :
    (Controller.add_param_values c ps).2.map Prod.fst = ps.map Prod.fst := by
  induction ps generalizing c with
  | nil => rfl
  | cons p rest ih =>
    rcases p with ⟨pk, port⟩
    simp only [Controller.add_param_values, List.map_cons]
    rw [ih]

theorem add_param_values_processors (c : Controller) (ps : List (Nat × ParamPort)) :
    (Controller.add_param_values c ps).1.processors = c.processors := by
  induction ps generalizing c with
  | nil => rfl
  | cons p rest ih =>
    rcases p with ⟨pk, port⟩
    simp only [Controller.add_param_values]
    rw [ih]

theorem add_param_values_nodes (c : Controller) (ps : List (Nat × ParamPort)) :
    (Controller.add_param_values c ps).1.nodes = c.nodes := by
  induction ps generalizing c with
  | nil => rfl
  | cons p rest ih =>
    rcases p with ⟨pk, port⟩
    simp only [Controller.add_param_values]
    rw [ih]

theorem add_param_values_mono (c : Controller) (ps : List (Nat × ParamPort)) (k : Nat)
    (v : ParamValue) (h : alookup c.parameters k = some v) :
    alookup (Controller.add_param_values c ps).1.parameters k = some v := by
  induction ps generalizing c with
  | nil => exact h
  | cons p rest ih =>
    rcases p with ⟨pk, port⟩
    simp only [Controller.add_param_values]
    exact ih _ (alookup_append_left _ h)

theorem add_param_values_fresh (c : Controller) (ps : List (Nat × ParamPort))
    (h : ∀ q ∈ c.parameters, q.1 < c.parameters_next) :
    ∀ q ∈ (Controller.add_param_values c ps).1.parameters,
      q.1 < (Controller.add_param_values c ps).1.parameters_next := by
  induction ps generalizing c with
  | nil => exact h
  | cons p rest ih =>
    rcases p with ⟨pk, port⟩
    simp only [Controller.add_param_values]
    apply ih
    intro q hq
    simp only [List.mem_append, List.mem_singleton] at hq
    rcases hq with hq | hq
    · have := h q hq
      simp only []
      omega
    · subst hq
      simp

theorem add_param_values_lookup (c : Controller) (ps : List (Nat × ParamPort))
    (pk : Nat) (port : ParamPort) (hmem : (pk, port) ∈ ps)
    (hnodup : (ps.map Prod.fst).Nodup)
    (hfresh : ∀ q ∈ c.parameters, q.1 < c.parameters_next) :
    ∃ pvk pv, alookup (Controller.add_param_values c ps).2 pk = some pvk ∧
      alookup (Controller.add_param_values c ps).1.parameters pvk = some pv ∧
      pv = ParamValue.new port.initial := by
  induction ps generalizing c with
  | nil => simp at hmem
  | cons p rest ih =>
    rcases p with ⟨qk, qport⟩
    simp only [List.map_cons, List.nodup_cons] at hnodup
    rcases List.mem_cons.mp hmem with hhead | htail
    · rw [Prod.mk.injEq] at hhead
      obtain ⟨hq1, hq2⟩ := hhead
      subst hq1; subst hq2
      simp only [Controller.add_param_values]
      refine ⟨c.parameters_next, ParamValue.new port.initial, ?_, ?_, rfl⟩
      · simp [alookup]
      · apply add_param_values_mono
        have hnone : alookup c.parameters c.parameters_next = none := by
          apply alookup_eq_none_of_not_mem
          intro hk
          rcases List.mem_map.mp hk with ⟨q, hq, hq2⟩
          have := hfresh q hq
          omega
        rw [alookup_append_right _ hnone]
        simp [alookup]
    · have hne : qk ≠ pk := by
        intro he
        exact hnodup.1 (he ▸ List.mem_map.mpr ⟨(pk, port), htail, rfl⟩)
      simp only [Controller.add_param_values]
      have hfresh1 : ∀ q ∈ ({ c with
          parameters := c.parameters ++ [(c.parameters_next, ParamValue.new qport.initial)]
          parameters_next := c.parameters_next + 1 } : Controller).parameters,
          q.1 < ({ c with
          parameters := c.parameters ++ [(c.parameters_next, ParamValue.new qport.initial)]
          parameters_next := c.parameters_next + 1 } : Controller).parameters_next := by
        intro q hq
        simp only [List.mem_append, List.mem_singleton] at hq
        rcases hq with hq | hq
        · have := hfresh q hq
          simp only []
          omega
        · subst hq
          simp
      obtain ⟨pvk, pv, h1, h2, h3⟩ := ih _ htail hnodup.2 hfresh1
      refine ⟨pvk, pv, ?_, h2, h3⟩
      simp [alookup, hne, h1]

theorem update_graph_err_tx (c : Controller) (g : Graph) :
    (Controller.update_graph c g).1.isOk = false →
    (Controller.update_graph c g).2.tx_queue = c.tx_queue := by
  unfold Controller.update_graph
  dsimp only
  have hf := update_nodes_frame c g.topology.nodes g
    (UpdateContext.new g.topology (c.buffers.filter (fun k => decide (¬ k = c.empty_buffer))))
  rcases hA : Controller.update_nodes c g.topology.nodes g
      (UpdateContext.new g.topology (c.buffers.filter (fun k => decide (¬ k = c.empty_buffer))))
    with ⟨res0, c1, ctx1⟩
  have htx : c1.tx_queue = c.tx_queue := by rw [hA] at hf; exact hf.2.1
  cases res0 with
  | error e => intro _; exact htx
  | ok u =>
    dsimp only
    cases Controller.collect_plan_ops c1 g.topology.nodes with
    | error e => intro _; exact htx
    | ok proc_ops =>
      dsimp only
      cases Controller.collect_output_ops c1 g.bound_audio_outputs with
      | error e => intro _; exact htx
      | ok out_ops =>
        dsimp only
        by_cases hlen : c1.tx_queue.length < c1.tx_capacity
        · rw [if_pos hlen]
          intro h
          simp [Except.isOk, Except.toBool] at h
        · rw [if_neg hlen]
          intro _
          exact htx

/-- C9: when `update_graph` first visits a node with no existing cache it
creates one via `create_node`: if the node's class string has no registered
factory the result is `ProcessorFactoryNotFound` carrying the node's ref
string and class; if the factory returns nothing it is
`ProcessorCreationFailed`; on success one ParamValue is created per parameter
port, initialized to the port descriptor's initial value; and every error of
`update_graph` aborts the update before any plan is sent: the outbound queue
is untouched. -/
theorem create_node_spec (c : Controller) (r : Nat) (g : Graph) (node : Node)
    (hn : g.get_node r = some node) :
    (alookup c.processor_factories node.node_class = none →
      Controller.create_node c r g =
        (.error (.ProcessorFactoryNotFound node.ref_string node.node_class), c)) ∧
    (∀ f, alookup c.processor_factories node.node_class = some f → f.create node = none →
      Controller.create_node c r g =
        (.error (.ProcessorCreationFailed node.ref_string node.node_class), c)) ∧
    (∀ f p, alookup c.processor_factories node.node_class = some f → f.create node = some p →
      (∀ q ∈ c.parameters, q.1 < c.parameters_next) →
      ∃ nc c2, Controller.create_node c r g = (.ok nc, c2) ∧
        nc.parameter_value_keys.map Prod.fst = node.params.map Prod.fst ∧
        c2.parameters.length = c.parameters.length + node.params.length ∧
        ((node.params.map Prod.fst).Nodup →
          ∀ pk port, (pk, port) ∈ node.params →
          ∃ pvk pv, alookup nc.parameter_value_keys pk = some pvk ∧
            alookup c2.parameters pvk = some pv ∧ pv = ParamValue.new port.initial) ∧
        c2.processors = c.processors ++ [(c.processors_next, p)] ∧
        nc.render_ops = [] ∧ nc.allocated_buffers = [] ∧ nc.audio_output_buffers = []) ∧
    ((Controller.update_graph c g).1.isOk = false →
      (Controller.update_graph c g).2.tx_queue = c.tx_queue) := by
  refine ⟨?_, ?_, ?_, update_graph_err_tx c g⟩
  · intro hf
    simp only [Controller.create_node, hn, hf]
  · intro f hf hc
    simp only [Controller.create_node, hn, hf, hc]
  · intro f p hf hc hfresh
    simp only [Controller.create_node, hn, hf, hc]
    set c1 : Controller := { c with
      processors := c.processors ++ [(c.processors_next, p)]
      processors_next := c.processors_next + 1 } with hc1
    refine ⟨NodeCache.new c.processors_next (Controller.add_param_values c1 node.params).2,
      (Controller.add_param_values c1 node.params).1, rfl, ?_, ?_, ?_, ?_, rfl, rfl, rfl⟩
    · exact add_param_values_keys c1 node.params
    · exact add_param_values_len c1 node.params
    · intro hnodup pk port hmem
      exact add_param_values_lookup c1 node.params pk port hmem hnodup hfresh
    · rw [add_param_values_processors]

theorem create_node_spec_witness :
    Controller.create_node (Controller.new 1 64) 1 graphN =
      (.error (.ProcessorFactoryNotFound "Node[N1]" "source-class"), Controller.new 1 64) ∧
    (∃ nc c2, Controller.create_node ctrl1 3 graphN = (.ok nc, c2) ∧
      nc.parameter_value_keys.map Prod.fst = nodeN3.params.map Prod.fst ∧
      c2.parameters.length = ctrl1.parameters.length + nodeN3.params.length ∧
      ((nodeN3.params.map Prod.fst).Nodup →
        ∀ pk port, (pk, port) ∈ nodeN3.params →
        ∃ pvk pv, alookup nc.parameter_value_keys pk = some pvk ∧
          alookup c2.parameters pvk = some pv ∧ pv = ParamValue.new port.initial) ∧
      c2.processors = ctrl1.processors ++ [(ctrl1.processors_next, ⟨0⟩)] ∧
      nc.render_ops = [] ∧ nc.allocated_buffers = [] ∧ nc.audio_output_buffers = []) := by
  constructor
  · exact (create_node_spec (Controller.new 1 64) 1 graphN nodeN1 rfl).1 rfl
  · exact (create_node_spec ctrl1 3 graphN nodeN3 rfl).2.2.1 tpFactory ⟨0⟩ rfl rfl
      (by intro q hq; simp [ctrl1, Controller.new,
        Controller.register_processor_factory] at hq)

/-! ## Preservation of the cache-op invariant (claim C5) -/

theorem allocate_buffer_nodes (c : Controller) (ctx : UpdateContext) :
    (Controller.allocate_buffer c ctx).2.1.nodes = c.nodes := by
  unfold Controller.allocate_buffer
  split <;> rfl

theorem alloc_param_bufs_go_nodes (c : Controller) (ctx : UpdateContext)
    (ps : List (Nat × ParamPort)) :
    (Controller.alloc_param_bufs_go c ctx ps).2.1.nodes = c.nodes := by
  induction ps generalizing c ctx with
  | nil => rfl
  | cons p rest ih =>
    rcases p with ⟨pk, port⟩
    cases hcon : port.connection with
    | none =>
      have h1 := allocate_buffer_nodes c ctx
      rcases hA : Controller.allocate_buffer c ctx with ⟨k, c1, ctx1⟩
      rw [hA] at h1
      have h2 := ih c1 ctx1
      rcases hB : Controller.alloc_param_bufs_go c1 ctx1 rest with ⟨tail, c2, ctx2⟩
      rw [hB] at h2
      simp only [Controller.alloc_param_bufs_go, hcon, hA, hB]
      exact h2.trans h1
    | some a =>
      simp only [Controller.alloc_param_bufs_go, hcon]
      exact ih c ctx

theorem allocate_n_buffers_nodes (c : Controller) (ctx : UpdateContext) (n : Nat) :
    (Controller.allocate_n_buffers c ctx n).2.1.nodes = c.nodes := by
  induction n generalizing c ctx with
  | zero => rfl
  | succ n ih =>
    have h1 := allocate_buffer_nodes c ctx
    rcases hA : Controller.allocate_buffer c ctx with ⟨k, c1, ctx1⟩
    rw [hA] at h1
    have h2 := ih c1 ctx1
    rcases hB : Controller.allocate_n_buffers c1 ctx1 n with ⟨rest, c2, ctx2⟩
    rw [hB] at h2
    simp only [Controller.allocate_n_buffers, hA, hB]
    exact h2.trans h1

theorem alloc_audio_out_go_nodes (c : Controller) (ctx : UpdateContext)
    (ps : List (Nat × AudioOutPort)) :
    (Controller.alloc_audio_out_go c ctx ps).2.1.nodes = c.nodes := by
  induction ps generalizing c ctx with
  | nil => rfl
  | cons p rest ih =>
    rcases p with ⟨pk, port⟩
    have h1 := allocate_n_buffers_nodes c ctx port.channels
    rcases hA : Controller.allocate_n_buffers c ctx port.channels with ⟨keys, c1, ctx1⟩
    rw [hA] at h1
    have h2 := ih c1 ctx1
    rcases hB : Controller.alloc_audio_out_go c1 ctx1 rest with ⟨tail, c2, ctx2⟩
    rw [hB] at h2
    simp only [Controller.alloc_audio_out_go, hA, hB]
    exact h2.trans h1

theorem create_node_nodes (c : Controller) (r : Nat) (g : Graph) :
    (Controller.create_node c r g).2.nodes = c.nodes := by
  unfold Controller.create_node
  split
  · rfl
  · split
    · rfl
    · split
      · rfl
      · exact add_param_values_nodes _ _

theorem set_param_value_nodes (c : Controller) (pr : ParamRef) (v : Float) :
    (c.set_param_value pr v).2.nodes = c.nodes := by
  unfold Controller.set_param_value
  split
  · rfl
  · split
    · rfl
    · split <;> rfl

theorem cacheOpsProc_insert {m : List (Nat × NodeCache)}
    (h : ∀ p ∈ m, ∀ op ∈ p.2.render_ops, op.isProc = true)
    {r : Nat} {nc : NodeCache} (hnc : ∀ op ∈ nc.render_ops, op.isProc = true) :
    ∀ p ∈ aInsert m r nc, ∀ op ∈ p.2.render_ops, op.isProc = true := by
  intro p hp
  rcases mem_aInsert hp with h1 | h1
  · subst h1; exact hnc
  · exact h p h1

theorem release_sources_go_opsProc (c : Controller) (ctx : UpdateContext) (l : List Nat)
    (h : Controller.cacheOpsProc c) :
    Controller.cacheOpsProc (Controller.release_sources_go c ctx l).2.1 := by
  induction l generalizing c ctx with
  | nil => exact h
  | cons s rest ih =>
    simp only [Controller.release_sources_go]
    by_cases hz : (match alookup ctx.destination_counts s with
      | some e => (aUpdate ctx.destination_counts s (fun _ => usizeSub1 e), usizeSub1 e)
      | none => (ctx.destination_counts ++ [(s, 0)], 0)).2 = 0
    · simp only [hz, if_true]
      cases hnc : alookup c.nodes s with
      | none => exact h
      | some snc =>
        apply ih
        intro p hp
        refine cacheOpsProc_insert h ?_ p hp
        exact h (s, snc) (mem_of_alookup hnc)
    · simp only [hz, if_false]
      exact ih c _ h

theorem clear_node_cache_opsProc (c : Controller) (r : Nat) (ctx : UpdateContext)
    (h : Controller.cacheOpsProc c) :
    Controller.cacheOpsProc (Controller.clear_node_cache c r ctx).2.1 := by
  unfold Controller.clear_node_cache
  split
  · exact h
  · intro p hp
    refine cacheOpsProc_insert h ?_ p hp
    intro op hop
    simp at hop

theorem update_node_cache_opsProc (c : Controller) (r : Nat)
    (pvb : List (Nat × Nat)) (prp : List (String × ParamRenderPort))
    (aib : List (String × List Nat)) (aob : List (Nat × String × List Nat))
    (h : Controller.cacheOpsProc c) :
    Controller.cacheOpsProc (Controller.update_node_cache c r pvb prp aib aob).2 := by
  unfold Controller.update_node_cache
  split
  · exact h
  · rename_i nc hnc
    dsimp only
    split
    · intro p hp
      refine cacheOpsProc_insert h ?_ p hp
      exact h (r, nc) (mem_of_alookup hnc)
    · intro p hp
      have hmid : ∀ p ∈ aInsert c.nodes r { nc with
          allocated_buffers := pvb.map (fun p => p.2) ++
            (aob.map (fun p => p.2.2)).flatten
          audio_output_buffers := aob.map (fun p => (p.1, p.2.2)) },
          ∀ op ∈ p.2.render_ops, op.isProc = true := by
        refine cacheOpsProc_insert h ?_
        exact h (r, nc) (mem_of_alookup hnc)
      refine cacheOpsProc_insert hmid ?_ p hp
      intro op hop
      simp only [List.mem_append, List.mem_singleton] at hop
      rcases hop with hop | hop
      · exact h (r, nc) (mem_of_alookup hnc) op hop
      · subst hop
        rfl

theorem visit_invalidated_node_opsProc (c : Controller) (r : Nat) (g : Graph)
    (ctx : UpdateContext) (h : Controller.cacheOpsProc c) :
    Controller.cacheOpsProc (Controller.visit_invalidated_node c r g ctx).2.1 := by
  unfold Controller.visit_invalidated_node
  have h0 := clear_node_cache_opsProc c r ctx h
  rcases hA : Controller.clear_node_cache c r ctx with ⟨res0, c1, ctx1⟩
  rw [hA] at h0
  cases res0 with
  | error e => exact h0
  | ok u =>
    dsimp only
    cases hn : g.get_node r with
    | none => exact h0
    | some node =>
      dsimp only
      have hn1 := alloc_param_bufs_go_nodes c1 ctx1 node.params
      rcases hB : Controller.allocate_param_value_buffers c1 node ctx1 with ⟨pvb, c2, ctx2⟩
      have h1 : Controller.cacheOpsProc c2 := by
        have hB' : Controller.alloc_param_bufs_go c1 ctx1 node.params = (pvb, c2, ctx2) := hB
        rw [hB'] at hn1
        intro p hp
        rw [hn1] at hp
        exact h0 p hp
      dsimp only
      cases Controller.build_param_render_ports c2 r node pvb with
      | error e => exact h1
      | ok prp =>
        dsimp only
        cases Controller.collect_audio_input_buffers c2 node with
        | error e => exact h1
        | ok aib =>
          dsimp only
          have hn2 := alloc_audio_out_go_nodes c2 ctx2 node.audio_outputs
          rcases hC : Controller.allocate_audio_output_buffers c2 node ctx2 with ⟨aob, c3, ctx3⟩
          have h2 : Controller.cacheOpsProc c3 := by
            have hC' : Controller.alloc_audio_out_go c2 ctx2 node.audio_outputs =
              (aob, c3, ctx3) := hC
            rw [hC'] at hn2
            intro p hp
            rw [hn2] at hp
            exact h1 p hp
          dsimp only
          have h3 := release_sources_go_opsProc c3 ctx3 node.sources h2
          rcases hD : Controller.release_input_buffers c3 node ctx3 with ⟨res1, c4, ctx4⟩
          have h3' : Controller.cacheOpsProc c4 := by
            have hD' : Controller.release_sources_go c3 ctx3 node.sources =
              (res1, c4, ctx4) := hD
            rw [hD'] at h3
            exact h3
          cases res1 with
          | error e => exact h3'
          | ok u2 =>
            dsimp only
            have h4 := update_node_cache_opsProc c4 r pvb prp aib aob h3'
            rcases hE : Controller.update_node_cache c4 r pvb prp aib aob with ⟨res2, c5⟩
            rw [hE] at h4
            cases res2 with
            | error e => exact h4
            | ok u3 => exact h4

theorem visit_unchanged_node_opsProc (c : Controller) (r : Nat) (g : Graph)
    (ctx : UpdateContext) (h : Controller.cacheOpsProc c) :
    Controller.cacheOpsProc (Controller.visit_unchanged_node c r g ctx).2.1 := by
  unfold Controller.visit_unchanged_node
  cases hn : g.get_node r with
  | none => exact h
  | some node =>
    dsimp only
    have h1 := release_sources_go_opsProc c ctx node.sources h
    rcases hA : Controller.release_input_buffers c node ctx with ⟨res0, c1, ctx1⟩
    have h1' : Controller.cacheOpsProc c1 := by
      have hA' : Controller.release_sources_go c ctx node.sources = (res0, c1, ctx1) := hA
      rw [hA'] at h1
      exact h1
    cases res0 with
    | error e => exact h1'
    | ok u =>
      dsimp only
      cases alookup c1.nodes r with
      | none => exact h1'
      | some nc => exact h1'

theorem create_node_ok_shape (c : Controller) (r : Nat) (g : Graph) (nc : NodeCache)
    (c1 : Controller) (h : Controller.create_node c r g = (.ok nc, c1)) :
    nc.render_ops = [] ∧ nc.allocated_buffers = [] ∧ nc.audio_output_buffers = [] := by
  unfold Controller.create_node at h
  rcases hg : g.get_node r with _ | node <;> rw [hg] at h
  · simp at h
  · dsimp only at h
    rcases hf : alookup c.processor_factories node.node_class with _ | f <;> rw [hf] at h
    · simp at h
    · dsimp only at h
      rcases hc2 : f.create node with _ | p <;> rw [hc2] at h
      · simp at h
      · dsimp only at h
        have h1 := congrArg Prod.fst h
        dsimp only at h1
        injection h1 with h2
        subst h2
        exact ⟨rfl, rfl, rfl⟩

theorem update_nodes_opsProc (c : Controller) (l : List Nat) (g : Graph)
    (ctx : UpdateContext) (h : Controller.cacheOpsProc c) :
    Controller.cacheOpsProc (Controller.update_nodes c l g ctx).2.1 := by
  induction l generalizing c ctx with
  | nil => exact h
  | cons r rest ih =>
    unfold Controller.update_nodes
    dsimp only
    by_cases hcr : (alookup c.nodes r).isNone
    · rw [if_pos hcr]
      have hn0 := create_node_nodes c r g
      rcases hA : Controller.create_node c r g with ⟨res0, c1⟩
      rw [hA] at hn0
      have h0 : Controller.cacheOpsProc c1 := by
        intro p hp
        rw [hn0] at hp
        exact h p hp
      cases res0 with
      | error e => exact h0
      | ok nc =>
        dsimp only
        have h0' : Controller.cacheOpsProc { c1 with nodes := aInsert c1.nodes r nc } := by
          intro p hp
          refine cacheOpsProc_insert h0 ?_ p hp
          intro op hop
          rw [(create_node_ok_shape c r g nc c1 hA).1] at hop
          simp at hop
        cases hn : g.get_node r with
        | none => exact h0'
        | some node =>
          dsimp only
          rw [hcr, Bool.or_true, if_pos rfl]
          have h1 := visit_invalidated_node_opsProc
            { c1 with nodes := aInsert c1.nodes r nc } r g ctx h0'
          rcases hB : Controller.visit_invalidated_node
              { c1 with nodes := aInsert c1.nodes r nc } r g ctx with ⟨res1, c2, ctx2⟩
          rw [hB] at h1
          cases res1 with
          | error e => exact h1
          | ok u => exact ih c2 ctx2 h1
    · rw [if_neg hcr]
      dsimp only
      cases hn : g.get_node r with
      | none => exact h
      | some node =>
        dsimp only
        have hcr' : (alookup c.nodes r).isNone = false := by
          exact Bool.not_eq_true _ ▸ eq_false_of_ne_true hcr
        rw [hcr', Bool.or_false]
        by_cases hinv : node.invalidated = true
        · rw [if_pos hinv]
          have h1 := visit_invalidated_node_opsProc c r g ctx h
          rcases hB : Controller.visit_invalidated_node c r g ctx with ⟨res1, c2, ctx2⟩
          rw [hB] at h1
          cases res1 with
          | error e => exact h1
          | ok u => exact ih c2 ctx2 h1
        · rw [if_neg hinv]
          have h1 := visit_unchanged_node_opsProc c r g ctx h
          rcases hB : Controller.visit_unchanged_node c r g ctx with ⟨res1, c2, ctx2⟩
          rw [hB] at h1
          cases res1 with
          | error e => exact h1
          | ok u => exact ih c2 ctx2 h1

theorem update_graph_opsProc (c : Controller) (g : Graph)
    (h : Controller.cacheOpsProc c) :
    Controller.cacheOpsProc (Controller.update_graph c g).2 := by
  unfold Controller.update_graph
  dsimp only
  have h0 := update_nodes_opsProc c g.topology.nodes g
    (UpdateContext.new g.topology (c.buffers.filter (fun k => decide (¬ k = c.empty_buffer)))) h
  rcases hA : Controller.update_nodes c g.topology.nodes g
      (UpdateContext.new g.topology (c.buffers.filter (fun k => decide (¬ k = c.empty_buffer))))
    with ⟨res0, c1, ctx1⟩
  rw [hA] at h0
  cases res0 with
  | error e => exact h0
  | ok u =>
    dsimp only
    cases Controller.collect_plan_ops c1 g.topology.nodes with
    | error e => exact h0
    | ok proc_ops =>
      dsimp only
      cases Controller.collect_output_ops c1 g.bound_audio_outputs with
      | error e => exact h0
      | ok out_ops =>
        dsimp only
        by_cases hlen : c1.tx_queue.length < c1.tx_capacity
        · rw [if_pos hlen]
          exact h0
        · rw [if_neg hlen]
          exact h0

theorem reachable_cacheOpsProc (c : Controller) (h : Controller.Reachable c) :
    Controller.cacheOpsProc c := by
  induction h with
  | new cap bs =>
    intro p hp
    simp [Controller.new] at hp
  | register f h ih => exact ih
  | set_param pr v h ih =>
    rename_i c0
    intro p hp
    rw [set_param_value_nodes] at hp
    exact ih p hp
  | update g h ih => exact update_graph_opsProc _ g ih
  | process h ih => exact ih
  | pop h ih => exact ih
  | recv m h ih => exact ih

/-! ## Plan assembly (claim C5) -/

theorem collect_plan_ops_spec (c : Controller) (l : List Nat) (ops : List RenderOp)
    (h : Controller.collect_plan_ops c l = .ok ops)
    (hproc : Controller.cacheOpsProc c) :
    ∀ op ∈ ops, op.isProc = true := by
  induction l generalizing ops with
  | nil =>
    unfold Controller.collect_plan_ops at h
    injection h with h
    subst h
    intro op hop
    simp at hop
  | cons r rest ih =>
    unfold Controller.collect_plan_ops at h
    rcases hnc : alookup c.nodes r with _ | nc <;> rw [hnc] at h
    · simp at h
    · dsimp only at h
      rcases hr : Controller.collect_plan_ops c rest with e | tail <;> rw [hr] at h
      · simp at h
      · dsimp only at h
        injection h with h
        subst h
        intro op hop
        rcases List.mem_append.mp hop with hop | hop
        · exact hproc (r, nc) (mem_of_alookup hnc) op hop
        · exact ih tail hr op hop

theorem collect_output_ops_spec (c : Controller) (bl : List (String × AudioOutRef))
    (ops : List RenderOp) (h : Controller.collect_output_ops c bl = .ok ops) :
    (∀ op ∈ ops, op.isProc = false) ∧
    (∀ al aor, (al, aor) ∈ bl →
      ∃ nc bufs, alookup c.nodes aor.node_ref = some nc ∧
        alookup nc.audio_output_buffers aor.audio_port_key = some bufs ∧
        RenderOp.RenderOutput al bufs ∈ ops) ∧
    (∀ al, ops.countP (RenderOp.hasAlias al) = bl.countP (fun p => p.1 == al)) := by
  induction bl generalizing ops with
  | nil =>
    unfold Controller.collect_output_ops at h
    injection h with h
    subst h
    refine ⟨by simp, by simp, by simp⟩
  | cons p rest ih =>
    rcases p with ⟨al0, aor0⟩
    unfold Controller.collect_output_ops at h
    rcases hnc : alookup c.nodes aor0.node_ref with _ | nc <;> rw [hnc] at h
    · simp at h
    · dsimp only at h
      rcases hb : nc.get_audio_output_buffer aor0.audio_port_key with e | bufs <;> rw [hb] at h
      · simp at h
      · dsimp only at h
        rcases hr : Controller.collect_output_ops c rest with e | tail <;> rw [hr] at h
        · simp at h
        · dsimp only at h
          injection h with h
          subst h
          obtain ⟨ih1, ih2, ih3⟩ := ih tail hr
          refine ⟨?_, ?_, ?_⟩
          · intro op hop
            rcases List.mem_cons.mp hop with hop | hop
            · subst hop; rfl
            · exact ih1 op hop
          · intro al aor hmem
            rcases List.mem_cons.mp hmem with hmem | hmem
            · rw [Prod.mk.injEq] at hmem
              obtain ⟨h1, h2⟩ := hmem
              subst h1; subst h2
              have hbufs : alookup nc.audio_output_buffers aor.audio_port_key = some bufs := by
                unfold NodeCache.get_audio_output_buffer at hb
                rcases hx : alookup nc.audio_output_buffers aor.audio_port_key with _ | v <;>
                  rw [hx] at hb
                · simp at hb
                · injection hb with hb
                  subst hb
                  rfl
              exact ⟨nc, bufs, hnc, hbufs, List.mem_cons_self _ _⟩
            · obtain ⟨nc2, bufs2, k1, k2, k3⟩ := ih2 al aor hmem
              exact ⟨nc2, bufs2, k1, k2, List.mem_cons_of_mem _ k3⟩
          · intro al
            rw [List.countP_cons, List.countP_cons, ih3 al]
            simp [RenderOp.hasAlias]

theorem countP_fst_eq_one {bl : List (String × AudioOutRef)} {al : String} {aor : AudioOutRef}
    (hmem : (al, aor) ∈ bl) (hnodup : (bl.map Prod.fst).Nodup) :
    bl.countP (fun p => p.1 == al) = 1 := by
  induction bl with
  | nil => simp at hmem
  | cons p rest ih =>
    rcases p with ⟨a0, r0⟩
    simp only [List.map_cons, List.nodup_cons] at hnodup
    rw [List.countP_cons]
    rcases List.mem_cons.mp hmem with h | h
    · rw [Prod.mk.injEq] at h
      obtain ⟨h1, _⟩ := h
      subst h1
      have hz : rest.countP (fun p => p.1 == al) = 0 := by
        rw [List.countP_eq_zero]
        intro q hq
        simp only [beq_iff_eq]
        intro he
        apply hnodup.1
        rw [← he]
        exact List.mem_map.mpr ⟨q, hq, rfl⟩
      simp [hz]
    · have ha : ¬ a0 = al := by
        intro he
        apply hnodup.1
        rw [he]
        exact List.mem_map.mpr ⟨(al, aor), h, rfl⟩
      rw [ih h hnodup.2]
      simp [ha]

theorem proc_not_hasAlias {op : RenderOp} (h : op.isProc = true) (al : String) :
    RenderOp.hasAlias al op = false := by
  cases op with
  | RenderProcessor a b c d => rfl
  | RenderOutput a b => simp [RenderOp.isProc] at h

theorem update_graph_ok_destruct (c : Controller) (g : Graph)
    (hok : (Controller.update_graph c g).1 = .ok ()) :
    ∃ c1 ctx1 proc_ops out_ops,
      Controller.update_nodes c g.topology.nodes g
        (UpdateContext.new g.topology
          (c.buffers.filter (fun k => decide (¬ k = c.empty_buffer)))) = (.ok (), c1, ctx1) ∧
      Controller.collect_plan_ops c1 g.topology.nodes = .ok proc_ops ∧
      Controller.collect_output_ops c1 g.bound_audio_outputs = .ok out_ops ∧
      c1.tx_queue.length < c1.tx_capacity ∧
      (Controller.update_graph c g).2 =
        { c1 with tx_queue := c1.tx_queue ++
            [Message.MoveRenderPlan { operations := proc_ops ++ out_ops }] } := by
  unfold Controller.update_graph at hok ⊢
  dsimp only at hok ⊢
  rcases hA : Controller.update_nodes c g.topology.nodes g
      (UpdateContext.new g.topology (c.buffers.filter (fun k => decide (¬ k = c.empty_buffer))))
    with ⟨res0, c1, ctx1⟩
  rw [hA] at hok
  cases res0 with
  | error e => simp at hok
  | ok u =>
    dsimp only at hok ⊢
    rcases hP : Controller.collect_plan_ops c1 g.topology.nodes with e | proc_ops <;>
      rw [hP] at hok
    · simp at hok
    · dsimp only at hok ⊢
      rcases hO : Controller.collect_output_ops c1 g.bound_audio_outputs with e | out_ops <;>
        rw [hO] at hok
      · simp at hok
      · dsimp only at hok ⊢
        by_cases hlen : c1.tx_queue.length < c1.tx_capacity
        · rw [if_pos hlen] at hok ⊢
          exact ⟨c1, ctx1, proc_ops, out_ops, by cases u; rfl, hP, hO, hlen, rfl⟩
        · rw [if_neg hlen] at hok
          simp at hok

/-- C5: in every plan produced by a successful `update_graph` on a reachable
controller, for a graph whose bound-output aliases are distinct, the
operations are a block of `RenderProcessor` ops followed by a block of
`RenderOutput` ops (so every `RenderOutput` op appears after the last
`RenderProcessor` op), and for every bound output alias exactly one
`RenderOutput` op exists, whose buffer list equals the output buffer list
cached for the bound source node's output port at the moment the plan is
sealed. -/
theorem plan_shape_spec (c : Controller) (g : Graph)
    (hreach : Controller.Reachable c)
    (halias : (g.bound_audio_outputs.map Prod.fst).Nodup)
    (hok : (Controller.update_graph c g).1 = .ok ()) :
    ∃ plan proc_ops out_ops,
      (Controller.update_graph c g).2.tx_queue =
        c.tx_queue ++ [Message.MoveRenderPlan plan] ∧
      plan.operations = proc_ops ++ out_ops ∧
      (∀ op ∈ proc_ops, op.isProc = true) ∧
      (∀ op ∈ out_ops, op.isProc = false) ∧
      (∀ al aor, (al, aor) ∈ g.bound_audio_outputs →
        ∃ nc bufs,
          alookup (Controller.update_graph c g).2.nodes aor.node_ref = some nc ∧
          alookup nc.audio_output_buffers aor.audio_port_key = some bufs ∧
          RenderOp.RenderOutput al bufs ∈ out_ops ∧
          plan.operations.countP (RenderOp.hasAlias al) = 1) := by
  obtain ⟨c1, ctx1, proc_ops, out_ops, hupd, hplan, hout, hlen, heq⟩ :=
    update_graph_ok_destruct c g hok
  have hproc1 : Controller.cacheOpsProc c1 := by
    have h0 := update_nodes_opsProc c g.topology.nodes g
      (UpdateContext.new g.topology
        (c.buffers.filter (fun k => decide (¬ k = c.empty_buffer))))
      (reachable_cacheOpsProc c hreach)
    rw [hupd] at h0
    exact h0
  have htx : c1.tx_queue = c.tx_queue := by
    have hf := update_nodes_frame c g.topology.nodes g
      (UpdateContext.new g.topology
        (c.buffers.filter (fun k => decide (¬ k = c.empty_buffer))))
    rw [hupd] at hf
    exact hf.2.1
  obtain ⟨o1, o2, o3⟩ := collect_output_ops_spec c1 g.bound_audio_outputs out_ops hout
  have hp := collect_plan_ops_spec c1 g.topology.nodes proc_ops hplan hproc1
  refine ⟨{ operations := proc_ops ++ out_ops }, proc_ops, out_ops, ?_, rfl, hp, o1, ?_⟩
  · rw [heq]
    dsimp only
    rw [htx]
  · intro al aor hmem
    obtain ⟨nc, bufs, k1, k2, k3⟩ := o2 al aor hmem
    refine ⟨nc, bufs, ?_, k2, k3, ?_⟩
    · rw [heq]
      exact k1
    · dsimp only
      rw [List.countP_append]
      have hz : proc_ops.countP (RenderOp.hasAlias al) = 0 := by
        rw [List.countP_eq_zero]
        intro op hop
        simp [proc_not_hasAlias (hp op hop) al]
      rw [hz, o3 al, countP_fst_eq_one hmem halias]

theorem plan_shape_spec_witness :
    (graphST.bound_audio_outputs.map Prod.fst).Nodup ∧
    (Controller.update_graph ctrl1 graphST).1 = .ok () ∧
    ∃ plan proc_ops out_ops,
      (Controller.update_graph ctrl1 graphST).2.tx_queue =
        ctrl1.tx_queue ++ [Message.MoveRenderPlan plan] ∧
      plan.operations = proc_ops ++ out_ops ∧
      (∀ op ∈ proc_ops, op.isProc = true) ∧
      (∀ op ∈ out_ops, op.isProc = false) ∧
      (∀ al aor, (al, aor) ∈ graphST.bound_audio_outputs →
        ∃ nc bufs,
          alookup (Controller.update_graph ctrl1 graphST).2.nodes aor.node_ref = some nc ∧
          alookup nc.audio_output_buffers aor.audio_port_key = some bufs ∧
          RenderOp.RenderOutput al bufs ∈ out_ops ∧
          plan.operations.countP (RenderOp.hasAlias al) = 1) :=
  ⟨by decide, by decide,
    plan_shape_spec ctrl1 graphST
      (Controller.Reachable.register tpFactory (Controller.Reachable.new 1 64))
      (by decide) (by decide)⟩

/-! ## Shape preservation and idempotence (claim C7) -/

theorem shape_isSome {o o' : Option NodeCache}
    (h : o'.map NodeCache.shape = o.map NodeCache.shape) : o'.isSome = o.isSome := by
  cases o <;> cases o' <;> simp_all

theorem shape_render_ops {nc nc' : NodeCache} (h : nc'.shape = nc.shape) :
    nc'.render_ops = nc.render_ops := congrArg (fun t => t.2.2.2) h

theorem shape_audio_output_buffers {nc nc' : NodeCache} (h : nc'.shape = nc.shape) :
    nc'.audio_output_buffers = nc.audio_output_buffers := congrArg (fun t => t.2.2.1) h

theorem alookup_isSome_aInsert {α : Type} [DecidableEq α] {β : Type} (m : List (α × β))
    (k : α) (v : β) (x : α) (h : (alookup m x).isSome = true) :
    (alookup (aInsert m k v) x).isSome = true := by
  by_cases hk : k = x
  · subst hk
    rw [alookup_aInsert_self]
    rfl
  · rw [alookup_aInsert_ne _ _ hk]
    exact h

theorem release_sources_go_shape (c : Controller) (ctx : UpdateContext) (l : List Nat)
    (x : Nat) :
    (alookup (Controller.release_sources_go c ctx l).2.1.nodes x).map NodeCache.shape =
      (alookup c.nodes x).map NodeCache.shape := by
  induction l generalizing c ctx with
  | nil => rfl
  | cons s rest ih =>
    simp only [Controller.release_sources_go]
    by_cases hz : (match alookup ctx.destination_counts s with
      | some e => (aUpdate ctx.destination_counts s (fun _ => usizeSub1 e), usizeSub1 e)
      | none => (ctx.destination_counts ++ [(s, 0)], 0)).2 = 0
    · simp only [hz, if_true]
      cases hnc : alookup c.nodes s with
      | none => rfl
      | some snc =>
        rw [ih]
        by_cases hx : s = x
        · subst hx
          rw [alookup_aInsert_self, hnc]
          rfl
        · rw [alookup_aInsert_ne _ _ hx]
    · simp only [hz, if_false]
      exact ih c _

theorem visit_unchanged_node_shape (c : Controller) (r : Nat) (g : Graph)
    (ctx : UpdateContext) (x : Nat) :
    (alookup (Controller.visit_unchanged_node c r g ctx).2.1.nodes x).map NodeCache.shape =
      (alookup c.nodes x).map NodeCache.shape := by
  unfold Controller.visit_unchanged_node
  cases hn : g.get_node r with
  | none => rfl
  | some node =>
    dsimp only
    have h1 := release_sources_go_shape c ctx node.sources x
    rcases hA : Controller.release_input_buffers c node ctx with ⟨res0, c1, ctx1⟩
    have h1' : (alookup c1.nodes x).map NodeCache.shape =
        (alookup c.nodes x).map NodeCache.shape := by
      have hA' : Controller.release_sources_go c ctx node.sources = (res0, c1, ctx1) := hA
      rw [hA'] at h1
      exact h1
    cases res0 with
    | error e => exact h1'
    | ok u =>
      dsimp only
      cases alookup c1.nodes r with
      | none => exact h1'
      | some nc => exact h1'

theorem release_sources_go_ok (c : Controller) (ctx : UpdateContext) (l : List Nat)
    (h : ∀ s ∈ l, (alookup c.nodes s).isSome = true) :
    (Controller.release_sources_go c ctx l).1 = .ok () := by
  induction l generalizing c ctx with
  | nil => rfl
  | cons s rest ih =>
    simp only [Controller.release_sources_go]
    by_cases hz : (match alookup ctx.destination_counts s with
      | some e => (aUpdate ctx.destination_counts s (fun _ => usizeSub1 e), usizeSub1 e)
      | none => (ctx.destination_counts ++ [(s, 0)], 0)).2 = 0
    · simp only [hz, if_true]
      rcases hnc : alookup c.nodes s with _ | snc
      · have := h s (List.mem_cons_self _ _)
        rw [hnc] at this
        simp at this
      · apply ih
        intro s2 hs2
        apply alookup_isSome_aInsert
        exact h s2 (List.mem_cons_of_mem _ hs2)
    · simp only [hz, if_false]
      apply ih
      intro s2 hs2
      exact h s2 (List.mem_cons_of_mem _ hs2)

theorem visit_unchanged_node_ok (c : Controller) (r : Nat) (g : Graph) (ctx : UpdateContext)
    (node : Node) (hn : g.get_node r = some node)
    (hr : (alookup c.nodes r).isSome = true)
    (hs : ∀ s ∈ node.sources, (alookup c.nodes s).isSome = true) :
    (Controller.visit_unchanged_node c r g ctx).1 = .ok () := by
  unfold Controller.visit_unchanged_node
  rw [hn]
  dsimp only
  have hok := release_sources_go_ok c ctx node.sources hs
  have hsh := fun x => release_sources_go_shape c ctx node.sources x
  rcases hA : Controller.release_input_buffers c node ctx with ⟨res0, c1, ctx1⟩
  have hA' : Controller.release_sources_go c ctx node.sources = (res0, c1, ctx1) := hA
  rw [hA'] at hok
  cases res0 with
  | error e => simp at hok
  | ok u =>
    dsimp only
    have hr1 : (alookup c1.nodes r).isSome = true := by
      have := hsh r
      rw [hA'] at this
      rw [shape_isSome this]
      exact hr
    rcases hx : alookup c1.nodes r with _ | nc
    · rw [hx] at hr1
      simp at hr1
    · rfl

theorem update_nodes_all_unchanged (g : Graph) (l : List Nat) :
    ∀ (c : Controller) (ctx : UpdateContext),
    (∀ r ∈ l, (alookup c.nodes r).isSome = true) →
    (∀ r ∈ l, ∃ node, g.get_node r = some node ∧ node.invalidated = false ∧
      (∀ s ∈ node.sources, (alookup c.nodes s).isSome = true)) →
    (Controller.update_nodes c l g ctx).1 = .ok () ∧
    (∀ x, (alookup (Controller.update_nodes c l g ctx).2.1.nodes x).map NodeCache.shape =
      (alookup c.nodes x).map NodeCache.shape) := by
  induction l with
  | nil => intro c ctx h1 h2; exact ⟨rfl, fun x => rfl⟩
  | cons r rest ih =>
    intro c ctx h1 h2
    obtain ⟨node, hn, hninv, hnsrc⟩ := h2 r (List.mem_cons_self _ _)
    have hr := h1 r (List.mem_cons_self _ _)
    unfold Controller.update_nodes
    dsimp only
    have hcr : (alookup c.nodes r).isNone = false := by
      rcases hx : alookup c.nodes r with _ | nc
      · rw [hx] at hr; simp at hr
      · rfl
    rw [hcr]
    simp only [Bool.false_eq_true, if_false]
    rw [hn]
    dsimp only
    rw [hninv]
    simp only [Bool.or_false, Bool.false_eq_true, if_false]
    have hvok := visit_unchanged_node_ok c r g ctx node hn hr hnsrc
    have hvsh := fun x => visit_unchanged_node_shape c r g ctx x
    rcases hB : Controller.visit_unchanged_node c r g ctx with ⟨res1, c2, ctx2⟩
    rw [hB] at hvok
    have hvsh' : ∀ x, (alookup c2.nodes x).map NodeCache.shape =
        (alookup c.nodes x).map NodeCache.shape := by
      intro x
      have := hvsh x
      rw [hB] at this
      exact this
    cases res1 with
    | error e => simp at hvok
    | ok u =>
      have h1' : ∀ r2 ∈ rest, (alookup c2.nodes r2).isSome = true := by
        intro r2 hr2
        rw [shape_isSome (hvsh' r2)]
        exact h1 r2 (List.mem_cons_of_mem _ hr2)
      have h2' : ∀ r2 ∈ rest, ∃ node2, g.get_node r2 = some node2 ∧
          node2.invalidated = false ∧
          (∀ s ∈ node2.sources, (alookup c2.nodes s).isSome = true) := by
        intro r2 hr2
        obtain ⟨node2, k1, k2, k3⟩ := h2 r2 (List.mem_cons_of_mem _ hr2)
        refine ⟨node2, k1, k2, ?_⟩
        intro s hsx
        rw [shape_isSome (hvsh' s)]
        exact k3 s hsx
      obtain ⟨ihok, ihsh⟩ := ih c2 ctx2 h1' h2'
      exact ⟨ihok, fun x => (ihsh x).trans (hvsh' x)⟩

theorem clear_node_cache_keys_mono (c : Controller) (r : Nat) (ctx : UpdateContext) (x : Nat)
    (h : (alookup c.nodes x).isSome = true) :
    (alookup (Controller.clear_node_cache c r ctx).2.1.nodes x).isSome = true := by
  unfold Controller.clear_node_cache
  split
  · exact h
  · exact alookup_isSome_aInsert _ _ _ _ h

theorem update_node_cache_keys_mono (c : Controller) (r : Nat)
    (pvb : List (Nat × Nat)) (prp : List (String × ParamRenderPort))
    (aib : List (String × List Nat)) (aob : List (Nat × String × List Nat)) (x : Nat)
    (h : (alookup c.nodes x).isSome = true) :
    (alookup (Controller.update_node_cache c r pvb prp aib aob).2.nodes x).isSome = true := by
  unfold Controller.update_node_cache
  split
  · exact h
  · dsimp only
    split
    · exact alookup_isSome_aInsert _ _ _ _ h
    · exact alookup_isSome_aInsert _ _ _ _ (alookup_isSome_aInsert _ _ _ _ h)

theorem release_sources_go_keys (c : Controller) (ctx : UpdateContext) (l : List Nat) (x : Nat)
    (h : (alookup c.nodes x).isSome = true) :
    (alookup (Controller.release_sources_go c ctx l).2.1.nodes x).isSome = true := by
  rw [shape_isSome (release_sources_go_shape c ctx l x)]
  exact h

theorem visit_invalidated_node_keys_mono (c : Controller) (r : Nat) (g : Graph)
    (ctx : UpdateContext) (x : Nat) (h : (alookup c.nodes x).isSome = true) :
    (alookup (Controller.visit_invalidated_node c r g ctx).2.1.nodes x).isSome = true := by
  unfold Controller.visit_invalidated_node
  have h0 := clear_node_cache_keys_mono c r ctx x h
  rcases hA : Controller.clear_node_cache c r ctx with ⟨res0, c1, ctx1⟩
  rw [hA] at h0
  cases res0 with
  | error e => exact h0
  | ok u =>
    dsimp only
    cases hn : g.get_node r with
    | none => exact h0
    | some node =>
      dsimp only
      have hn1 := alloc_param_bufs_go_nodes c1 ctx1 node.params
      rcases hB : Controller.allocate_param_value_buffers c1 node ctx1 with ⟨pvb, c2, ctx2⟩
      have h1 : (alookup c2.nodes x).isSome = true := by
        have hB' : Controller.alloc_param_bufs_go c1 ctx1 node.params = (pvb, c2, ctx2) := hB
        rw [hB'] at hn1
        rw [hn1]
        exact h0
      dsimp only
      cases Controller.build_param_render_ports c2 r node pvb with
      | error e => exact h1
      | ok prp =>
        dsimp only
        cases Controller.collect_audio_input_buffers c2 node with
        | error e => exact h1
        | ok aib =>
          dsimp only
          have hn2 := alloc_audio_out_go_nodes c2 ctx2 node.audio_outputs
          rcases hC : Controller.allocate_audio_output_buffers c2 node ctx2 with ⟨aob, c3, ctx3⟩
          have h2 : (alookup c3.nodes x).isSome = true := by
            have hC' : Controller.alloc_audio_out_go c2 ctx2 node.audio_outputs =
              (aob, c3, ctx3) := hC
            rw [hC'] at hn2
            rw [hn2]
            exact h1
          dsimp only
          have h3 := release_sources_go_keys c3 ctx3 node.sources x h2
          rcases hD : Controller.release_input_buffers c3 node ctx3 with ⟨res1, c4, ctx4⟩
          have h3' : (alookup c4.nodes x).isSome = true := by
            have hD' : Controller.release_sources_go c3 ctx3 node.sources =
              (res1, c4, ctx4) := hD
            rw [hD'] at h3
            exact h3
          cases res1 with
          | error e => exact h3'
          | ok u2 =>
            dsimp only
            have h4 := update_node_cache_keys_mono c4 r pvb prp aib aob x h3'
            rcases hE : Controller.update_node_cache c4 r pvb prp aib aob with ⟨res2, c5⟩
            rw [hE] at h4
            cases res2 with
            | error e => exact h4
            | ok u3 => exact h4

theorem visit_unchanged_node_keys_mono (c : Controller) (r : Nat) (g : Graph)
    (ctx : UpdateContext) (x : Nat) (h : (alookup c.nodes x).isSome = true) :
    (alookup (Controller.visit_unchanged_node c r g ctx).2.1.nodes x).isSome = true := by
  rw [shape_isSome (visit_unchanged_node_shape c r g ctx x)]
  exact h

theorem update_nodes_keys_mono (g : Graph) (l : List Nat) :
    ∀ (c : Controller) (ctx : UpdateContext) (x : Nat),
    (alookup c.nodes x).isSome = true →
    (alookup (Controller.update_nodes c l g ctx).2.1.nodes x).isSome = true := by
  induction l with
  | nil => intro c ctx x h; exact h
  | cons r rest ih =>
    intro c ctx x h
    unfold Controller.update_nodes
    dsimp only
    by_cases hcr : (alookup c.nodes r).isNone
    · rw [if_pos hcr]
      have hn0 := create_node_nodes c r g
      rcases hA : Controller.create_node c r g with ⟨res0, c1⟩
      rw [hA] at hn0
      have h0 : (alookup c1.nodes x).isSome = true := by
        rw [hn0]
        exact h
      cases res0 with
      | error e => exact h0
      | ok nc =>
        dsimp only
        have h0' : (alookup (aInsert c1.nodes r nc) x).isSome = true :=
          alookup_isSome_aInsert _ _ _ _ h0
        cases hn : g.get_node r with
        | none => exact h0'
        | some node =>
          dsimp only
          rw [hcr, Bool.or_true, if_pos rfl]
          have h1 := visit_invalidated_node_keys_mono
            { c1 with nodes := aInsert c1.nodes r nc } r g ctx x h0'
          rcases hB : Controller.visit_invalidated_node
              { c1 with nodes := aInsert c1.nodes r nc } r g ctx with ⟨res1, c2, ctx2⟩
          rw [hB] at h1
          cases res1 with
          | error e => exact h1
          | ok u => exact ih c2 ctx2 x h1
    · rw [if_neg hcr]
      dsimp only
      cases hn : g.get_node r with
      | none => exact h
      | some node =>
        dsimp only
        have hcr' : (alookup c.nodes r).isNone = false := by
          exact Bool.not_eq_true _ ▸ eq_false_of_ne_true hcr
        rw [hcr', Bool.or_false]
        by_cases hinv : node.invalidated = true
        · rw [if_pos hinv]
          have h1 := visit_invalidated_node_keys_mono c r g ctx x h
          rcases hB : Controller.visit_invalidated_node c r g ctx with ⟨res1, c2, ctx2⟩
          rw [hB] at h1
          cases res1 with
          | error e => exact h1
          | ok u => exact ih c2 ctx2 x h1
        · rw [if_neg hinv]
          have h1 := visit_unchanged_node_keys_mono c r g ctx x h
          rcases hB : Controller.visit_unchanged_node c r g ctx with ⟨res1, c2, ctx2⟩
          rw [hB] at h1
          cases res1 with
          | error e => exact h1
          | ok u => exact ih c2 ctx2 x h1

theorem update_nodes_ok_caches (g : Graph) (l : List Nat) :
    ∀ (c : Controller) (ctx : UpdateContext),
    (Controller.update_nodes c l g ctx).1 = .ok () →
    ∀ r ∈ l, (alookup (Controller.update_nodes c l g ctx).2.1.nodes r).isSome = true := by
  induction l with
  | nil => intro c ctx hok r hr; simp at hr
  | cons r0 rest ih =>
    intro c ctx hok r hr
    unfold Controller.update_nodes at hok ⊢
    dsimp only at hok ⊢
    by_cases hcr : (alookup c.nodes r0).isNone
    · rw [if_pos hcr] at hok ⊢
      rcases hA : Controller.create_node c r0 g with ⟨res0, c1⟩
      rw [hA] at hok
      cases res0 with
      | error e => simp at hok
      | ok nc =>
        dsimp only at hok ⊢
        cases hn : g.get_node r0 with
        | none => rw [hn] at hok; simp at hok
        | some node =>
          rw [hn] at hok
          dsimp only at hok ⊢
          rw [hcr, Bool.or_true, if_pos rfl] at hok ⊢
          have hself : (alookup (aInsert c1.nodes r0 nc) r0).isSome = true := by
            rw [alookup_aInsert_self]
            rfl
          rcases hB : Controller.visit_invalidated_node
              { c1 with nodes := aInsert c1.nodes r0 nc } r0 g ctx with ⟨res1, c2, ctx2⟩
          rw [hB] at hok
          cases res1 with
          | error e => simp at hok
          | ok u =>
            have hself2 : (alookup c2.nodes r0).isSome = true := by
              have := visit_invalidated_node_keys_mono
                { c1 with nodes := aInsert c1.nodes r0 nc } r0 g ctx r0 hself
              rw [hB] at this
              exact this
            rcases List.mem_cons.mp hr with he | he
            · subst he
              exact update_nodes_keys_mono g rest c2 ctx2 r hself2
            · exact ih c2 ctx2 hok r he
    · rw [if_neg hcr] at hok ⊢
      dsimp only at hok ⊢
      cases hn : g.get_node r0 with
      | none => rw [hn] at hok; simp at hok
      | some node =>
        rw [hn] at hok
        dsimp only at hok ⊢
        have hsome0 : (alookup c.nodes r0).isSome = true := by
          rcases hx : alookup c.nodes r0 with _ | nc
          · rw [hx] at hcr; simp at hcr
          · rfl
        have hcr' : (alookup c.nodes r0).isNone = false := by
          exact Bool.not_eq_true _ ▸ eq_false_of_ne_true hcr
        rw [hcr', Bool.or_false] at hok ⊢
        by_cases hinv : node.invalidated = true
        · rw [if_pos hinv] at hok ⊢
          rcases hB : Controller.visit_invalidated_node c r0 g ctx with ⟨res1, c2, ctx2⟩
          rw [hB] at hok
          cases res1 with
          | error e => simp at hok
          | ok u =>
            have hself2 : (alookup c2.nodes r0).isSome = true := by
              have := visit_invalidated_node_keys_mono c r0 g ctx r0 hsome0
              rw [hB] at this
              exact this
            rcases List.mem_cons.mp hr with he | he
            · subst he
              exact update_nodes_keys_mono g rest c2 ctx2 r hself2
            · exact ih c2 ctx2 hok r he
        · rw [if_neg hinv] at hok ⊢
          rcases hB : Controller.visit_unchanged_node c r0 g ctx with ⟨res1, c2, ctx2⟩
          rw [hB] at hok
          cases res1 with
          | error e => simp at hok
          | ok u =>
            have hself2 : (alookup c2.nodes r0).isSome = true := by
              have := visit_unchanged_node_keys_mono c r0 g ctx r0 hsome0
              rw [hB] at this
              exact this
            rcases List.mem_cons.mp hr with he | he
            · subst he
              exact update_nodes_keys_mono g rest c2 ctx2 r hself2
            · exact ih c2 ctx2 hok r he

theorem collect_plan_ops_shape_congr (c c' : Controller) (l : List Nat)
    (h : ∀ x, (alookup c'.nodes x).map NodeCache.shape = (alookup c.nodes x).map NodeCache.shape) :
    Controller.collect_plan_ops c' l = Controller.collect_plan_ops c l := by
  induction l with
  | nil => rfl
  | cons r rest ih =>
    unfold Controller.collect_plan_ops
    rw [ih]
    have hr := h r
    rcases hx : alookup c.nodes r with _ | nc <;> rw [hx] at hr <;>
        rcases hx' : alookup c'.nodes r with _ | nc' <;> rw [hx'] at hr
    · simp at hr
    · simp at hr
    · have hr2 : nc'.shape = nc.shape := by simpa using hr
      dsimp only
      rw [shape_render_ops hr2]

theorem collect_output_ops_shape_congr (c c' : Controller) (bl : List (String × AudioOutRef))
    (h : ∀ x, (alookup c'.nodes x).map NodeCache.shape = (alookup c.nodes x).map NodeCache.shape) :
    Controller.collect_output_ops c' bl = Controller.collect_output_ops c bl := by
  induction bl with
  | nil => rfl
  | cons p rest ih =>
    rcases p with ⟨al, aor⟩
    unfold Controller.collect_output_ops
    rw [ih]
    have hr := h aor.node_ref
    rcases hx : alookup c.nodes aor.node_ref with _ | nc <;> rw [hx] at hr <;>
        rcases hx' : alookup c'.nodes aor.node_ref with _ | nc' <;> rw [hx'] at hr
    · simp at hr
    · simp at hr
    · have hr2 : nc'.shape = nc.shape := by simpa using hr
      dsimp only
      unfold NodeCache.get_audio_output_buffer
      rw [shape_audio_output_buffers hr2]

theorem update_graph_build (c : Controller) (g : Graph) (c1 : Controller)
    (ctx1 : UpdateContext) (proc_ops out_ops : List RenderOp)
    (h1 : Controller.update_nodes c g.topology.nodes g
      (UpdateContext.new g.topology
        (c.buffers.filter (fun k => decide (¬ k = c.empty_buffer)))) = (.ok (), c1, ctx1))
    (h2 : Controller.collect_plan_ops c1 g.topology.nodes = .ok proc_ops)
    (h3 : Controller.collect_output_ops c1 g.bound_audio_outputs = .ok out_ops)
    (h4 : c1.tx_queue.length < c1.tx_capacity) :
    Controller.update_graph c g =
      (.ok (), { c1 with tx_queue := c1.tx_queue ++
        [Message.MoveRenderPlan { operations := proc_ops ++ out_ops }] }) := by
  unfold Controller.update_graph
  dsimp only
  rw [h1]
  dsimp only
  rw [h2]
  dsimp only
  rw [h3]
  dsimp only
  rw [if_pos h4]

/-- C7: re-running `update_graph` on the same well-formed graph in which no
node is invalidated, after a successful run and with the outbound queue
drained, succeeds and pushes a plan that is identical - the same op sequence
and the same buffer keys - to the plan of the first run. -/
theorem update_graph_idempotent (c : Controller) (g : Graph) (hwf : g.Wf)
    (hinv : ∀ p ∈ g.node_map, p.2.invalidated = false)
    (hok : (Controller.update_graph c g).1 = .ok ()) :
    ∃ plan,
      (Controller.update_graph c g).2.tx_queue =
        c.tx_queue ++ [Message.MoveRenderPlan plan] ∧
      (Controller.update_graph
        { (Controller.update_graph c g).2 with tx_queue := [] } g).1 = .ok () ∧
      (Controller.update_graph
        { (Controller.update_graph c g).2 with tx_queue := [] } g).2.tx_queue =
        [Message.MoveRenderPlan plan] := by
  obtain ⟨c1, ctx1, proc_ops, out_ops, hupd, hplan, hout, hlen, heq⟩ :=
    update_graph_ok_destruct c g hok
  have htx1 : c1.tx_queue = c.tx_queue := by
    have hf := update_nodes_frame c g.topology.nodes g
      (UpdateContext.new g.topology
        (c.buffers.filter (fun k => decide (¬ k = c.empty_buffer))))
    rw [hupd] at hf
    exact hf.2.1
  have hc2 : ({ (Controller.update_graph c g).2 with tx_queue := [] } : Controller) =
      { c1 with tx_queue := [] } := by
    rw [heq]
  have hcaches : ∀ r ∈ g.topology.nodes, (alookup c1.nodes r).isSome = true := by
    intro r hr
    have hq := update_nodes_ok_caches g g.topology.nodes c
      (UpdateContext.new g.topology
        (c.buffers.filter (fun k => decide (¬ k = c.empty_buffer))))
      (by rw [hupd]) r hr
    rw [hupd] at hq
    exact hq
  have h1 : ∀ r ∈ g.topology.nodes,
      (alookup ({ c1 with tx_queue := [] } : Controller).nodes r).isSome = true := by
    intro r hr
    exact hcaches r hr
  have h2 : ∀ r ∈ g.topology.nodes, ∃ node, g.get_node r = some node ∧
      node.invalidated = false ∧
      (∀ s ∈ node.sources,
        (alookup ({ c1 with tx_queue := [] } : Controller).nodes s).isSome = true) := by
    intro r hr
    have hsome := hwf.topo_has_node r hr
    rcases hn : g.get_node r with _ | node
    · rw [hn] at hsome; simp at hsome
    · refine ⟨node, rfl, hinv (r, node) (mem_of_alookup hn), ?_⟩
      intro s hs
      have hs2 : s ∈ g.sourcesOf r := by
        unfold Graph.sourcesOf
        rw [hn]
        exact hs
      exact hcaches s (hwf.sources_in_topo r hr s hs2)
  obtain ⟨hok2, hsh2⟩ := update_nodes_all_unchanged g g.topology.nodes
    ({ c1 with tx_queue := [] } : Controller)
    (UpdateContext.new g.topology
      (({ c1 with tx_queue := [] } : Controller).buffers.filter
        (fun k => decide (¬ k = ({ c1 with tx_queue := [] } : Controller).empty_buffer))))
    h1 h2
  rcases hU2 : Controller.update_nodes ({ c1 with tx_queue := [] } : Controller)
      g.topology.nodes g
      (UpdateContext.new g.topology
        (({ c1 with tx_queue := [] } : Controller).buffers.filter
          (fun k => decide (¬ k = ({ c1 with tx_queue := [] } : Controller).empty_buffer))))
    with ⟨res2, c2f, ctx2f⟩
  rw [hU2] at hok2
  have hsh2' : ∀ x, (alookup c2f.nodes x).map NodeCache.shape =
      (alookup c1.nodes x).map NodeCache.shape := by
    intro x
    have := hsh2 x
    rw [hU2] at this
    exact this
  cases res2 with
  | error e => simp at hok2
  | ok u =>
    cases u
    have hp2 : Controller.collect_plan_ops c2f g.topology.nodes = .ok proc_ops := by
      rw [collect_plan_ops_shape_congr c1 c2f g.topology.nodes hsh2']
      exact hplan
    have ho2 : Controller.collect_output_ops c2f g.bound_audio_outputs = .ok out_ops := by
      rw [collect_output_ops_shape_congr c1 c2f g.bound_audio_outputs hsh2']
      exact hout
    have hfr2 := update_nodes_frame ({ c1 with tx_queue := [] } : Controller)
      g.topology.nodes g
      (UpdateContext.new g.topology
        (({ c1 with tx_queue := [] } : Controller).buffers.filter
          (fun k => decide (¬ k = ({ c1 with tx_queue := [] } : Controller).empty_buffer))))
    rw [hU2] at hfr2
    have htx2 : c2f.tx_queue = [] := hfr2.2.1
    have hcap2 : c2f.tx_capacity = c1.tx_capacity := hfr2.1
    have hlen2 : c2f.tx_queue.length < c2f.tx_capacity := by
      rw [htx2, hcap2]
      exact Nat.lt_of_le_of_lt (Nat.zero_le _) hlen
    have hbuild := update_graph_build ({ c1 with tx_queue := [] } : Controller) g c2f ctx2f
      proc_ops out_ops hU2 hp2 ho2 hlen2
    refine ⟨{ operations := proc_ops ++ out_ops }, ?_, ?_, ?_⟩
    · rw [heq]
      dsimp only
      rw [htx1]
    · rw [hc2, hbuild]
    · rw [hc2, hbuild]
      dsimp only
      rw [htx2]
      rfl

theorem update_graph_idempotent_witness :
    (Controller.update_graph ctrl1 graphST).1 = .ok () ∧
    ∃ plan,
      (Controller.update_graph ctrl1 graphST).2.tx_queue =
        ctrl1.tx_queue ++ [Message.MoveRenderPlan plan] ∧
      (Controller.update_graph
        { (Controller.update_graph ctrl1 graphST).2 with tx_queue := [] } graphST).1 =
        .ok () ∧
      (Controller.update_graph
        { (Controller.update_graph ctrl1 graphST).2 with tx_queue := [] } graphST).2.tx_queue =
        [Message.MoveRenderPlan plan] :=
  ⟨by decide, update_graph_idempotent ctrl1 graphST
    ⟨by decide, by decide, by decide, by decide, by decide, by decide, by decide, by decide⟩
    (by decide) (by decide)⟩

/-! ## Audio input wiring (claim C2) -/

theorem collect_audio_inputs_conn (c : Controller) (l : List (Nat × AudioInPort))
    (ins : List (String × List Nat))
    (h : Controller.collect_audio_input_buffers_go c l = .ok ins)
    (hids : (l.map (fun p => p.2.id)).Nodup)
    (pk : Nat) (port : AudioInPort) (aor : AudioOutRef)
    (hmem : (pk, port) ∈ l) (hconn : port.connection = some aor) :
    ∃ src bufs, alookup c.nodes aor.node_ref = some src ∧
      alookup src.audio_output_buffers aor.audio_port_key = some bufs ∧
      alookup ins port.id = some bufs := by
  induction l generalizing ins with
  | nil => simp at hmem
  | cons p rest ih =>
    rcases p with ⟨pk0, port0⟩
    simp only [List.map_cons, List.nodup_cons] at hids
    unfold Controller.collect_audio_input_buffers_go at h
    dsimp only at h
    rcases hbufs : (match port0.connection with
      | none => Controller.build_empty_audio_input_buffers c port0.channels
      | some audio_out_ref => Controller.build_audio_input_buffers c audio_out_ref)
      with e | bufs0 <;> rw [hbufs] at h
    · simp at h
    · rcases hrest : Controller.collect_audio_input_buffers_go c rest with e | tail <;>
        rw [hrest] at h
      · simp at h
      · dsimp only at h
        injection h with h
        subst h
        rcases List.mem_cons.mp hmem with he | he
        · rw [Prod.mk.injEq] at he
          obtain ⟨h1, h2⟩ := he
          subst h1; subst h2
          rw [hconn] at hbufs
          unfold Controller.build_audio_input_buffers at hbufs
          dsimp only at hbufs
          rcases hsrc : alookup c.nodes aor.node_ref with _ | src <;> rw [hsrc] at hbufs
          · simp at hbufs
          · unfold NodeCache.get_audio_output_buffer at hbufs
            dsimp only at hbufs
            rcases hmapq : alookup src.audio_output_buffers aor.audio_port_key with _ | v <;>
              rw [hmapq] at hbufs
            · simp at hbufs
            · injection hbufs with hbufs
              refine ⟨src, bufs0, rfl, ?_, ?_⟩
              · rw [hmapq, hbufs]
              · simp [alookup]
        · have hne : port0.id ≠ port.id := by
            intro he2
            apply hids.1
            rw [he2]
            exact List.mem_map.mpr ⟨(pk, port), he, rfl⟩
          obtain ⟨src, bufs, k1, k2, k3⟩ := ih tail hrest hids.2 he
          exact ⟨src, bufs, k1, k2, by simp [alookup, hne, k3]⟩

theorem clear_node_cache_ok (c : Controller) (r : Nat) (ctx : UpdateContext)
    (res : Except ControllerError Unit) (c1 : Controller) (ctx1 : UpdateContext)
    (h : Controller.clear_node_cache c r ctx = (res, c1, ctx1)) (hres : res = .ok ()) :
    ∃ nc, alookup c.nodes r = some nc ∧
      alookup c1.nodes r = some { nc with
        allocated_buffers := [], audio_output_buffers := [], render_ops := [] } ∧
      (∀ x, x ≠ r → alookup c1.nodes x = alookup c.nodes x) := by
  subst hres
  unfold Controller.clear_node_cache at h
  rcases hnc : alookup c.nodes r with _ | nc <;> rw [hnc] at h
  · simp at h
  · dsimp only at h
    have hc1 := congrArg (fun t => t.2.1) h
    dsimp only at hc1
    refine ⟨nc, rfl, ?_, ?_⟩
    · rw [← hc1]
      dsimp only
      rw [alookup_aInsert_self]
    · intro x hx
      rw [← hc1]
      dsimp only
      rw [alookup_aInsert_ne _ _ (fun he => hx he.symm)]

theorem update_node_cache_ok (c : Controller) (r : Nat)
    (pvb : List (Nat × Nat)) (prp : List (String × ParamRenderPort))
    (aib : List (String × List Nat)) (aob : List (Nat × String × List Nat))
    (res : Except ControllerError Unit) (c1 : Controller)
    (h : Controller.update_node_cache c r pvb prp aib aob = (res, c1))
    (hres : res = .ok ()) :
    ∃ nc, alookup c.nodes r = some nc ∧
      alookup c1.nodes r = some { nc with
        allocated_buffers := pvb.map (fun p => p.2) ++ (aob.map (fun p => p.2.2)).flatten
        audio_output_buffers := aob.map (fun p => (p.1, p.2.2))
        render_ops := nc.render_ops ++
          [RenderOp.RenderProcessor nc.processor_key aib (aob.map (fun p => p.2)) prp] } ∧
      (∀ x, x ≠ r → alookup c1.nodes x = alookup c.nodes x) := by
  subst hres
  unfold Controller.update_node_cache at h
  rcases hnc : alookup c.nodes r with _ | nc <;> rw [hnc] at h
  · simp at h
  · dsimp only at h
    rcases hpf : alookup c.processors nc.processor_key with _ | pbox <;> rw [hpf] at h
    · simp at h
    · dsimp only at h
      have hc1 := congrArg (fun t => t.2) h
      dsimp only at hc1
      refine ⟨nc, rfl, ?_, ?_⟩
      · rw [← hc1]
        dsimp only
        rw [alookup_aInsert_self]
      · intro x hx
        rw [← hc1]
        dsimp only
        rw [alookup_aInsert_ne _ _ (fun he => hx he.symm),
          alookup_aInsert_ne _ _ (fun he => hx he.symm)]

theorem shape_eq_some {m : List (Nat × NodeCache)} {x : Nat} {nc : NodeCache}
    (h : (alookup m x).map NodeCache.shape = (some nc).map NodeCache.shape) :
    ∃ nc', alookup m x = some nc' ∧ nc'.shape = nc.shape := by
  rcases hx : alookup m x with _ | nc' <;> rw [hx] at h
  · simp at h
  · exact ⟨nc', rfl, by simpa using h⟩

theorem visit_invalidated_node_shape_ne (c : Controller) (r : Nat) (g : Graph)
    (ctx : UpdateContext) (x : Nat) (hx : x ≠ r) :
    (alookup (Controller.visit_invalidated_node c r g ctx).2.1.nodes x).map NodeCache.shape =
      (alookup c.nodes x).map NodeCache.shape := by
  unfold Controller.visit_invalidated_node
  rcases hA : Controller.clear_node_cache c r ctx with ⟨res0, c1, ctx1⟩
  have h0 : alookup c1.nodes x = alookup c.nodes x := by
    unfold Controller.clear_node_cache at hA
    rcases hnc : alookup c.nodes r with _ | nc <;> rw [hnc] at hA
    · have h := congrArg (fun t => t.2.1) hA
      dsimp only at h
      rw [← h]
    · dsimp only at hA
      have h := congrArg (fun t => t.2.1) hA
      dsimp only at h
      rw [← h]
      exact alookup_aInsert_ne _ _ (fun he => hx he.symm)
  cases res0 with
  | error e => rw [h0]
  | ok u =>
    dsimp only
    cases hn : g.get_node r with
    | none => rw [h0]
    | some node =>
      dsimp only
      have hn1 := alloc_param_bufs_go_nodes c1 ctx1 node.params
      rcases hB : Controller.allocate_param_value_buffers c1 node ctx1 with ⟨pvb, c2, ctx2⟩
      have h1 : alookup c2.nodes x = alookup c.nodes x := by
        have hB' : Controller.alloc_param_bufs_go c1 ctx1 node.params = (pvb, c2, ctx2) := hB
        rw [hB'] at hn1
        rw [hn1, h0]
      cases Controller.build_param_render_ports c2 r node pvb with
      | error e => rw [h1]
      | ok prp =>
        dsimp only
        cases Controller.collect_audio_input_buffers c2 node with
        | error e => rw [h1]
        | ok aib =>
          dsimp only
          have hn2 := alloc_audio_out_go_nodes c2 ctx2 node.audio_outputs
          rcases hC : Controller.allocate_audio_output_buffers c2 node ctx2 with ⟨aob, c3, ctx3⟩
          have h2 : alookup c3.nodes x = alookup c.nodes x := by
            have hC' : Controller.alloc_audio_out_go c2 ctx2 node.audio_outputs =
              (aob, c3, ctx3) := hC
            rw [hC'] at hn2
            rw [hn2, h1]
          dsimp only
          have h3 := release_sources_go_shape c3 ctx3 node.sources x
          rcases hD : Controller.release_input_buffers c3 node ctx3 with ⟨res1, c4, ctx4⟩
          have h3' : (alookup c4.nodes x).map NodeCache.shape =
              (alookup c.nodes x).map NodeCache.shape := by
            have hD' : Controller.release_sources_go c3 ctx3 node.sources =
              (res1, c4, ctx4) := hD
            rw [hD'] at h3
            rw [h3, h2]
          cases res1 with
          | error e => exact h3'
          | ok u2 =>
            dsimp only
            rcases hE : Controller.update_node_cache c4 r pvb prp aib aob with ⟨res2, c5⟩
            have h4 : alookup c5.nodes x = alookup c4.nodes x := by
              unfold Controller.update_node_cache at hE
              rcases hnc : alookup c4.nodes r with _ | nc <;> rw [hnc] at hE
              · have h := congrArg Prod.snd hE
                dsimp only at h
                rw [← h]
              · dsimp only at hE
                rcases hpf : alookup c4.processors nc.processor_key with _ | pbox <;>
                  rw [hpf] at hE
                · have h := congrArg Prod.snd hE
                  dsimp only at h
                  rw [← h]
                  dsimp only
                  exact alookup_aInsert_ne _ _ (fun he => hx he.symm)
                · have h := congrArg Prod.snd hE
                  dsimp only at h
                  rw [← h]
                  dsimp only
                  rw [alookup_aInsert_ne _ _ (fun he => hx he.symm),
                    alookup_aInsert_ne _ _ (fun he => hx he.symm)]
            cases res2 with
            | error e => rw [h4]; exact h3'
            | ok u3 => rw [h4]; exact h3'

theorem visit_invalidated_node_rebuilds (c : Controller) (r : Nat) (g : Graph)
    (ctx : UpdateContext) (res : Except ControllerError Unit) (c' : Controller)
    (ctx' : UpdateContext)
    (hv : Controller.visit_invalidated_node c r g ctx = (res, c', ctx'))
    (hres : res = .ok ())
    (node : Node) (hn : g.get_node r = some node)
    (hids : (node.audio_inputs.map (fun p => p.2.id)).Nodup)
    (pk : Nat) (port : AudioInPort) (aor : AudioOutRef)
    (hmem : (pk, port) ∈ node.audio_inputs) (hconn : port.connection = some aor)
    (hsrcne : aor.node_ref ≠ r) :
    ∃ tc src bufs pk2 ins outs ps,
      alookup c'.nodes r = some tc ∧
      tc.render_ops = [RenderOp.RenderProcessor pk2 ins outs ps] ∧
      alookup ins port.id = some bufs ∧
      alookup c'.nodes aor.node_ref = some src ∧
      alookup src.audio_output_buffers aor.audio_port_key = some bufs := by
  subst hres
  unfold Controller.visit_invalidated_node at hv
  rcases hA : Controller.clear_node_cache c r ctx with ⟨res0, c1, ctx1⟩
  rw [hA] at hv
  cases res0 with
  | error e => simp at hv
  | ok u =>
    dsimp only at hv
    rw [hn] at hv
    dsimp only at hv
    obtain ⟨nc0, hnc0, hnc0', hother0⟩ := clear_node_cache_ok c r ctx (.ok u) c1 ctx1 hA
      (by cases u; rfl)
    rcases hB : Controller.allocate_param_value_buffers c1 node ctx1 with ⟨pvb, c2, ctx2⟩
    rw [hB] at hv
    have hn2 : c2.nodes = c1.nodes := by
      have hB' : Controller.alloc_param_bufs_go c1 ctx1 node.params = (pvb, c2, ctx2) := hB
      have := alloc_param_bufs_go_nodes c1 ctx1 node.params
      rw [hB'] at this
      exact this
    rcases hbp : Controller.build_param_render_ports c2 r node pvb with e | prp <;> rw [hbp] at hv
    · simp at hv
    · dsimp only at hv
      rcases hcol : Controller.collect_audio_input_buffers c2 node with e | aib <;>
        rw [hcol] at hv
      · simp at hv
      · dsimp only at hv
        obtain ⟨src2, bufs, hsrc2, hmap2, hins⟩ :=
          collect_audio_inputs_conn c2 node.audio_inputs aib hcol hids pk port aor hmem hconn
        rcases hC : Controller.allocate_audio_output_buffers c2 node ctx2 with ⟨aob, c3, ctx3⟩
        rw [hC] at hv
        have hn3 : c3.nodes = c2.nodes := by
          have hC' : Controller.alloc_audio_out_go c2 ctx2 node.audio_outputs =
            (aob, c3, ctx3) := hC
          have := alloc_audio_out_go_nodes c2 ctx2 node.audio_outputs
          rw [hC'] at this
          exact this
        rcases hD : Controller.release_input_buffers c3 node ctx3 with ⟨res1, c4, ctx4⟩
        rw [hD] at hv
        have hsh4 : ∀ x, (alookup c4.nodes x).map NodeCache.shape =
            (alookup c3.nodes x).map NodeCache.shape := by
          intro x
          have hD' : Controller.release_sources_go c3 ctx3 node.sources =
            (res1, c4, ctx4) := hD
          have := release_sources_go_shape c3 ctx3 node.sources x
          rw [hD'] at this
          exact this
        cases res1 with
        | error e => simp at hv
        | ok u2 =>
          dsimp only at hv
          rcases hE : Controller.update_node_cache c4 r pvb prp aib aob with ⟨res2, c5⟩
          rw [hE] at hv
          cases res2 with
          | error e => simp at hv
          | ok u3 =>
            dsimp only at hv
            have hc5 : c5 = c' := congrArg (fun t => t.2.1) hv
            obtain ⟨nc4, hnc4, hnc4', hother4⟩ :=
              update_node_cache_ok c4 r pvb prp aib aob (.ok u3) c5 hE (by cases u3; rfl)
            have hops4 : nc4.render_ops = [] := by
              have hsh := hsh4 r
              rw [hnc4, hn3, hn2, hnc0'] at hsh
              have hsh2 : nc4.shape = NodeCache.shape { nc0 with
                  allocated_buffers := [], audio_output_buffers := [], render_ops := [] } := by
                simpa using hsh
              exact shape_render_ops hsh2
            have hsrc5 : ∃ src, alookup c5.nodes aor.node_ref = some src ∧
                src.audio_output_buffers = src2.audio_output_buffers := by
              have hsh := hsh4 aor.node_ref
              rw [hn3, hsrc2] at hsh
              obtain ⟨src4, k1, k2⟩ := shape_eq_some hsh
              refine ⟨src4, ?_, shape_audio_output_buffers k2⟩
              rw [hother4 aor.node_ref hsrcne]
              exact k1
            obtain ⟨src, hsrc, hsrcmap⟩ := hsrc5
            refine ⟨{ nc4 with
                allocated_buffers := pvb.map (fun p => p.2) ++
                  (aob.map (fun p => p.2.2)).flatten
                audio_output_buffers := aob.map (fun p => (p.1, p.2.2))
                render_ops := nc4.render_ops ++
                  [RenderOp.RenderProcessor nc4.processor_key aib
                    (aob.map (fun p => p.2)) prp] },
              src, bufs, nc4.processor_key, aib, aob.map (fun p => p.2), prp,
              ?_, ?_, hins, ?_, ?_⟩
            · rw [← hc5]
              exact hnc4'
            · dsimp only
              rw [hops4]
              rfl
            · rw [← hc5]
              exact hsrc
            · rw [hsrcmap]
              exact hmap2

theorem update_nodes_shape_outside (g : Graph) (l : List Nat) :
    ∀ (c : Controller) (ctx : UpdateContext) (x : Nat), x ∉ l →
    (alookup (Controller.update_nodes c l g ctx).2.1.nodes x).map NodeCache.shape =
      (alookup c.nodes x).map NodeCache.shape := by
  induction l with
  | nil => intro c ctx x hx; rfl
  | cons r rest ih =>
    intro c ctx x hx
    have hxr : x ≠ r := fun he => hx (he ▸ List.mem_cons_self _ _)
    have hxrest : x ∉ rest := fun he => hx (List.mem_cons_of_mem _ he)
    unfold Controller.update_nodes
    dsimp only
    by_cases hcr : (alookup c.nodes r).isNone
    · rw [if_pos hcr]
      have hn0 := create_node_nodes c r g
      rcases hA : Controller.create_node c r g with ⟨res0, c1⟩
      rw [hA] at hn0
      cases res0 with
      | error e => rw [hn0]
      | ok nc =>
        dsimp only
        have h0 : alookup (aInsert c1.nodes r nc) x = alookup c.nodes x := by
          rw [alookup_aInsert_ne _ _ (fun he => hxr he.symm), hn0]
        cases hn : g.get_node r with
        | none => rw [h0]
        | some node =>
          dsimp only
          rw [hcr, Bool.or_true, if_pos rfl]
          have h1 := visit_invalidated_node_shape_ne
            { c1 with nodes := aInsert c1.nodes r nc } r g ctx x hxr
          rcases hB : Controller.visit_invalidated_node
              { c1 with nodes := aInsert c1.nodes r nc } r g ctx with ⟨res1, c2, ctx2⟩
          rw [hB] at h1
          cases res1 with
          | error e => rw [h1]; dsimp only; rw [h0]
          | ok u =>
            rw [ih c2 ctx2 x hxrest, h1]
            dsimp only
            rw [h0]
    · rw [if_neg hcr]
      dsimp only
      cases hn : g.get_node r with
      | none => rfl
      | some node =>
        dsimp only
        have hcr' : (alookup c.nodes r).isNone = false := by
          exact Bool.not_eq_true _ ▸ eq_false_of_ne_true hcr
        rw [hcr', Bool.or_false]
        by_cases hinv : node.invalidated = true
        · rw [if_pos hinv]
          have h1 := visit_invalidated_node_shape_ne c r g ctx x hxr
          rcases hB : Controller.visit_invalidated_node c r g ctx with ⟨res1, c2, ctx2⟩
          rw [hB] at h1
          cases res1 with
          | error e => exact h1
          | ok u => rw [ih c2 ctx2 x hxrest, h1]
        · rw [if_neg hinv]
          have h1 := visit_unchanged_node_shape c r g ctx x
          rcases hB : Controller.visit_unchanged_node c r g ctx with ⟨res1, c2, ctx2⟩
          rw [hB] at h1
          cases res1 with
          | error e => exact h1
          | ok u => rw [ih c2 ctx2 x hxrest, h1]

theorem mem_sources_of_audio_input {n : Node} {pk : Nat} {port : AudioInPort}
    {aor : AudioOutRef} (hmem : (pk, port) ∈ n.audio_inputs)
    (hconn : port.connection = some aor) :
    aor.node_ref ∈ n.sources := by
  unfold Node.sources
  apply List.mem_append_left
  apply List.mem_filterMap.mpr
  refine ⟨(pk, port), hmem, ?_⟩
  dsimp only
  rw [hconn]
  rfl

theorem collect_plan_ops_mem (c : Controller) (l : List Nat) (ops : List RenderOp)
    (h : Controller.collect_plan_ops c l = .ok ops) (t : Nat) (ht : t ∈ l)
    (tc : NodeCache) (htc : alookup c.nodes t = some tc) :
    ∀ op ∈ tc.render_ops, op ∈ ops := by
  induction l generalizing ops with
  | nil => simp at ht
  | cons r rest ih =>
    unfold Controller.collect_plan_ops at h
    rcases hnc : alookup c.nodes r with _ | nc <;> rw [hnc] at h
    · simp at h
    · dsimp only at h
      rcases hr : Controller.collect_plan_ops c rest with e | tail <;> rw [hr] at h
      · simp at h
      · dsimp only at h
        injection h with h
        subst h
        intro op hop
        rcases List.mem_cons.mp ht with hteq | htrest
        · subst hteq
          rw [htc] at hnc
          injection hnc with hnc
          subst hnc
          exact List.mem_append_left _ hop
        · exact List.mem_append_right _ (ih tail hr htrest op hop)

theorem update_nodes_rebuilt_sink (g : Graph) :
    ∀ (l seen : List Nat) (c : Controller) (ctx : UpdateContext)
      (c' : Controller) (ctx' : UpdateContext),
    Controller.update_nodes c l g ctx = (.ok (), c', ctx') →
    (seen ++ l).Nodup →
    g.topoOrderedFrom seen l →
    (∀ r ∈ l, ∀ n, g.get_node r = some n →
      (n.audio_inputs.map (fun p => p.2.id)).Nodup) →
    ∀ t ∈ l, ∀ tn, g.get_node t = some tn →
    (tn.invalidated = true ∨ alookup c.nodes t = none) →
    ∀ pk port aor, (pk, port) ∈ tn.audio_inputs → port.connection = some aor →
    ∃ tc src bufs pk2 ins outs ps,
      alookup c'.nodes t = some tc ∧
      tc.render_ops = [RenderOp.RenderProcessor pk2 ins outs ps] ∧
      alookup ins port.id = some bufs ∧
      alookup c'.nodes aor.node_ref = some src ∧
      alookup src.audio_output_buffers aor.audio_port_key = some bufs := by
  intro l
  induction l with
  | nil =>
    intro seen c ctx c' ctx' hv hnd hord hports t ht
    simp at ht
  | cons r rest ih =>
    intro seen c ctx c' ctx' hv hnd hord hports t ht tn htn hreb pk port aor hmem hconn
    obtain ⟨hsrcs, hordrest⟩ := hord
    have hnd3 := List.nodup_append.mp hnd
    have hdisj : seen.Disjoint (r :: rest) := hnd3.2.2
    have hrrest : r ∉ rest := (List.nodup_cons.mp hnd3.2.1).1
    have hnd' : ((seen ++ [r]) ++ rest).Nodup := by
      rw [← List.append_cons] at *
      exact hnd
    unfold Controller.update_nodes at hv
    dsimp only at hv
    by_cases hcr : (alookup c.nodes r).isNone
    · rw [if_pos hcr] at hv
      have hcn := create_node_nodes c r g
      rcases hA : Controller.create_node c r g with ⟨res0, c1⟩
      rw [hA] at hv hcn
      cases res0 with
      | error e => simp at hv
      | ok nc =>
        dsimp only at hv
        rcases hn : g.get_node r with _ | node <;> rw [hn] at hv
        · simp at hv
        · dsimp only at hv
          rw [hcr, Bool.or_true, if_pos rfl] at hv
          rcases hB : Controller.visit_invalidated_node
              { c1 with nodes := aInsert c1.nodes r nc } r g ctx with ⟨res1, c2, ctx2⟩
          rw [hB] at hv
          cases res1 with
          | error e => simp at hv
          | ok u1 =>
            dsimp only at hv
            rcases List.mem_cons.mp ht with hteq | htrest
            · subst hteq
              rw [htn] at hn
              injection hn with hn
              subst hn
              have hsrcseen : aor.node_ref ∈ seen := by
                apply hsrcs
                unfold Graph.sourcesOf
                rw [htn]
                exact mem_sources_of_audio_input hmem hconn
              have hne_r : aor.node_ref ≠ t := by
                intro he
                exact hdisj hsrcseen (by rw [he]; exact List.mem_cons_self t rest)
              have hsrc_nrest : aor.node_ref ∉ rest := fun hm =>
                hdisj hsrcseen (List.mem_cons_of_mem t hm)
              have hids := hports t (List.mem_cons_self t rest) tn htn
              obtain ⟨tc, src, bufs, pk2, ins, outs, ps, h1, h2, h3, h4, h5⟩ :=
                visit_invalidated_node_rebuilds
                  { c1 with nodes := aInsert c1.nodes t nc } t g ctx (.ok u1) c2 ctx2 hB
                  (by cases u1; rfl) tn htn hids pk port aor hmem hconn hne_r
              have hsh_t := update_nodes_shape_outside g rest c2 ctx2 t hrrest
              have hsh_s := update_nodes_shape_outside g rest c2 ctx2 aor.node_ref hsrc_nrest
              rw [hv] at hsh_t hsh_s
              dsimp only at hsh_t hsh_s
              rw [h1] at hsh_t
              rw [h4] at hsh_s
              obtain ⟨tc', htc', htcsh⟩ := shape_eq_some hsh_t
              obtain ⟨src', hsrc', hsrcsh⟩ := shape_eq_some hsh_s
              refine ⟨tc', src', bufs, pk2, ins, outs, ps, htc', ?_, h3, hsrc', ?_⟩
              · rw [shape_render_ops htcsh]
                exact h2
              · rw [shape_audio_output_buffers hsrcsh]
                exact h5
            · have htner : t ≠ r := fun he => hrrest (he ▸ htrest)
              have hreb' : tn.invalidated = true ∨ alookup c2.nodes t = none := by
                rcases hreb with hreb | hreb
                · exact Or.inl hreb
                · refine Or.inr ?_
                  have hsh := visit_invalidated_node_shape_ne
                    { c1 with nodes := aInsert c1.nodes r nc } r g ctx t htner
                  rw [hB] at hsh
                  dsimp only at hsh
                  rw [alookup_aInsert_ne _ _ (fun he => htner he.symm), hcn, hreb] at hsh
                  exact Option.map_eq_none.mp hsh
              exact ih (seen ++ [r]) c2 ctx2 c' ctx' hv hnd' hordrest
                (fun x hx n hn2 => hports x (List.mem_cons_of_mem r hx) n hn2)
                t htrest tn htn hreb' pk port aor hmem hconn
    · rw [if_neg hcr] at hv
      dsimp only at hv
      rcases hn : g.get_node r with _ | node <;> rw [hn] at hv
      · simp at hv
      · dsimp only at hv
        have hcr' : (alookup c.nodes r).isNone = false := by
          exact Bool.not_eq_true _ ▸ eq_false_of_ne_true hcr
        rw [hcr', Bool.or_false] at hv
        by_cases hinv : node.invalidated = true
        · rw [if_pos hinv] at hv
          rcases hB : Controller.visit_invalidated_node c r g ctx with ⟨res1, c2, ctx2⟩
          rw [hB] at hv
          cases res1 with
          | error e => simp at hv
          | ok u1 =>
            dsimp only at hv
            rcases List.mem_cons.mp ht with hteq | htrest
            · subst hteq
              rw [htn] at hn
              injection hn with hn
              subst hn
              have hsrcseen : aor.node_ref ∈ seen := by
                apply hsrcs
                unfold Graph.sourcesOf
                rw [htn]
                exact mem_sources_of_audio_input hmem hconn
              have hne_r : aor.node_ref ≠ t := by
                intro he
                exact hdisj hsrcseen (by rw [he]; exact List.mem_cons_self t rest)
              have hsrc_nrest : aor.node_ref ∉ rest := fun hm =>
                hdisj hsrcseen (List.mem_cons_of_mem t hm)
              have hids := hports t (List.mem_cons_self t rest) tn htn
              obtain ⟨tc, src, bufs, pk2, ins, outs, ps, h1, h2, h3, h4, h5⟩ :=
                visit_invalidated_node_rebuilds c t g ctx (.ok u1) c2 ctx2 hB
                  (by cases u1; rfl) tn htn hids pk port aor hmem hconn hne_r
              have hsh_t := update_nodes_shape_outside g rest c2 ctx2 t hrrest
              have hsh_s := update_nodes_shape_outside g rest c2 ctx2 aor.node_ref hsrc_nrest
              rw [hv] at hsh_t hsh_s
              dsimp only at hsh_t hsh_s
              rw [h1] at hsh_t
              rw [h4] at hsh_s
              obtain ⟨tc', htc', htcsh⟩ := shape_eq_some hsh_t
              obtain ⟨src', hsrc', hsrcsh⟩ := shape_eq_some hsh_s
              refine ⟨tc', src', bufs, pk2, ins, outs, ps, htc', ?_, h3, hsrc', ?_⟩
              · rw [shape_render_ops htcsh]
                exact h2
              · rw [shape_audio_output_buffers hsrcsh]
                exact h5
            · have htner : t ≠ r := fun he => hrrest (he ▸ htrest)
              have hreb' : tn.invalidated = true ∨ alookup c2.nodes t = none := by
                rcases hreb with hreb | hreb
                · exact Or.inl hreb
                · refine Or.inr ?_
                  have hsh := visit_invalidated_node_shape_ne c r g ctx t htner
                  rw [hB] at hsh
                  dsimp only at hsh
                  rw [hreb] at hsh
                  exact Option.map_eq_none.mp hsh
              exact ih (seen ++ [r]) c2 ctx2 c' ctx' hv hnd' hordrest
                (fun x hx n hn2 => hports x (List.mem_cons_of_mem r hx) n hn2)
                t htrest tn htn hreb' pk port aor hmem hconn
        · rw [if_neg hinv] at hv
          rcases hB : Controller.visit_unchanged_node c r g ctx with ⟨res1, c2, ctx2⟩
          rw [hB] at hv
          cases res1 with
          | error e => simp at hv
          | ok u1 =>
            dsimp only at hv
            rcases List.mem_cons.mp ht with hteq | htrest
            · subst hteq
              rw [htn] at hn
              injection hn with hn
              subst hn
              rcases hreb with hreb | hreb
              · exact absurd hreb hinv
              · rw [hreb] at hcr
                exact absurd rfl hcr
            · have hreb' : tn.invalidated = true ∨ alookup c2.nodes t = none := by
                rcases hreb with hreb | hreb
                · exact Or.inl hreb
                · refine Or.inr ?_
                  have hsh := visit_unchanged_node_shape c r g ctx t
                  rw [hB] at hsh
                  dsimp only at hsh
                  rw [hreb] at hsh
                  exact Option.map_eq_none.mp hsh
              exact ih (seen ++ [r]) c2 ctx2 c' ctx' hv hnd' hordrest
                (fun x hx n hn2 => hports x (List.mem_cons_of_mem r hx) n hn2)
                t htrest tn htn hreb' pk port aor hmem hconn

/-- C2 (amended): for a well-formed graph on which `update_graph` succeeds, and
every audio connection into a sink node that is rebuilt during this update
(invalidated, or not yet cached), the plan pushed to the renderer contains the
sink's single `RenderProcessor` op, and the buffer list bound in it under the
input port's id is identical - same keys, same order - to the buffer list
stored under the connected output port key in the source node's `NodeCache` at
the moment the plan is sealed.  (The unrestricted claim, covering sinks left
unchanged while their source is invalidated, is refuted by
`audio_input_matches_source_cache_counterexample`.) -/
theorem audio_input_matches_source_cache (c : Controller) (g : Graph) (hwf : g.Wf)
    (hok : (Controller.update_graph c g).1 = .ok ())
    (t : Nat) (ht : t ∈ g.topology.nodes) (tn : Node) (htn : g.get_node t = some tn)
    (hreb : tn.invalidated = true ∨ alookup c.nodes t = none)
    (pk : Nat) (port : AudioInPort) (aor : AudioOutRef)
    (hmem : (pk, port) ∈ tn.audio_inputs) (hconn : port.connection = some aor) :
    ∃ plan tc src bufs pk2 ins outs ps,
      (Controller.update_graph c g).2.tx_queue =
        c.tx_queue ++ [Message.MoveRenderPlan plan] ∧
      alookup (Controller.update_graph c g).2.nodes t = some tc ∧
      tc.render_ops = [RenderOp.RenderProcessor pk2 ins outs ps] ∧
      RenderOp.RenderProcessor pk2 ins outs ps ∈ plan.operations ∧
      alookup ins port.id = some bufs ∧
      alookup (Controller.update_graph c g).2.nodes aor.node_ref = some src ∧
      alookup src.audio_output_buffers aor.audio_port_key = some bufs := by
  obtain ⟨c1, ctx1, proc_ops, out_ops, hun, hplan, hout, hlen, hfin⟩ :=
    update_graph_ok_destruct c g hok
  have hports : ∀ r ∈ g.topology.nodes, ∀ n, g.get_node r = some n →
      (n.audio_inputs.map (fun p => p.2.id)).Nodup := by
    intro r hr n hn
    exact (hwf.port_ids (r, n) (mem_of_alookup hn)).2.2.2.1
  obtain ⟨tc, src, bufs, pk2, ins, outs, ps, h1, h2, h3, h4, h5⟩ :=
    update_nodes_rebuilt_sink g g.topology.nodes [] c
      (UpdateContext.new g.topology
        (c.buffers.filter (fun k => decide (¬ k = c.empty_buffer))))
      c1 ctx1 hun (by simpa using hwf.topo_nodup) hwf.ordered hports t ht tn htn hreb
      pk port aor hmem hconn
  have hfr := update_nodes_frame c g.topology.nodes g
    (UpdateContext.new g.topology
      (c.buffers.filter (fun k => decide (¬ k = c.empty_buffer))))
  rw [hun] at hfr
  dsimp only at hfr
  have htx : c1.tx_queue = c.tx_queue := hfr.2.1
  refine ⟨{ operations := proc_ops ++ out_ops }, tc, src, bufs, pk2, ins, outs, ps,
    ?_, ?_, h2, ?_, h3, ?_, h5⟩
  · rw [hfin]
    dsimp only
    rw [htx]
  · rw [hfin]
    exact h1
  · exact List.mem_append_left _
      (collect_plan_ops_mem c1 g.topology.nodes proc_ops hplan t ht tc h1 _
        (by rw [h2]; exact List.mem_cons_self _ _))
  · rw [hfin]
    exact h4

/-- C2 (counterexample): on the second update of the chain `A -> B -> C`, in
which only the middle node `B` is invalidated, the unchanged sink `C` keeps
its cached op binding its input `IN` to the buffer list `[3]`, and that op is
in the pushed plan, while the rebuilt source `B` now stores `[2]` under the
connected output port key `11`: the two lists differ, refuting the claim in
the case where the source node is invalidated while the sink node is
unchanged. -/
theorem audio_input_matches_source_cache_counterexample :
    runABC1.1 = .ok () ∧ runABC2.1 = .ok () ∧
    (graphABC true).get_node 8 = some nodeC ∧
    nodeC.invalidated = false ∧
    (21, { id := "IN", channels := 1, connection := some ⟨7, 11⟩ }) ∈ nodeC.audio_inputs ∧
    (alookup runABC2.2.nodes 8).map NodeCache.render_ops =
      some [RenderOp.RenderProcessor 2 [("IN", [3])] [("OUT", [1])] []] ∧
    runABC2.2.tx_queue.getLast? = some (Message.MoveRenderPlan { operations :=
      [RenderOp.RenderProcessor 0 [] [("OUT", [1])] [],
       RenderOp.RenderProcessor 1 [("IN", [1])] [("OUT", [2])]
         [("P", ParamRenderPort.value 0 1)],
       RenderOp.RenderProcessor 2 [("IN", [3])] [("OUT", [1])] [],
       RenderOp.RenderOutput "OUT" [1]] }) ∧
    (alookup runABC2.2.nodes 7).map
      (fun src => alookup src.audio_output_buffers 11) = some (some [2]) ∧
    ([3] : List Nat) ≠ [2] :=
  ⟨by decide, by decide, rfl, rfl, by decide, by decide, by decide, by decide, by decide⟩

theorem audio_input_matches_source_cache_witness :
    (graphABC false).Wf ∧
    (Controller.update_graph ctrl2 (graphABC false)).1 = .ok () ∧
    8 ∈ (graphABC false).topology.nodes ∧
    (graphABC false).get_node 8 = some nodeC ∧
    alookup ctrl2.nodes 8 = none ∧
    (21, { id := "IN", channels := 1, connection := some ⟨7, 11⟩ }) ∈ nodeC.audio_inputs ∧
    (∃ plan tc src bufs pk2 ins outs ps,
      (Controller.update_graph ctrl2 (graphABC false)).2.tx_queue =
        ctrl2.tx_queue ++ [Message.MoveRenderPlan plan] ∧
      alookup (Controller.update_graph ctrl2 (graphABC false)).2.nodes 8 = some tc ∧
      tc.render_ops = [RenderOp.RenderProcessor pk2 ins outs ps] ∧
      RenderOp.RenderProcessor pk2 ins outs ps ∈ plan.operations ∧
      alookup ins "IN" = some bufs ∧
      alookup (Controller.update_graph ctrl2 (graphABC false)).2.nodes 7 = some src ∧
      alookup src.audio_output_buffers 11 = some bufs) := by
  have hwf : (graphABC false).Wf :=
    ⟨by decide, by decide, by decide, by decide, by decide, by decide, by decide, by decide⟩
  exact ⟨hwf, by decide, by decide, rfl, rfl, by decide,
    audio_input_matches_source_cache ctrl2 (graphABC false) hwf (by decide) 8 (by decide)
      nodeC rfl (Or.inr rfl) 21 { id := "IN", channels := 1, connection := some ⟨7, 11⟩ }
      ⟨7, 11⟩ (by decide) rfl⟩

theorem allocate_buffer_spec (c : Controller) (ctx : UpdateContext) (k : Nat)
    (c1 : Controller) (ctx1 : UpdateContext)
    (h : Controller.allocate_buffer c ctx = (k, c1, ctx1))
    (hnd : ctx.free_buffers.Nodup) (hb : ∀ f ∈ ctx.free_buffers, f < c.buffers_next) :
    ctx1.free_buffers.Nodup ∧ (∀ f ∈ ctx1.free_buffers, f < c1.buffers_next) ∧
    k ∉ ctx1.free_buffers ∧ k < c1.buffers_next ∧ c.buffers_next ≤ c1.buffers_next ∧
    (k ∈ ctx.free_buffers ∨ c.buffers_next ≤ k) ∧
    (∀ f ∈ ctx1.free_buffers, f ∈ ctx.free_buffers) := by
  unfold Controller.allocate_buffer at h
  rcases hf : ctx.free_buffers with _ | ⟨key, restl⟩ <;> rw [hf] at h hnd hb
  · dsimp only at h
    injection h with h1 h2
    injection h2 with h2 h3
    subst h1 h2 h3
    refine ⟨?_, ?_, ?_, Nat.lt_succ_self _, Nat.le_succ _, Or.inr (Nat.le_refl _), ?_⟩
    · rw [hf]
      exact List.nodup_nil
    · intro f hf2
      rw [hf] at hf2
      simp at hf2
    · rw [hf]
      simp
    · rw [hf]
      simp
  · dsimp only at h
    injection h with h1 h2
    injection h2 with h2 h3
    subst h1 h2 h3
    refine ⟨hnd.of_cons, ?_, (List.nodup_cons.mp hnd).1, hb key (List.mem_cons_self _ _),
      Nat.le_refl _, Or.inl (List.mem_cons_self _ _), ?_⟩
    · intro f hf2
      exact hb f (List.mem_cons_of_mem _ hf2)
    · intro f hf2
      exact List.mem_cons_of_mem _ hf2

theorem alloc_param_bufs_go_spec (ps : List (Nat × ParamPort)) :
    ∀ (c : Controller) (ctx : UpdateContext) (pvb : List (Nat × Nat))
      (c1 : Controller) (ctx1 : UpdateContext),
    Controller.alloc_param_bufs_go c ctx ps = (pvb, c1, ctx1) →
    ctx.free_buffers.Nodup → (∀ f ∈ ctx.free_buffers, f < c.buffers_next) →
    ctx1.free_buffers.Nodup ∧ (∀ f ∈ ctx1.free_buffers, f < c1.buffers_next) ∧
    c.buffers_next ≤ c1.buffers_next ∧
    (∀ f ∈ ctx1.free_buffers, f ∈ ctx.free_buffers) ∧
    (pvb.map (fun p => p.2)).Nodup ∧
    (∀ j ∈ pvb.map (fun p => p.2), j ∉ ctx1.free_buffers ∧ j < c1.buffers_next) ∧
    (∀ j ∈ pvb.map (fun p => p.2), j ∈ ctx.free_buffers ∨ c.buffers_next ≤ j) ∧
    pvb.map (fun p => p.1) =
      (ps.filter (fun p => p.2.connection.isNone)).map (fun p => p.1) := by
  induction ps with
  | nil =>
    intro c ctx pvb c1 ctx1 h hnd hb
    unfold Controller.alloc_param_bufs_go at h
    injection h with h1 h2
    injection h2 with h2 h3
    subst h1 h2 h3
    exact ⟨hnd, hb, Nat.le_refl _, fun f hf => hf, by simp, by simp, by simp, by simp⟩
  | cons p rest ih =>
    intro c ctx pvb c1 ctx1 h hnd hb
    rcases p with ⟨port_key, port⟩
    unfold Controller.alloc_param_bufs_go at h
    rcases hc : port.connection with _ | aor <;> rw [hc] at h
    · dsimp only at h
      rcases hA : Controller.allocate_buffer c ctx with ⟨k, cA, ctxA⟩
      rw [hA] at h
      dsimp only at h
      rcases hB : Controller.alloc_param_bufs_go cA ctxA rest with ⟨tail, cB, ctxB⟩
      rw [hB] at h
      dsimp only at h
      injection h with h1 h2
      injection h2 with h2 h3
      subst h1 h2 h3
      obtain ⟨a1, a2, a3, a4, a5, a6, a7⟩ := allocate_buffer_spec c ctx k cA ctxA hA hnd hb
      obtain ⟨i1, i2, i3, i4, i5, i6, i7, i8⟩ := ih cA ctxA tail cB ctxB hB a1 a2
      refine ⟨i1, i2, Nat.le_trans a5 i3, fun f hf => a7 f (i4 f hf), ?_, ?_, ?_, ?_⟩
      · rw [List.map_cons]
        rw [List.nodup_cons]
        refine ⟨?_, i5⟩
        intro hk
        rcases i7 k hk with hk2 | hk2
        · exact a3 hk2
        · exact Nat.lt_irrefl _ (Nat.lt_of_lt_of_le a4 hk2)
      · intro j hj
        rw [List.map_cons] at hj
        rcases List.mem_cons.mp hj with hj | hj
        · subst hj
          exact ⟨fun hk => a3 (i4 _ hk), Nat.lt_of_lt_of_le a4 i3⟩
        · exact i6 j hj
      · intro j hj
        rw [List.map_cons] at hj
        rcases List.mem_cons.mp hj with hj | hj
        · subst hj
          exact a6
        · rcases i7 j hj with hj2 | hj2
          · exact Or.inl (a7 j hj2)
          · exact Or.inr (Nat.le_trans a5 hj2)
      · rw [List.map_cons, List.filter_cons_of_pos (by simp [hc]), List.map_cons, i8]
    · dsimp only at h
      obtain ⟨i1, i2, i3, i4, i5, i6, i7, i8⟩ := ih c ctx pvb c1 ctx1 h hnd hb
      refine ⟨i1, i2, i3, i4, i5, i6, i7, ?_⟩
      rw [List.filter_cons_of_neg (by simp [hc]), i8]

theorem allocate_n_buffers_spec (n : Nat) :
    ∀ (c : Controller) (ctx : UpdateContext) (keys : List Nat)
      (c1 : Controller) (ctx1 : UpdateContext),
    Controller.allocate_n_buffers c ctx n = (keys, c1, ctx1) →
    ctx.free_buffers.Nodup → (∀ f ∈ ctx.free_buffers, f < c.buffers_next) →
    ctx1.free_buffers.Nodup ∧ (∀ f ∈ ctx1.free_buffers, f < c1.buffers_next) ∧
    c.buffers_next ≤ c1.buffers_next ∧
    (∀ f ∈ ctx1.free_buffers, f ∈ ctx.free_buffers) ∧
    keys.Nodup ∧
    (∀ j ∈ keys, j ∉ ctx1.free_buffers ∧ j < c1.buffers_next) ∧
    (∀ j ∈ keys, j ∈ ctx.free_buffers ∨ c.buffers_next ≤ j) := by
  induction n with
  | zero =>
    intro c ctx keys c1 ctx1 h hnd hb
    unfold Controller.allocate_n_buffers at h
    injection h with h1 h2
    injection h2 with h2 h3
    subst h1 h2 h3
    exact ⟨hnd, hb, Nat.le_refl _, fun f hf => hf, by simp, by simp, by simp⟩
  | succ n ih =>
    intro c ctx keys c1 ctx1 h hnd hb
    unfold Controller.allocate_n_buffers at h
    dsimp only at h
    rcases hA : Controller.allocate_buffer c ctx with ⟨k, cA, ctxA⟩
    rw [hA] at h
    dsimp only at h
    rcases hB : Controller.allocate_n_buffers cA ctxA n with ⟨tail, cB, ctxB⟩
    rw [hB] at h
    dsimp only at h
    injection h with h1 h2
    injection h2 with h2 h3
    subst h1 h2 h3
    obtain ⟨a1, a2, a3, a4, a5, a6, a7⟩ := allocate_buffer_spec c ctx k cA ctxA hA hnd hb
    obtain ⟨i1, i2, i3, i4, i5, i6, i7⟩ := ih cA ctxA tail cB ctxB hB a1 a2
    refine ⟨i1, i2, Nat.le_trans a5 i3, fun f hf => a7 f (i4 f hf), ?_, ?_, ?_⟩
    · rw [List.nodup_cons]
      refine ⟨?_, i5⟩
      intro hk
      rcases i7 k hk with hk2 | hk2
      · exact a3 hk2
      · exact Nat.lt_irrefl _ (Nat.lt_of_lt_of_le a4 hk2)
    · intro j hj
      rcases List.mem_cons.mp hj with hj | hj
      · subst hj
        exact ⟨fun hk => a3 (i4 _ hk), Nat.lt_of_lt_of_le a4 i3⟩
      · exact i6 j hj
    · intro j hj
      rcases List.mem_cons.mp hj with hj | hj
      · subst hj
        exact a6
      · rcases i7 j hj with hj2 | hj2
        · exact Or.inl (a7 j hj2)
        · exact Or.inr (Nat.le_trans a5 hj2)

theorem alloc_audio_out_go_spec (l : List (Nat × AudioOutPort)) :
    ∀ (c : Controller) (ctx : UpdateContext) (aob : List (Nat × String × List Nat))
      (c1 : Controller) (ctx1 : UpdateContext),
    Controller.alloc_audio_out_go c ctx l = (aob, c1, ctx1) →
    ctx.free_buffers.Nodup → (∀ f ∈ ctx.free_buffers, f < c.buffers_next) →
    ctx1.free_buffers.Nodup ∧ (∀ f ∈ ctx1.free_buffers, f < c1.buffers_next) ∧
    c.buffers_next ≤ c1.buffers_next ∧
    (∀ f ∈ ctx1.free_buffers, f ∈ ctx.free_buffers) ∧
    ((aob.map (fun p => p.2.2)).flatten).Nodup ∧
    (∀ j ∈ (aob.map (fun p => p.2.2)).flatten, j ∉ ctx1.free_buffers ∧ j < c1.buffers_next) ∧
    (∀ j ∈ (aob.map (fun p => p.2.2)).flatten,
      j ∈ ctx.free_buffers ∨ c.buffers_next ≤ j) := by
  induction l with
  | nil =>
    intro c ctx aob c1 ctx1 h hnd hb
    unfold Controller.alloc_audio_out_go at h
    injection h with h1 h2
    injection h2 with h2 h3
    subst h1 h2 h3
    exact ⟨hnd, hb, Nat.le_refl _, fun f hf => hf, by simp, by simp, by simp⟩
  | cons p rest ih =>
    intro c ctx aob c1 ctx1 h hnd hb
    rcases p with ⟨port_key, port⟩
    unfold Controller.alloc_audio_out_go at h
    dsimp only at h
    rcases hA : Controller.allocate_n_buffers c ctx port.channels with ⟨keys, cA, ctxA⟩
    rw [hA] at h
    dsimp only at h
    rcases hB : Controller.alloc_audio_out_go cA ctxA rest with ⟨tail, cB, ctxB⟩
    rw [hB] at h
    dsimp only at h
    injection h with h1 h2
    injection h2 with h2 h3
    subst h1 h2 h3
    obtain ⟨a1, a2, a3, a4, a5, a6, a7⟩ :=
      allocate_n_buffers_spec port.channels c ctx keys cA ctxA hA hnd hb
    obtain ⟨i1, i2, i3, i4, i5, i6, i7⟩ := ih cA ctxA tail cB ctxB hB a1 a2
    have hsub : ∀ j ∈ keys.filter (fun k => decide (k ∈ cA.buffers)), j ∈ keys :=
      fun j hj => List.mem_of_mem_filter hj
    refine ⟨i1, i2, Nat.le_trans a3 i3, fun f hf => a4 f (i4 f hf), ?_, ?_, ?_⟩
    · rw [List.map_cons, List.flatten_cons]
      rw [List.nodup_append]
      refine ⟨a5.filter _, i5, ?_⟩
      intro j hj hj2
      have hj3 := hsub j hj
      rcases i7 j hj2 with hj4 | hj4
      · exact (a6 j hj3).1 hj4
      · exact Nat.lt_irrefl _ (Nat.lt_of_lt_of_le (a6 j hj3).2 hj4)
    · intro j hj
      rw [List.map_cons, List.flatten_cons] at hj
      rcases List.mem_append.mp hj with hj | hj
      · have hj3 := hsub j hj
        exact ⟨fun hk => (a6 j hj3).1 (i4 _ hk), Nat.lt_of_lt_of_le (a6 j hj3).2 i3⟩
      · exact i6 j hj
    · intro j hj
      rw [List.map_cons, List.flatten_cons] at hj
      rcases List.mem_append.mp hj with hj | hj
      · exact a7 j (hsub j hj)
      · rcases i7 j hj with hj2 | hj2
        · exact Or.inl (a4 j hj2)
        · exact Or.inr (Nat.le_trans a3 hj2)

theorem allocate_buffer_params (c : Controller) (ctx : UpdateContext) :
    (Controller.allocate_buffer c ctx).2.1.parameters = c.parameters := by
  unfold Controller.allocate_buffer
  split <;> rfl

theorem alloc_param_bufs_go_params (c : Controller) (ctx : UpdateContext)
    (ps : List (Nat × ParamPort)) :
    (Controller.alloc_param_bufs_go c ctx ps).2.1.parameters = c.parameters := by
  induction ps generalizing c ctx with
  | nil => rfl
  | cons p rest ih =>
    rcases p with ⟨pk, port⟩
    cases hcon : port.connection with
    | none =>
      have h1 := allocate_buffer_params c ctx
      rcases hA : Controller.allocate_buffer c ctx with ⟨k, c1, ctx1⟩
      rw [hA] at h1
      have h2 := ih c1 ctx1
      rcases hB : Controller.alloc_param_bufs_go c1 ctx1 rest with ⟨tail, c2, ctx2⟩
      rw [hB] at h2
      simp only [Controller.alloc_param_bufs_go, hcon, hA, hB]
      exact h2.trans h1
    | some a =>
      simp only [Controller.alloc_param_bufs_go, hcon]
      exact ih c ctx

theorem allocate_n_buffers_params (c : Controller) (ctx : UpdateContext) (n : Nat) :
    (Controller.allocate_n_buffers c ctx n).2.1.parameters = c.parameters := by
  induction n generalizing c ctx with
  | zero => rfl
  | succ n ih =>
    have h1 := allocate_buffer_params c ctx
    rcases hA : Controller.allocate_buffer c ctx with ⟨k, c1, ctx1⟩
    rw [hA] at h1
    have h2 := ih c1 ctx1
    rcases hB : Controller.allocate_n_buffers c1 ctx1 n with ⟨rest, c2, ctx2⟩
    rw [hB] at h2
    simp only [Controller.allocate_n_buffers, hA, hB]
    exact h2.trans h1

theorem alloc_audio_out_go_params (c : Controller) (ctx : UpdateContext)
    (ps : List (Nat × AudioOutPort)) :
    (Controller.alloc_audio_out_go c ctx ps).2.1.parameters = c.parameters := by
  induction ps generalizing c ctx with
  | nil => rfl
  | cons p rest ih =>
    rcases p with ⟨pk, port⟩
    have h1 := allocate_n_buffers_params c ctx port.channels
    rcases hA : Controller.allocate_n_buffers c ctx port.channels with ⟨keys, c1, ctx1⟩
    rw [hA] at h1
    have h2 := ih c1 ctx1
    rcases hB : Controller.alloc_audio_out_go c1 ctx1 rest with ⟨tail, c2, ctx2⟩
    rw [hB] at h2
    simp only [Controller.alloc_audio_out_go, hA, hB]
    exact h2.trans h1

theorem release_sources_go_params (c : Controller) (ctx : UpdateContext) (l : List Nat) :
    (Controller.release_sources_go c ctx l).2.1.parameters = c.parameters := by
  induction l generalizing c ctx with
  | nil => rfl
  | cons s rest ih =>
    simp only [Controller.release_sources_go]
    by_cases hz : (match alookup ctx.destination_counts s with
      | some e => (aUpdate ctx.destination_counts s (fun _ => usizeSub1 e), usizeSub1 e)
      | none => (ctx.destination_counts ++ [(s, 0)], 0)).2 = 0
    · simp only [hz, if_true]
      cases hnc : alookup c.nodes s with
      | none => rfl
      | some snc => rw [ih]
    · simp only [hz, if_false]
      exact ih c _

theorem update_node_cache_params (c : Controller) (r : Nat)
    (pvb : List (Nat × Nat)) (prp : List (String × ParamRenderPort))
    (aib : List (String × List Nat)) (aob : List (Nat × String × List Nat)) :
    (Controller.update_node_cache c r pvb prp aib aob).2.parameters = c.parameters := by
  unfold Controller.update_node_cache
  split
  · rfl
  · dsimp only
    split <;> rfl

theorem clear_node_cache_next (c : Controller) (r : Nat) (ctx : UpdateContext) :
    (Controller.clear_node_cache c r ctx).2.1.buffers_next = c.buffers_next := by
  unfold Controller.clear_node_cache
  split <;> rfl

theorem build_param_render_ports_go_spec (c : Controller) (nref : Nat)
    (pvb : List (Nat × Nat)) (params : List (Nat × ParamPort)) :
    ∀ (ps : List (String × ParamRenderPort)),
    Controller.build_param_render_ports_go c nref pvb params = .ok ps →
    (∀ pk port, (pk, port) ∈ params → port.connection = none →
      ∃ pkey slice, alookup pvb pk = some slice ∧
        (port.id, ParamRenderPort.value pkey slice) ∈ ps ∧
        (alookup c.parameters pkey).isSome = true) ∧
    (∀ pk port aor, (pk, port) ∈ params → port.connection = some aor →
      ∃ src bufs b, alookup c.nodes aor.node_ref = some src ∧
        alookup src.audio_output_buffers aor.audio_port_key = some bufs ∧
        bufs.head? = some b ∧
        (port.id, ParamRenderPort.buffer b) ∈ ps) := by
  induction params with
  | nil =>
    intro ps h
    exact ⟨fun pk port hm => by simp at hm, fun pk port aor hm => by simp at hm⟩
  | cons p rest ih =>
    intro ps h
    rcases p with ⟨pk0, port0⟩
    unfold Controller.build_param_render_ports_go at h
    rcases hc : port0.connection with _ | aor0 <;> rw [hc] at h <;> dsimp only at h
    · rcases hnc : alookup c.nodes nref with _ | node_cache <;> rw [hnc] at h
      · simp at h
      · dsimp only at h
        rcases hpkey : node_cache.get_param_key pk0 with e | pkey0 <;> rw [hpkey] at h
        · simp at h
        · dsimp only at h
          rcases hparam : alookup c.parameters pkey0 with _ | pv <;> rw [hparam] at h
          · simp at h
          · dsimp only at h
            rcases hslice : alookup pvb pk0 with _ | slice0 <;> rw [hslice] at h
            · simp at h
            · dsimp only at h
              rcases hrec : Controller.build_param_render_ports_go c nref pvb rest
                with e | tailps <;> rw [hrec] at h
              · simp at h
              · dsimp only at h
                injection h with h
                subst h
                obtain ⟨ih1, ih2⟩ := ih tailps hrec
                constructor
                · intro pk port hm hcon
                  rcases List.mem_cons.mp hm with hm | hm
                  · rw [Prod.mk.injEq] at hm
                    obtain ⟨hm1, hm2⟩ := hm
                    subst hm1 hm2
                    exact ⟨pkey0, slice0, hslice, List.mem_cons_self _ _,
                      by rw [hparam]; rfl⟩
                  · obtain ⟨pkey, slice, k1, k2, k3⟩ := ih1 pk port hm hcon
                    exact ⟨pkey, slice, k1, List.mem_cons_of_mem _ k2, k3⟩
                · intro pk port aor hm hcon
                  rcases List.mem_cons.mp hm with hm | hm
                  · rw [Prod.mk.injEq] at hm
                    obtain ⟨hm1, hm2⟩ := hm
                    subst hm1 hm2
                    rw [hcon] at hc
                    simp at hc
                  · obtain ⟨src, bufs, b, k1, k2, k3, k4⟩ := ih2 pk port aor hm hcon
                    exact ⟨src, bufs, b, k1, k2, k3, List.mem_cons_of_mem _ k4⟩
    · rcases hnc : alookup c.nodes aor0.node_ref with _ | node_cache <;> rw [hnc] at h
      · simp at h
      · dsimp only at h
        rcases hbuf : node_cache.get_audio_output_buffer aor0.audio_port_key
          with e | bufs0 <;> rw [hbuf] at h
        · simp at h
        · dsimp only at h
          rcases hhead : bufs0.head? with _ | b0 <;> rw [hhead] at h
          · simp at h
          · dsimp only at h
            rcases hrec : Controller.build_param_render_ports_go c nref pvb rest
              with e | tailps <;> rw [hrec] at h
            · simp at h
            · dsimp only at h
              injection h with h
              subst h
              obtain ⟨ih1, ih2⟩ := ih tailps hrec
              constructor
              · intro pk port hm hcon
                rcases List.mem_cons.mp hm with hm | hm
                · rw [Prod.mk.injEq] at hm
                  obtain ⟨hm1, hm2⟩ := hm
                  subst hm1 hm2
                  rw [hcon] at hc
                  simp at hc
                · obtain ⟨pkey, slice, k1, k2, k3⟩ := ih1 pk port hm hcon
                  exact ⟨pkey, slice, k1, List.mem_cons_of_mem _ k2, k3⟩
              · intro pk port aor hm hcon
                rcases List.mem_cons.mp hm with hm | hm
                · rw [Prod.mk.injEq] at hm
                  obtain ⟨hm1, hm2⟩ := hm
                  subst hm1 hm2
                  rw [hcon] at hc
                  injection hc with hc
                  subst hc
                  have hbufs : alookup node_cache.audio_output_buffers aor.audio_port_key =
                      some bufs0 := by
                    unfold NodeCache.get_audio_output_buffer at hbuf
                    rcases hx : alookup node_cache.audio_output_buffers aor.audio_port_key
                      with _ | v <;> rw [hx] at hbuf
                    · simp at hbuf
                    · injection hbuf with hbuf
                      subst hbuf
                      rfl
                  exact ⟨node_cache, bufs0, b0, hnc, hbufs, hhead, List.mem_cons_self _ _⟩
                · obtain ⟨src, bufs, b, k1, k2, k3, k4⟩ := ih2 pk port aor hm hcon
                  exact ⟨src, bufs, b, k1, k2, k3, List.mem_cons_of_mem _ k4⟩

/-- C6 (amended): for every rebuilt node - given a duplicate-free free pool
below the buffer counter when the rebuild starts - each parameter port with no
audio connection is bound in the node's single `RenderProcessor` op as
`value(param_value, slice_buffer)` with an associated `ParamValue` and a slice
buffer drawn from the per-port slice assignment, each parameter port with an
audio connection is bound as `buffer(channel 0)` of the connected audio
output's cached buffer list and receives no slice buffer (the slice
assignment covers exactly the unconnected ports), and the slice buffers
together with the node's own freshly allocated output buffers are pairwise
distinct.  (The stronger distinctness of the original claim - against every
other port's buffers, including audio inputs - is refuted by
`param_render_ports_counterexample`.) -/
theorem param_render_ports_spec (c : Controller) (r : Nat) (g : Graph)
    (ctx : UpdateContext) (res : Except ControllerError Unit) (c' : Controller)
    (ctx' : UpdateContext)
    (hv : Controller.visit_invalidated_node c r g ctx = (res, c', ctx'))
    (hres : res = .ok ())
    (node : Node) (hn : g.get_node r = some node)
    (hfree : (Controller.clear_node_cache c r ctx).2.2.free_buffers.Nodup)
    (hbound : ∀ f ∈ (Controller.clear_node_cache c r ctx).2.2.free_buffers,
      f < c.buffers_next) :
    ∃ tc pk2 ins outs ps pvb,
      alookup c'.nodes r = some tc ∧
      tc.render_ops = [RenderOp.RenderProcessor pk2 ins outs ps] ∧
      pvb.map (fun p => p.1) =
        (node.params.filter (fun p => p.2.connection.isNone)).map (fun p => p.1) ∧
      tc.allocated_buffers =
        pvb.map (fun p => p.2) ++ (outs.map (fun q => q.2)).flatten ∧
      tc.allocated_buffers.Nodup ∧
      (∀ pk port, (pk, port) ∈ node.params → port.connection = none →
        ∃ pkey slice, alookup pvb pk = some slice ∧
          (port.id, ParamRenderPort.value pkey slice) ∈ ps ∧
          (alookup c'.parameters pkey).isSome = true) ∧
      (∀ pk port aor, (pk, port) ∈ node.params → port.connection = some aor →
        aor.node_ref ≠ r →
        ∃ src bufs b, (port.id, ParamRenderPort.buffer b) ∈ ps ∧
          alookup c'.nodes aor.node_ref = some src ∧
          alookup src.audio_output_buffers aor.audio_port_key = some bufs ∧
          bufs.head? = some b) := by
  subst hres
  have hnext := clear_node_cache_next c r ctx
  unfold Controller.visit_invalidated_node at hv
  rcases hA : Controller.clear_node_cache c r ctx with ⟨res0, c1, ctx1⟩
  rw [hA] at hv hnext hfree hbound
  dsimp only at hfree hbound hnext
  cases res0 with
  | error e => simp at hv
  | ok u =>
    dsimp only at hv
    rw [hn] at hv
    dsimp only at hv
    obtain ⟨nc0, hnc0, hnc0', hother0⟩ := clear_node_cache_ok c r ctx (.ok u) c1 ctx1 hA
      (by cases u; rfl)
    have hbound1 : ∀ f ∈ ctx1.free_buffers, f < c1.buffers_next := by
      rw [hnext]
      exact hbound
    rcases hB : Controller.allocate_param_value_buffers c1 node ctx1 with ⟨pvb, c2, ctx2⟩
    rw [hB] at hv
    have hB' : Controller.alloc_param_bufs_go c1 ctx1 node.params = (pvb, c2, ctx2) := hB
    obtain ⟨p1, p2, p3, p4, p5, p6, p7, p8⟩ :=
      alloc_param_bufs_go_spec node.params c1 ctx1 pvb c2 ctx2 hB' hfree hbound1
    have hn2 : c2.nodes = c1.nodes := by
      have := alloc_param_bufs_go_nodes c1 ctx1 node.params
      rw [hB'] at this
      exact this
    rcases hbp : Controller.build_param_render_ports c2 r node pvb with e | prp <;>
      rw [hbp] at hv
    · simp at hv
    · dsimp only at hv
      have hbp' : Controller.build_param_render_ports_go c2 r pvb node.params = .ok prp := hbp
      obtain ⟨hB1, hB2⟩ := build_param_render_ports_go_spec c2 r pvb node.params prp hbp'
      rcases hcol : Controller.collect_audio_input_buffers c2 node with e | aib <;>
        rw [hcol] at hv
      · simp at hv
      · dsimp only at hv
        rcases hC : Controller.allocate_audio_output_buffers c2 node ctx2 with ⟨aob, c3, ctx3⟩
        rw [hC] at hv
        have hC' : Controller.alloc_audio_out_go c2 ctx2 node.audio_outputs =
          (aob, c3, ctx3) := hC
        obtain ⟨q1, q2, q3, q4, q5, q6, q7⟩ :=
          alloc_audio_out_go_spec node.audio_outputs c2 ctx2 aob c3 ctx3 hC' p1 p2
        have hn3 : c3.nodes = c2.nodes := by
          have := alloc_audio_out_go_nodes c2 ctx2 node.audio_outputs
          rw [hC'] at this
          exact this
        have hpar3 : c3.parameters = c2.parameters := by
          have := alloc_audio_out_go_params c2 ctx2 node.audio_outputs
          rw [hC'] at this
          exact this
        have hcomb : (pvb.map (fun p => p.2) ++
            (aob.map (fun p => p.2.2)).flatten).Nodup := by
          rw [List.nodup_append]
          refine ⟨p5, q5, ?_⟩
          intro j hj1 hj2
          obtain ⟨hj3, hj4⟩ := p6 j hj1
          rcases q7 j hj2 with hj5 | hj5
          · exact hj3 hj5
          · exact Nat.lt_irrefl _ (Nat.lt_of_lt_of_le hj4 hj5)
        rcases hD : Controller.release_input_buffers c3 node ctx3 with ⟨res1, c4, ctx4⟩
        rw [hD] at hv
        have hD' : Controller.release_sources_go c3 ctx3 node.sources =
          (res1, c4, ctx4) := hD
        have hsh4 : ∀ x, (alookup c4.nodes x).map NodeCache.shape =
            (alookup c3.nodes x).map NodeCache.shape := by
          intro x
          have := release_sources_go_shape c3 ctx3 node.sources x
          rw [hD'] at this
          exact this
        have hpar4 : c4.parameters = c3.parameters := by
          have := release_sources_go_params c3 ctx3 node.sources
          rw [hD'] at this
          exact this
        cases res1 with
        | error e => simp at hv
        | ok u2 =>
          dsimp only at hv
          rcases hE : Controller.update_node_cache c4 r pvb prp aib aob with ⟨res2, c5⟩
          rw [hE] at hv
          cases res2 with
          | error e => simp at hv
          | ok u3 =>
            dsimp only at hv
            have hc5 : c5 = c' := congrArg (fun t => t.2.1) hv
            have hpar5 : c5.parameters = c4.parameters := by
              have := update_node_cache_params c4 r pvb prp aib aob
              rw [hE] at this
              exact this
            obtain ⟨nc4, hnc4, hnc4', hother4⟩ :=
              update_node_cache_ok c4 r pvb prp aib aob (.ok u3) c5 hE (by cases u3; rfl)
            have hops4 : nc4.render_ops = [] := by
              have hsh := hsh4 r
              rw [hnc4, hn3, hn2, hnc0'] at hsh
              have hsh2 : nc4.shape = NodeCache.shape { nc0 with
                  allocated_buffers := [], audio_output_buffers := [], render_ops := [] } := by
                simpa using hsh
              exact shape_render_ops hsh2
            have hparC : c'.parameters = c2.parameters := by
              rw [← hc5, hpar5, hpar4, hpar3]
            refine ⟨{ nc4 with
                allocated_buffers := pvb.map (fun p => p.2) ++
                  (aob.map (fun p => p.2.2)).flatten
                audio_output_buffers := aob.map (fun p => (p.1, p.2.2))
                render_ops := nc4.render_ops ++
                  [RenderOp.RenderProcessor nc4.processor_key aib
                    (aob.map (fun p => p.2)) prp] },
              nc4.processor_key, aib, aob.map (fun p => p.2), prp, pvb,
              ?_, ?_, p8, by simp only [List.map_map]; rfl, hcomb, ?_, ?_⟩
            · rw [← hc5]
              exact hnc4'
            · dsimp only
              rw [hops4]
              rfl
            · intro pk port hm hcon
              obtain ⟨pkey, slice, k1, k2, k3⟩ := hB1 pk port hm hcon
              refine ⟨pkey, slice, k1, k2, ?_⟩
              rw [hparC]
              exact k3
            · intro pk port aor hm hcon hne
              obtain ⟨src2, bufs, b, k1, k2, k3, k4⟩ := hB2 pk port aor hm hcon
              have hsh := hsh4 aor.node_ref
              rw [hn3, k1] at hsh
              obtain ⟨src4, m1, m2⟩ := shape_eq_some hsh
              refine ⟨src4, bufs, b, k4, ?_, ?_, k3⟩
              · rw [← hc5, hother4 aor.node_ref hne]
                exact m1
              · rw [shape_audio_output_buffers m2]
                exact k2

/-- C6 (counterexample): in the second update of the chain `A -> B -> C`, the
invalidated (hence rebuilt) middle node `B` gets the op
`RenderProcessor 1 [("IN", [1])] [("OUT", [2])] [("P", value 0 1)]`: the slice
buffer `1` bound to the unconnected parameter port `P` also occurs in the
buffer list of the audio input port `IN` of the same op, refuting the claimed
distinctness of the slice buffer from every other port's buffers. -/
theorem param_render_ports_counterexample :
    runABC1.1 = .ok () ∧ runABC2.1 = .ok () ∧
    ((graphABC true).get_node 7).map Node.invalidated = some true ∧
    (alookup runABC2.2.nodes 7).map NodeCache.render_ops =
      some [RenderOp.RenderProcessor 1 [("IN", [1])] [("OUT", [2])]
        [("P", ParamRenderPort.value 0 1)]] ∧
    (1 : Nat) ∈ [1] := by
  exact ⟨by decide, by decide, by decide, by decide, by decide⟩

theorem param_render_ports_spec_witness :
    visitN3.1 = .ok () ∧
    graphN.get_node 3 = some nodeN3 ∧
    (Controller.clear_node_cache ctrlN1 3 ctxN1).2.2.free_buffers.Nodup ∧
    (∀ f ∈ (Controller.clear_node_cache ctrlN1 3 ctxN1).2.2.free_buffers,
      f < ctrlN1.buffers_next) ∧
    (∃ tc pk2 ins outs ps pvb,
      alookup visitN3.2.1.nodes 3 = some tc ∧
      tc.render_ops = [RenderOp.RenderProcessor pk2 ins outs ps] ∧
      pvb.map (fun p => p.1) =
        (nodeN3.params.filter (fun p => p.2.connection.isNone)).map (fun p => p.1) ∧
      tc.allocated_buffers =
        pvb.map (fun p => p.2) ++ (outs.map (fun q => q.2)).flatten ∧
      tc.allocated_buffers.Nodup ∧
      (∀ pk port, (pk, port) ∈ nodeN3.params → port.connection = none →
        ∃ pkey slice, alookup pvb pk = some slice ∧
          (port.id, ParamRenderPort.value pkey slice) ∈ ps ∧
          (alookup visitN3.2.1.parameters pkey).isSome = true) ∧
      (∀ pk port aor, (pk, port) ∈ nodeN3.params → port.connection = some aor →
        aor.node_ref ≠ 3 →
        ∃ src bufs b, (port.id, ParamRenderPort.buffer b) ∈ ps ∧
          alookup visitN3.2.1.nodes aor.node_ref = some src ∧
          alookup src.audio_output_buffers aor.audio_port_key = some bufs ∧
          bufs.head? = some b)) :=
  ⟨by decide, rfl, by decide, by decide,
    param_render_ports_spec ctrlN1 3 graphN ctxN1 (.ok ()) visitN3.2.1 visitN3.2.2
      rfl rfl nodeN3 rfl (by decide) (by decide)⟩

theorem sUnion_nodup {a b : List Nat} (ha : a.Nodup) (hb : b.Nodup) :
    (sUnion a b).Nodup := by
  unfold sUnion
  rw [List.nodup_append]
  refine ⟨ha, hb.filter _, ?_⟩
  intro x hx hx2
  have h2 := List.of_mem_filter hx2
  simp at h2
  exact h2 hx

theorem allocate_buffer_inv (c : Controller) (ctx : UpdateContext) (k : Nat)
    (c1 : Controller) (ctx1 : UpdateContext)
    (h : Controller.allocate_buffer c ctx = (k, c1, ctx1)) (hinv : UpdInv c ctx) :
    UpdInv c1 ctx1 ∧ c1.nodes = c.nodes ∧ c1.empty_buffer = c.empty_buffer ∧
    (∀ b ∈ c.buffers, b ∈ c1.buffers) ∧ c.buffers_next ≤ c1.buffers_next ∧
    (∀ f ∈ ctx1.free_buffers, f ∈ ctx.free_buffers) ∧
    k ∈ c1.buffers ∧ k < c1.buffers_next ∧ k ∉ ctx1.free_buffers ∧
    k ≠ c1.empty_buffer ∧ (k ∈ ctx.free_buffers ∨ c.buffers_next ≤ k) := by
  obtain ⟨i1, i2, i3, i4, i5, i6, i7⟩ := hinv
  unfold Controller.allocate_buffer at h
  rcases hf : ctx.free_buffers with _ | ⟨key, restl⟩ <;> rw [hf] at h
  · dsimp only at h
    injection h with h1 h2
    injection h2 with h2 h3
    subst h1 h2 h3
    refine ⟨⟨i1, ?_, Nat.lt_succ_of_lt i3, List.mem_append_left _ i4, i5, ?_, i7⟩,
      rfl, rfl, fun b hb => List.mem_append_left _ hb, Nat.le_succ _, ?_,
      List.mem_append_right _ (List.mem_singleton.mpr rfl),
      Nat.lt_succ_self _, ?_, ?_, Or.inr (Nat.le_refl _)⟩
    · intro f hf2
      obtain ⟨g1, g2, g3⟩ := i2 f hf2
      exact ⟨List.mem_append_left _ g1, Nat.lt_succ_of_lt g2, g3⟩
    · intro p hp
      obtain ⟨g1, g2, g3, g4⟩ := i6 p hp
      refine ⟨g1, ?_, ?_, ?_⟩
      · intro b hb
        obtain ⟨m1, m2, m3, m4⟩ := g2 b hb
        exact ⟨List.mem_append_left _ m1, Nat.lt_succ_of_lt m2, m3, m4⟩
      · intro q hq b hb
        obtain ⟨m1, m2⟩ := g3 q hq b hb
        exact ⟨List.mem_append_left _ m1, Nat.lt_succ_of_lt m2⟩
      · intro op hop b hb
        obtain ⟨m1, m2⟩ := g4 op hop b hb
        exact ⟨List.mem_append_left _ m1, Nat.lt_succ_of_lt m2⟩
    · intro f hf2
      rw [hf] at hf2
      exact hf2
    · rw [hf]
      simp
    · intro he
      rw [he] at i3
      exact Nat.lt_irrefl _ i3
  · dsimp only at h
    injection h with h1 h2
    injection h2 with h2 h3
    subst h1 h2 h3
    rw [hf] at i1 i2
    refine ⟨⟨i1.of_cons, ?_, i3, i4, i5, ?_, i7⟩,
      rfl, rfl, fun b hb => hb, Nat.le_refl _, fun f hf2 => List.mem_cons_of_mem _ hf2,
      (i2 key (List.mem_cons_self _ _)).1, (i2 key (List.mem_cons_self _ _)).2.1,
      (List.nodup_cons.mp i1).1, (i2 key (List.mem_cons_self _ _)).2.2,
      Or.inl (List.mem_cons_self _ _)⟩
    · intro f hf2
      exact i2 f (List.mem_cons_of_mem _ hf2)
    · intro p hp
      obtain ⟨g1, g2, g3, g4⟩ := i6 p hp
      refine ⟨g1, ?_, g3, g4⟩
      intro b hb
      obtain ⟨m1, m2, m3, m4⟩ := g2 b hb
      refine ⟨m1, m2, ?_, m4⟩
      intro hmem
      rw [hf] at m3
      exact m3 (List.mem_cons_of_mem _ hmem)

theorem alloc_param_bufs_go_inv (ps : List (Nat × ParamPort)) :
    ∀ (c : Controller) (ctx : UpdateContext) (pvb : List (Nat × Nat))
      (c1 : Controller) (ctx1 : UpdateContext),
    Controller.alloc_param_bufs_go c ctx ps = (pvb, c1, ctx1) →
    UpdInv c ctx →
    UpdInv c1 ctx1 ∧ c1.nodes = c.nodes ∧ c1.empty_buffer = c.empty_buffer ∧
    (∀ b ∈ c.buffers, b ∈ c1.buffers) ∧ c.buffers_next ≤ c1.buffers_next ∧
    (∀ f ∈ ctx1.free_buffers, f ∈ ctx.free_buffers) ∧
    (pvb.map (fun p => p.2)).Nodup ∧
    (∀ j ∈ pvb.map (fun p => p.2),
      j ∈ c1.buffers ∧ j < c1.buffers_next ∧ j ∉ ctx1.free_buffers ∧
        j ≠ c1.empty_buffer) ∧
    (∀ j ∈ pvb.map (fun p => p.2), j ∈ ctx.free_buffers ∨ c.buffers_next ≤ j) := by
  induction ps with
  | nil =>
    intro c ctx pvb c1 ctx1 h hinv
    unfold Controller.alloc_param_bufs_go at h
    injection h with h1 h2
    injection h2 with h2 h3
    subst h1 h2 h3
    exact ⟨hinv, rfl, rfl, fun b hb => hb, Nat.le_refl _, fun f hf => hf,
      by simp, by simp, by simp⟩
  | cons p rest ih =>
    intro c ctx pvb c1 ctx1 h hinv
    rcases p with ⟨port_key, port⟩
    unfold Controller.alloc_param_bufs_go at h
    rcases hc : port.connection with _ | aor <;> rw [hc] at h
    · dsimp only at h
      rcases hA : Controller.allocate_buffer c ctx with ⟨k, cA, ctxA⟩
      rw [hA] at h
      dsimp only at h
      rcases hB : Controller.alloc_param_bufs_go cA ctxA rest with ⟨tail, cB, ctxB⟩
      rw [hB] at h
      dsimp only at h
      injection h with h1 h2
      injection h2 with h2 h3
      subst h1 h2 h3
      obtain ⟨aI, an, ae, abuf, anext, afree, a1, a2, a3, a4, a5⟩ :=
        allocate_buffer_inv c ctx k cA ctxA hA hinv
      obtain ⟨iI, in2, ie, ibuf, inext, ifree, i1, i2, i3⟩ := ih cA ctxA tail cB ctxB hB aI
      refine ⟨iI, in2.trans an, ie.trans ae, fun b hb => ibuf b (abuf b hb),
        Nat.le_trans anext inext, fun f hf => afree f (ifree f hf), ?_, ?_, ?_⟩
      · rw [List.map_cons, List.nodup_cons]
        refine ⟨?_, i1⟩
        intro hk
        rcases i3 k hk with hk2 | hk2
        · exact a3 hk2
        · exact Nat.lt_irrefl _ (Nat.lt_of_lt_of_le a2 hk2)
      · intro j hj
        rw [List.map_cons] at hj
        rcases List.mem_cons.mp hj with hj | hj
        · subst hj
          refine ⟨ibuf j a1, Nat.lt_of_lt_of_le a2 inext, fun hk => a3 (ifree _ hk), ?_⟩
          rw [ie]
          exact a4
        · exact i2 j hj
      · intro j hj
        rw [List.map_cons] at hj
        rcases List.mem_cons.mp hj with hj | hj
        · subst hj
          exact a5
        · rcases i3 j hj with hj2 | hj2
          · exact Or.inl (afree j hj2)
          · exact Or.inr (Nat.le_trans anext hj2)
    · dsimp only at h
      exact ih c ctx pvb c1 ctx1 h hinv

theorem allocate_n_buffers_inv (n : Nat) :
    ∀ (c : Controller) (ctx : UpdateContext) (keys : List Nat)
      (c1 : Controller) (ctx1 : UpdateContext),
    Controller.allocate_n_buffers c ctx n = (keys, c1, ctx1) →
    UpdInv c ctx →
    UpdInv c1 ctx1 ∧ c1.nodes = c.nodes ∧ c1.empty_buffer = c.empty_buffer ∧
    (∀ b ∈ c.buffers, b ∈ c1.buffers) ∧ c.buffers_next ≤ c1.buffers_next ∧
    (∀ f ∈ ctx1.free_buffers, f ∈ ctx.free_buffers) ∧
    keys.Nodup ∧
    (∀ j ∈ keys,
      j ∈ c1.buffers ∧ j < c1.buffers_next ∧ j ∉ ctx1.free_buffers ∧
        j ≠ c1.empty_buffer) ∧
    (∀ j ∈ keys, j ∈ ctx.free_buffers ∨ c.buffers_next ≤ j) := by
  induction n with
  | zero =>
    intro c ctx keys c1 ctx1 h hinv
    unfold Controller.allocate_n_buffers at h
    injection h with h1 h2
    injection h2 with h2 h3
    subst h1 h2 h3
    exact ⟨hinv, rfl, rfl, fun b hb => hb, Nat.le_refl _, fun f hf => hf,
      by simp, by simp, by simp⟩
  | succ n ih =>
    intro c ctx keys c1 ctx1 h hinv
    unfold Controller.allocate_n_buffers at h
    dsimp only at h
    rcases hA : Controller.allocate_buffer c ctx with ⟨k, cA, ctxA⟩
    rw [hA] at h
    dsimp only at h
    rcases hB : Controller.allocate_n_buffers cA ctxA n with ⟨tail, cB, ctxB⟩
    rw [hB] at h
    dsimp only at h
    injection h with h1 h2
    injection h2 with h2 h3
    subst h1 h2 h3
    obtain ⟨aI, an, ae, abuf, anext, afree, a1, a2, a3, a4, a5⟩ :=
      allocate_buffer_inv c ctx k cA ctxA hA hinv
    obtain ⟨iI, in2, ie, ibuf, inext, ifree, i1, i2, i3⟩ := ih cA ctxA tail cB ctxB hB aI
    refine ⟨iI, in2.trans an, ie.trans ae, fun b hb => ibuf b (abuf b hb),
      Nat.le_trans anext inext, fun f hf => afree f (ifree f hf), ?_, ?_, ?_⟩
    · rw [List.nodup_cons]
      refine ⟨?_, i1⟩
      intro hk
      rcases i3 k hk with hk2 | hk2
      · exact a3 hk2
      · exact Nat.lt_irrefl _ (Nat.lt_of_lt_of_le a2 hk2)
    · intro j hj
      rcases List.mem_cons.mp hj with hj | hj
      · subst hj
        refine ⟨ibuf j a1, Nat.lt_of_lt_of_le a2 inext, fun hk => a3 (ifree _ hk), ?_⟩
        rw [ie]
        exact a4
      · exact i2 j hj
    · intro j hj
      rcases List.mem_cons.mp hj with hj | hj
      · subst hj
        exact a5
      · rcases i3 j hj with hj2 | hj2
        · exact Or.inl (afree j hj2)
        · exact Or.inr (Nat.le_trans anext hj2)

theorem alloc_audio_out_go_inv (l : List (Nat × AudioOutPort)) :
    ∀ (c : Controller) (ctx : UpdateContext) (aob : List (Nat × String × List Nat))
      (c1 : Controller) (ctx1 : UpdateContext),
    Controller.alloc_audio_out_go c ctx l = (aob, c1, ctx1) →
    UpdInv c ctx →
    UpdInv c1 ctx1 ∧ c1.nodes = c.nodes ∧ c1.empty_buffer = c.empty_buffer ∧
    (∀ b ∈ c.buffers, b ∈ c1.buffers) ∧ c.buffers_next ≤ c1.buffers_next ∧
    (∀ f ∈ ctx1.free_buffers, f ∈ ctx.free_buffers) ∧
    ((aob.map (fun p => p.2.2)).flatten).Nodup ∧
    (∀ j ∈ (aob.map (fun p => p.2.2)).flatten,
      j ∈ c1.buffers ∧ j < c1.buffers_next ∧ j ∉ ctx1.free_buffers ∧
        j ≠ c1.empty_buffer) ∧
    (∀ j ∈ (aob.map (fun p => p.2.2)).flatten,
      j ∈ ctx.free_buffers ∨ c.buffers_next ≤ j) := by
  induction l with
  | nil =>
    intro c ctx aob c1 ctx1 h hinv
    unfold Controller.alloc_audio_out_go at h
    injection h with h1 h2
    injection h2 with h2 h3
    subst h1 h2 h3
    exact ⟨hinv, rfl, rfl, fun b hb => hb, Nat.le_refl _, fun f hf => hf,
      by simp, by simp, by simp⟩
  | cons p rest ih =>
    intro c ctx aob c1 ctx1 h hinv
    rcases p with ⟨port_key, port⟩
    unfold Controller.alloc_audio_out_go at h
    dsimp only at h
    rcases hA : Controller.allocate_n_buffers c ctx port.channels with ⟨keys, cA, ctxA⟩
    rw [hA] at h
    dsimp only at h
    rcases hB : Controller.alloc_audio_out_go cA ctxA rest with ⟨tail, cB, ctxB⟩
    rw [hB] at h
    dsimp only at h
    injection h with h1 h2
    injection h2 with h2 h3
    subst h1 h2 h3
    obtain ⟨aI, an, ae, abuf, anext, afree, a1, a2, a3⟩ :=
      allocate_n_buffers_inv port.channels c ctx keys cA ctxA hA hinv
    obtain ⟨iI, in2, ie, ibuf, inext, ifree, i1, i2, i3⟩ := ih cA ctxA tail cB ctxB hB aI
    have hsub : ∀ j ∈ keys.filter (fun k => decide (k ∈ cA.buffers)), j ∈ keys :=
      fun j hj => List.mem_of_mem_filter hj
    refine ⟨iI, in2.trans an, ie.trans ae, fun b hb => ibuf b (abuf b hb),
      Nat.le_trans anext inext, fun f hf => afree f (ifree f hf), ?_, ?_, ?_⟩
    · rw [List.map_cons, List.flatten_cons, List.nodup_append]
      refine ⟨a1.filter _, i1, ?_⟩
      intro j hj hj2
      have hj3 := hsub j hj
      rcases i3 j hj2 with hj4 | hj4
      · exact (a2 j hj3).2.2.1 hj4
      · exact Nat.lt_irrefl _ (Nat.lt_of_lt_of_le (a2 j hj3).2.1 hj4)
    · intro j hj
      rw [List.map_cons, List.flatten_cons] at hj
      rcases List.mem_append.mp hj with hj | hj
      · have hj3 := hsub j hj
        obtain ⟨m1, m2, m3, m4⟩ := a2 j hj3
        refine ⟨ibuf j m1, Nat.lt_of_lt_of_le m2 inext, fun hk => m3 (ifree _ hk), ?_⟩
        rw [← ie] at m4
        exact m4
      · exact i2 j hj
    · intro j hj
      rw [List.map_cons, List.flatten_cons] at hj
      rcases List.mem_append.mp hj with hj | hj
      · exact a3 j (hsub j hj)
      · rcases i3 j hj with hj2 | hj2
        · exact Or.inl (afree j hj2)
        · exact Or.inr (Nat.le_trans anext hj2)

theorem mem_aInsert_keys_nodup {α : Type} [DecidableEq α] {β : Type} :
    ∀ {m : List (α × β)}, (m.map Prod.fst).Nodup → ∀ {key : α} {v : β} {p : α × β},
    p ∈ aInsert m key v → p = (key, v) ∨ (p ∈ m ∧ p.1 ≠ key) := by
  intro m
  induction m with
  | nil =>
    intro hnd key v p h
    simp [aInsert] at h
    exact Or.inl h
  | cons q rest ih =>
    intro hnd key v p h
    rcases q with ⟨k, w⟩
    rw [List.map_cons, List.nodup_cons] at hnd
    unfold aInsert at h
    by_cases hk : k = key
    · rw [if_pos hk] at h
      rcases List.mem_cons.mp h with h | h
      · exact Or.inl h
      · refine Or.inr ⟨List.mem_cons_of_mem _ h, ?_⟩
        intro he
        apply hnd.1
        rw [hk, ← he]
        exact List.mem_map.mpr ⟨p, h, rfl⟩
    · rw [if_neg hk] at h
      rcases List.mem_cons.mp h with h | h
      · subst h
        exact Or.inr ⟨List.mem_cons_self _ _, hk⟩
      · rcases ih hnd.2 h with h2 | h2
        · exact Or.inl h2
        · exact Or.inr ⟨List.mem_cons_of_mem _ h2.1, h2.2⟩

theorem UpdInv_congr {c c' : Controller} {ctx ctx' : UpdateContext}
    (h : UpdInv c ctx) (hn : c'.nodes = c.nodes) (hb : c'.buffers = c.buffers)
    (hx : c'.buffers_next = c.buffers_next) (he : c'.empty_buffer = c.empty_buffer)
    (hf : ctx'.free_buffers = ctx.free_buffers) :
    UpdInv c' ctx' := by
  unfold UpdInv at h ⊢
  rw [hn, hb, hx, he, hf]
  exact h

theorem clear_node_cache_inv (c : Controller) (r : Nat) (ctx : UpdateContext)
    (res : Except ControllerError Unit) (c1 : Controller) (ctx1 : UpdateContext)
    (h : Controller.clear_node_cache c r ctx = (res, c1, ctx1))
    (hinv : UpdInv c ctx) :
    UpdInv c1 ctx1 ∧ c1.buffers = c.buffers ∧ c1.buffers_next = c.buffers_next ∧
    c1.empty_buffer = c.empty_buffer ∧
    c1.nodes.map Prod.fst = c.nodes.map Prod.fst ∧
    (∀ f ∈ ctx.free_buffers, f ∈ ctx1.free_buffers) := by
  obtain ⟨i1, i2, i3, i4, i5, i6, i7⟩ := hinv
  unfold Controller.clear_node_cache at h
  rcases hnc : alookup c.nodes r with _ | nc <;> rw [hnc] at h
  · injection h with h1 h2
    injection h2 with h2 h3
    subst h2 h3
    exact ⟨⟨i1, i2, i3, i4, i5, i6, i7⟩, rfl, rfl, rfl, rfl, fun f hf => hf⟩
  · dsimp only at h
    injection h with h1 h2
    injection h2 with h2 h3
    subst h2 h3
    have hmem : (r, nc) ∈ c.nodes := mem_of_alookup hnc
    obtain ⟨g1, g2, g3, g4⟩ := i6 (r, nc) hmem
    have hrkeys : r ∈ c.nodes.map Prod.fst := List.mem_map.mpr ⟨(r, nc), hmem, rfl⟩
    refine ⟨⟨sUnion_nodup i1 g1, ?_, i3, i4, ?_, ?_, ?_⟩,
      rfl, rfl, rfl, ?_, ?_⟩
    · intro f hf
      rcases mem_sUnion.mp hf with hf | hf
      · exact i2 f hf
      · obtain ⟨m1, m2, m3, m4⟩ := g2 f hf
        exact ⟨m1, m2, m4⟩
    · rw [aInsert_keys_of_mem _ _ _ hrkeys]
      exact i5
    · intro p hp
      rcases mem_aInsert_keys_nodup i5 hp with hp2 | hp2
      · subst hp2
        refine ⟨List.nodup_nil, ?_, ?_, ?_⟩
        · intro b hb
          simp at hb
        · intro q hq
          simp at hq
        · intro op hop
          simp at hop
      · obtain ⟨m1, m2, m3, m4⟩ := i6 p hp2.1
        refine ⟨m1, ?_, m3, m4⟩
        intro b hb
        obtain ⟨n1, n2, n3, n4⟩ := m2 b hb
        refine ⟨n1, n2, ?_, n4⟩
        intro hf
        rcases mem_sUnion.mp hf with hf | hf
        · exact n3 hf
        · exact i7 p hp2.1 (r, nc) hmem hp2.2 b hb hf
    · intro p hp q hq hne b hb
      rcases mem_aInsert_keys_nodup i5 hp with hp2 | hp2
      · subst hp2
        simp at hb
      · rcases mem_aInsert_keys_nodup i5 hq with hq2 | hq2
        · subst hq2
          simp
        · exact i7 p hp2.1 q hq2.1 hne b hb
    · rw [aInsert_keys_of_mem _ _ _ hrkeys]
    · intro f hf
      exact mem_sUnion.mpr (Or.inl hf)

theorem release_sources_go_inv (l : List Nat) :
    ∀ (c : Controller) (ctx : UpdateContext) (res : Except ControllerError Unit)
      (c1 : Controller) (ctx1 : UpdateContext) (F : List Nat),
    Controller.release_sources_go c ctx l = (res, c1, ctx1) →
    UpdInv c ctx →
    (∀ j ∈ F, j < c.buffers_next ∧ j ∉ ctx.free_buffers ∧
      ∀ p ∈ c.nodes, j ∉ p.2.allocated_buffers) →
    UpdInv c1 ctx1 ∧ c1.buffers = c.buffers ∧ c1.buffers_next = c.buffers_next ∧
    c1.empty_buffer = c.empty_buffer ∧
    c1.nodes.map Prod.fst = c.nodes.map Prod.fst ∧
    (∀ j ∈ F, j ∉ ctx1.free_buffers ∧ ∀ p ∈ c1.nodes, j ∉ p.2.allocated_buffers) := by
  induction l with
  | nil =>
    intro c ctx res c1 ctx1 F h hinv hF
    unfold Controller.release_sources_go at h
    injection h with h1 h2
    injection h2 with h2 h3
    subst h2 h3
    exact ⟨hinv, rfl, rfl, rfl, rfl, fun j hj => ⟨(hF j hj).2.1, (hF j hj).2.2⟩⟩
  | cons s rest ih =>
    intro c ctx res c1 ctx1 F h hinv hF
    simp only [Controller.release_sources_go] at h
    rcases hstep : (match alookup ctx.destination_counts s with
      | some e => (aUpdate ctx.destination_counts s (fun _ => usizeSub1 e), usizeSub1 e)
      | none => (ctx.destination_counts ++ [(s, 0)], 0)) with ⟨dX, cnt⟩
    rw [hstep] at h
    dsimp only at h
    by_cases hz : cnt = 0
    · rw [if_pos hz] at h
      rcases hnc : alookup c.nodes s with _ | snc <;> rw [hnc] at h
      · injection h with h1 h2
        injection h2 with h2 h3
        subst h2 h3
        refine ⟨UpdInv_congr hinv rfl rfl rfl rfl rfl, rfl, rfl, rfl, rfl, ?_⟩
        intro j hj
        exact ⟨(hF j hj).2.1, (hF j hj).2.2⟩
      · dsimp only at h
        obtain ⟨i1, i2, i3, i4, i5, i6, i7⟩ := hinv
        have hmem : (s, snc) ∈ c.nodes := mem_of_alookup hnc
        obtain ⟨g1, g2, g3, g4⟩ := i6 (s, snc) hmem
        have hskeys : s ∈ c.nodes.map Prod.fst := List.mem_map.mpr ⟨(s, snc), hmem, rfl⟩
        have hinv2 : UpdInv
            { c with nodes := aInsert c.nodes s { snc with allocated_buffers := [] } }
            { destination_counts := dX,
              free_buffers := sUnion ctx.free_buffers snc.allocated_buffers } := by
          refine ⟨sUnion_nodup i1 g1, ?_, i3, i4, ?_, ?_, ?_⟩
          · intro f hf
            rcases mem_sUnion.mp hf with hf | hf
            · exact i2 f hf
            · obtain ⟨m1, m2, m3, m4⟩ := g2 f hf
              exact ⟨m1, m2, m4⟩
          · rw [aInsert_keys_of_mem _ _ _ hskeys]
            exact i5
          · intro p hp
            rcases mem_aInsert_keys_nodup i5 hp with hp2 | hp2
            · subst hp2
              refine ⟨List.nodup_nil, ?_, g3, g4⟩
              intro b hb
              simp at hb
            · obtain ⟨m1, m2, m3, m4⟩ := i6 p hp2.1
              refine ⟨m1, ?_, m3, m4⟩
              intro b hb
              obtain ⟨n1, n2, n3, n4⟩ := m2 b hb
              refine ⟨n1, n2, ?_, n4⟩
              intro hf
              rcases mem_sUnion.mp hf with hf | hf
              · exact n3 hf
              · exact i7 p hp2.1 (s, snc) hmem hp2.2 b hb hf
          · intro p hp q hq hne b hb
            rcases mem_aInsert_keys_nodup i5 hp with hp2 | hp2
            · subst hp2
              simp at hb
            · rcases mem_aInsert_keys_nodup i5 hq with hq2 | hq2
              · subst hq2
                simp
              · exact i7 p hp2.1 q hq2.1 hne b hb
        have hF2 : ∀ j ∈ F, j < c.buffers_next ∧
            j ∉ sUnion ctx.free_buffers snc.allocated_buffers ∧
            ∀ p ∈ aInsert c.nodes s { snc with allocated_buffers := [] },
              j ∉ p.2.allocated_buffers := by
          intro j hj
          obtain ⟨m1, m2, m3⟩ := hF j hj
          refine ⟨m1, ?_, ?_⟩
          · intro hf
            rcases mem_sUnion.mp hf with hf | hf
            · exact m2 hf
            · exact m3 (s, snc) hmem hf
          · intro p hp
            rcases mem_aInsert_keys_nodup i5 hp with hp2 | hp2
            · subst hp2
              simp
            · exact m3 p hp2.1
        obtain ⟨r1, r2, r3, r4, r5, r6⟩ := ih _ _ res c1 ctx1 F h hinv2 hF2
        refine ⟨r1, r2, r3, r4, ?_, r6⟩
        rw [r5]
        exact aInsert_keys_of_mem _ _ _ hskeys
    · rw [if_neg hz] at h
      exact ih _ _ res c1 ctx1 F h (UpdInv_congr hinv rfl rfl rfl rfl rfl)
        (fun j hj => ⟨(hF j hj).1, (hF j hj).2.1, (hF j hj).2.2⟩)

theorem update_node_cache_inv (c : Controller) (r : Nat)
    (pvb : List (Nat × Nat)) (prp : List (String × ParamRenderPort))
    (aib : List (String × List Nat)) (aob : List (Nat × String × List Nat))
    (res : Except ControllerError Unit) (c1 : Controller) (ctx : UpdateContext)
    (h : Controller.update_node_cache c r pvb prp aib aob = (res, c1))
    (hinv : UpdInv c ctx)
    (hA_nodup : (pvb.map (fun p => p.2) ++ (aob.map (fun p => p.2.2)).flatten).Nodup)
    (hA : ∀ j ∈ pvb.map (fun p => p.2) ++ (aob.map (fun p => p.2.2)).flatten,
      j ∈ c.buffers ∧ j < c.buffers_next ∧ j ∉ ctx.free_buffers ∧ j ≠ c.empty_buffer ∧
      ∀ p ∈ c.nodes, j ∉ p.2.allocated_buffers)
    (haib : ∀ q ∈ aib, ∀ b ∈ q.2, b ∈ c.buffers ∧ b < c.buffers_next)
    (hprp : ∀ q ∈ prp, ∀ b ∈ ParamRenderPort.bufferKeys q.2,
      b ∈ c.buffers ∧ b < c.buffers_next) :
    UpdInv c1 ctx ∧ c1.buffers = c.buffers ∧ c1.buffers_next = c.buffers_next ∧
    c1.empty_buffer = c.empty_buffer ∧
    c1.nodes.map Prod.fst = c.nodes.map Prod.fst := by
  obtain ⟨i1, i2, i3, i4, i5, i6, i7⟩ := hinv
  unfold Controller.update_node_cache at h
  rcases hnc : alookup c.nodes r with _ | nc <;> rw [hnc] at h
  · injection h with h1 h2
    subst h2
    exact ⟨⟨i1, i2, i3, i4, i5, i6, i7⟩, rfl, rfl, rfl, rfl⟩
  · dsimp only at h
    have hmem : (r, nc) ∈ c.nodes := mem_of_alookup hnc
    have hrkeys : r ∈ c.nodes.map Prod.fst := List.mem_map.mpr ⟨(r, nc), hmem, rfl⟩
    obtain ⟨g1, g2, g3, g4⟩ := i6 (r, nc) hmem
    have hout : ∀ q ∈ aob.map (fun p => (p.1, p.2.2)), ∀ b ∈ q.2,
        b ∈ c.buffers ∧ b < c.buffers_next := by
      intro q hq b hb
      obtain ⟨p, hp, hpq⟩ := List.mem_map.mp hq
      have hbflat : b ∈ (aob.map (fun p => p.2.2)).flatten := by
        apply List.mem_flatten.mpr
        refine ⟨p.2.2, List.mem_map.mpr ⟨p, hp, rfl⟩, ?_⟩
        rw [← hpq] at hb
        exact hb
      obtain ⟨m1, m2, m3, m4, m5⟩ := hA b (List.mem_append_right _ hbflat)
      exact ⟨m1, m2⟩
    have hopnew : ∀ b ∈ RenderOp.bufferKeys
        (RenderOp.RenderProcessor nc.processor_key aib (aob.map (fun p => p.2)) prp),
        b ∈ c.buffers ∧ b < c.buffers_next := by
      intro b hb
      unfold RenderOp.bufferKeys at hb
      rcases List.mem_append.mp hb with hb | hb
      · rcases List.mem_append.mp hb with hb | hb
        · obtain ⟨lst, hlst, hbl⟩ := List.mem_flatten.mp hb
          obtain ⟨q, hq, hql⟩ := List.mem_map.mp hlst
          refine haib q hq b ?_
          rw [hql]
          exact hbl
        · obtain ⟨lst, hlst, hbl⟩ := List.mem_flatten.mp hb
          obtain ⟨q, hq, hql⟩ := List.mem_map.mp hlst
          obtain ⟨p, hp, hpq⟩ := List.mem_map.mp hq
          have hbflat : b ∈ (aob.map (fun p => p.2.2)).flatten := by
            apply List.mem_flatten.mpr
            refine ⟨p.2.2, List.mem_map.mpr ⟨p, hp, rfl⟩, ?_⟩
            rw [← hql, ← hpq] at hbl
            exact hbl
          obtain ⟨m1, m2, m3, m4, m5⟩ := hA b (List.mem_append_right _ hbflat)
          exact ⟨m1, m2⟩
      · obtain ⟨lst, hlst, hbl⟩ := List.mem_flatten.mp hb
        obtain ⟨q, hq, hql⟩ := List.mem_map.mp hlst
        refine hprp q hq b ?_
        rw [hql]
        exact hbl
    rcases hpf : alookup c.processors nc.processor_key with _ | pbox <;> rw [hpf] at h
    · injection h with h1 h2
      subst h2
      refine ⟨⟨i1, i2, i3, i4, ?_, ?_, ?_⟩, rfl, rfl, rfl, ?_⟩
      · rw [aInsert_keys_of_mem _ _ _ hrkeys]
        exact i5
      · intro p hp
        rcases mem_aInsert_keys_nodup i5 hp with hp2 | hp2
        · subst hp2
          refine ⟨hA_nodup, ?_, hout, g4⟩
          intro b hb
          obtain ⟨m1, m2, m3, m4, m5⟩ := hA b hb
          exact ⟨m1, m2, m3, m4⟩
        · obtain ⟨m1, m2, m3, m4⟩ := i6 p hp2.1
          exact ⟨m1, m2, m3, m4⟩
      · intro p hp q hq hne b hb
        rcases mem_aInsert_keys_nodup i5 hp with hp2 | hp2
        · subst hp2
          rcases mem_aInsert_keys_nodup i5 hq with hq2 | hq2
          · subst hq2
            exact absurd rfl hne
          · exact (hA b hb).2.2.2.2 q hq2.1
        · rcases mem_aInsert_keys_nodup i5 hq with hq2 | hq2
          · subst hq2
            intro hb2
            exact (hA b hb2).2.2.2.2 p hp2.1 hb
          · exact i7 p hp2.1 q hq2.1 hne b hb
      · exact aInsert_keys_of_mem _ _ _ hrkeys
    · dsimp only at h
      injection h with h1 h2
      subst h2
      have hkeys1 : (aInsert c.nodes r { nc with
          allocated_buffers := pvb.map (fun p => p.2) ++
            (aob.map (fun p => p.2.2)).flatten
          audio_output_buffers := aob.map (fun p => (p.1, p.2.2)) }).map Prod.fst =
          c.nodes.map Prod.fst := aInsert_keys_of_mem _ _ _ hrkeys
      have hm2 : ∀ {p : Nat × NodeCache}, p ∈ aInsert (aInsert c.nodes r { nc with
          allocated_buffers := pvb.map (fun p => p.2) ++
            (aob.map (fun p => p.2.2)).flatten
          audio_output_buffers := aob.map (fun p => (p.1, p.2.2)) }) r
          { nc with
            allocated_buffers := pvb.map (fun p => p.2) ++
              (aob.map (fun p => p.2.2)).flatten
            audio_output_buffers := aob.map (fun p => (p.1, p.2.2))
            render_ops := nc.render_ops ++
              [RenderOp.RenderProcessor nc.processor_key aib
                (aob.map (fun p => p.2)) prp] } →
          p = (r, { nc with
            allocated_buffers := pvb.map (fun p => p.2) ++
              (aob.map (fun p => p.2.2)).flatten
            audio_output_buffers := aob.map (fun p => (p.1, p.2.2))
            render_ops := nc.render_ops ++
              [RenderOp.RenderProcessor nc.processor_key aib
                (aob.map (fun p => p.2)) prp] }) ∨
          (p ∈ c.nodes ∧ p.1 ≠ r) := by
        intro p hp
        rcases mem_aInsert_keys_nodup (hkeys1 ▸ i5) hp with hp2 | hp2
        · exact Or.inl hp2
        · rcases mem_aInsert_keys_nodup i5 hp2.1 with hp3 | hp3
          · exfalso
            apply hp2.2
            rw [hp3]
          · exact Or.inr hp3
      refine ⟨⟨i1, i2, i3, i4, ?_, ?_, ?_⟩, rfl, rfl, rfl, ?_⟩
      · rw [aInsert_keys_of_mem, hkeys1]
        · exact i5
        · rw [hkeys1]
          exact hrkeys
      · intro p hp
        rcases hm2 hp with hp2 | hp2
        · subst hp2
          refine ⟨hA_nodup, ?_, hout, ?_⟩
          · intro b hb
            obtain ⟨m1, m2, m3, m4, m5⟩ := hA b hb
            exact ⟨m1, m2, m3, m4⟩
          · intro op hop
            rcases List.mem_append.mp hop with hop | hop
            · exact g4 op hop
            · rw [List.mem_singleton.mp hop]
              exact hopnew
        · obtain ⟨m1, m2, m3, m4⟩ := i6 p hp2.1
          exact ⟨m1, m2, m3, m4⟩
      · intro p hp q hq hne b hb
        rcases hm2 hp with hp2 | hp2
        · subst hp2
          rcases hm2 hq with hq2 | hq2
          · subst hq2
            exact absurd rfl hne
          · exact (hA b hb).2.2.2.2 q hq2.1
        · rcases hm2 hq with hq2 | hq2
          · subst hq2
            intro hb2
            exact (hA b hb2).2.2.2.2 p hp2.1 hb
          · exact i7 p hp2.1 q hq2.1 hne b hb
      · rw [aInsert_keys_of_mem, hkeys1]
        rw [hkeys1]
        exact hrkeys

theorem collect_audio_inputs_go_keys (c : Controller) (l : List (Nat × AudioInPort)) :
    ∀ (aib : List (String × List Nat)),
    Controller.collect_audio_input_buffers_go c l = .ok aib →
    (∀ p ∈ c.nodes, ∀ q ∈ p.2.audio_output_buffers, ∀ b ∈ q.2,
      b ∈ c.buffers ∧ b < c.buffers_next) →
    c.empty_buffer ∈ c.buffers → c.empty_buffer < c.buffers_next →
    ∀ q ∈ aib, ∀ b ∈ q.2, b ∈ c.buffers ∧ b < c.buffers_next := by
  induction l with
  | nil =>
    intro aib h hmap he1 he2 q hq
    unfold Controller.collect_audio_input_buffers_go at h
    injection h with h
    subst h
    simp at hq
  | cons p rest ih =>
    intro aib h hmap he1 he2 q hq
    rcases p with ⟨pk0, port0⟩
    unfold Controller.collect_audio_input_buffers_go at h
    dsimp only at h
    rcases hbufs : (match port0.connection with
      | none => Controller.build_empty_audio_input_buffers c port0.channels
      | some audio_out_ref => Controller.build_audio_input_buffers c audio_out_ref)
      with e | bufs <;> rw [hbufs] at h
    · simp at h
    · dsimp only at h
      rcases hrec : Controller.collect_audio_input_buffers_go c rest with e | tail <;>
        rw [hrec] at h
      · simp at h
      · dsimp only at h
        injection h with h
        subst h
        rcases List.mem_cons.mp hq with hq | hq
        · subst hq
          intro b hb
          dsimp only at hb
          rcases hc : port0.connection with _ | aor <;> rw [hc] at hbufs <;>
            dsimp only at hbufs
          · unfold Controller.build_empty_audio_input_buffers at hbufs
            by_cases hemp : c.empty_buffer ∈ c.buffers
            · rw [if_pos hemp] at hbufs
              injection hbufs with hbufs
              subst hbufs
              have hbe := List.eq_of_mem_replicate hb
              subst hbe
              exact ⟨he1, he2⟩
            · rw [if_neg hemp] at hbufs
              simp at hbufs
          · unfold Controller.build_audio_input_buffers at hbufs
            rcases hnc : alookup c.nodes aor.node_ref with _ | nc2 <;> rw [hnc] at hbufs <;>
              dsimp only at hbufs
            · simp at hbufs
            · unfold NodeCache.get_audio_output_buffer at hbufs
              rcases hx : alookup nc2.audio_output_buffers aor.audio_port_key
                with _ | v <;> rw [hx] at hbufs
              · simp at hbufs
              · injection hbufs with hbufs
                subst hbufs
                exact hmap (aor.node_ref, nc2) (mem_of_alookup hnc)
                  (aor.audio_port_key, v) (mem_of_alookup hx) b hb
        · exact ih tail hrec hmap he1 he2 q hq

theorem build_param_render_ports_go_keys (c : Controller) (nref : Nat)
    (pvb : List (Nat × Nat)) (params : List (Nat × ParamPort)) :
    ∀ (ps : List (String × ParamRenderPort)),
    Controller.build_param_render_ports_go c nref pvb params = .ok ps →
    (∀ p ∈ c.nodes, ∀ q ∈ p.2.audio_output_buffers, ∀ b ∈ q.2,
      b ∈ c.buffers ∧ b < c.buffers_next) →
    ∀ q ∈ ps, ∀ b ∈ ParamRenderPort.bufferKeys q.2,
      b ∈ pvb.map (fun p => p.2) ∨ (b ∈ c.buffers ∧ b < c.buffers_next) := by
  induction params with
  | nil =>
    intro ps h hmap q hq
    unfold Controller.build_param_render_ports_go at h
    injection h with h
    subst h
    simp at hq
  | cons p rest ih =>
    intro ps h hmap q hq
    rcases p with ⟨pk0, port0⟩
    unfold Controller.build_param_render_ports_go at h
    rcases hc : port0.connection with _ | aor0 <;> rw [hc] at h <;> dsimp only at h
    · rcases hnc : alookup c.nodes nref with _ | node_cache <;> rw [hnc] at h
      · simp at h
      · dsimp only at h
        rcases hpkey : node_cache.get_param_key pk0 with e | pkey0 <;> rw [hpkey] at h
        · simp at h
        · dsimp only at h
          rcases hparam : alookup c.parameters pkey0 with _ | pv <;> rw [hparam] at h
          · simp at h
          · dsimp only at h
            rcases hslice : alookup pvb pk0 with _ | slice0 <;> rw [hslice] at h
            · simp at h
            · dsimp only at h
              rcases hrec : Controller.build_param_render_ports_go c nref pvb rest
                with e | tailps <;> rw [hrec] at h
              · simp at h
              · dsimp only at h
                injection h with h
                subst h
                rcases List.mem_cons.mp hq with hq | hq
                · subst hq
                  intro b hb
                  unfold ParamRenderPort.bufferKeys at hb
                  rw [List.mem_singleton.mp hb]
                  exact Or.inl (List.mem_map.mpr ⟨(pk0, slice0), mem_of_alookup hslice, rfl⟩)
                · exact ih tailps hrec hmap q hq
    · rcases hnc : alookup c.nodes aor0.node_ref with _ | node_cache <;> rw [hnc] at h
      · simp at h
      · dsimp only at h
        rcases hbuf : node_cache.get_audio_output_buffer aor0.audio_port_key
          with e | bufs0 <;> rw [hbuf] at h
        · simp at h
        · dsimp only at h
          rcases hhead : bufs0.head? with _ | b0 <;> rw [hhead] at h
          · simp at h
          · dsimp only at h
            rcases hrec : Controller.build_param_render_ports_go c nref pvb rest
              with e | tailps <;> rw [hrec] at h
            · simp at h
            · dsimp only at h
              injection h with h
              subst h
              rcases List.mem_cons.mp hq with hq | hq
              · subst hq
                intro b hb
                unfold ParamRenderPort.bufferKeys at hb
                rw [List.mem_singleton.mp hb]
                have hb0 : b0 ∈ bufs0 := by
                  cases bufs0 with
                  | nil => simp at hhead
                  | cons x xs =>
                    injection hhead with hhead
                    rw [← hhead]
                    exact List.mem_cons_self _ _
                have hbufs : alookup node_cache.audio_output_buffers aor0.audio_port_key =
                    some bufs0 := by
                  unfold NodeCache.get_audio_output_buffer at hbuf
                  rcases hx : alookup node_cache.audio_output_buffers aor0.audio_port_key
                    with _ | v <;> rw [hx] at hbuf
                  · simp at hbuf
                  · injection hbuf with hbuf
                    subst hbuf
                    rfl
                exact Or.inr (hmap (aor0.node_ref, node_cache) (mem_of_alookup hnc)
                  (aor0.audio_port_key, bufs0) (mem_of_alookup hbufs) b0 hb0)
              · exact ih tailps hrec hmap q hq

theorem add_param_values_buffers (c : Controller) (ps : List (Nat × ParamPort)) :
    (Controller.add_param_values c ps).1.buffers = c.buffers := by
  induction ps generalizing c with
  | nil => rfl
  | cons p rest ih =>
    rcases p with ⟨pk, port⟩
    simp only [Controller.add_param_values]
    rw [ih]

theorem add_param_values_buffers_next (c : Controller) (ps : List (Nat × ParamPort)) :
    (Controller.add_param_values c ps).1.buffers_next = c.buffers_next := by
  induction ps generalizing c with
  | nil => rfl
  | cons p rest ih =>
    rcases p with ⟨pk, port⟩
    simp only [Controller.add_param_values]
    rw [ih]

theorem add_param_values_empty (c : Controller) (ps : List (Nat × ParamPort)) :
    (Controller.add_param_values c ps).1.empty_buffer = c.empty_buffer := by
  induction ps generalizing c with
  | nil => rfl
  | cons p rest ih =>
    rcases p with ⟨pk, port⟩
    simp only [Controller.add_param_values]
    rw [ih]

theorem create_node_buffers (c : Controller) (r : Nat) (g : Graph) :
    (Controller.create_node c r g).2.buffers = c.buffers := by
  unfold Controller.create_node
  split
  · rfl
  · split
    · rfl
    · split
      · rfl
      · exact add_param_values_buffers _ _

theorem create_node_buffers_next (c : Controller) (r : Nat) (g : Graph) :
    (Controller.create_node c r g).2.buffers_next = c.buffers_next := by
  unfold Controller.create_node
  split
  · rfl
  · split
    · rfl
    · split
      · rfl
      · exact add_param_values_buffers_next _ _

theorem create_node_empty (c : Controller) (r : Nat) (g : Graph) :
    (Controller.create_node c r g).2.empty_buffer = c.empty_buffer := by
  unfold Controller.create_node
  split
  · rfl
  · split
    · rfl
    · split
      · rfl
      · exact add_param_values_empty _ _

theorem visit_invalidated_node_inv (c : Controller) (r : Nat) (g : Graph)
    (ctx : UpdateContext) (res : Except ControllerError Unit) (c' : Controller)
    (ctx' : UpdateContext)
    (hv : Controller.visit_invalidated_node c r g ctx = (res, c', ctx'))
    (hinv : UpdInv c ctx) :
    UpdInv c' ctx' ∧ (∀ b ∈ c.buffers, b ∈ c'.buffers) ∧
    c.buffers_next ≤ c'.buffers_next ∧ c'.empty_buffer = c.empty_buffer ∧
    c'.nodes.map Prod.fst = c.nodes.map Prod.fst := by
  unfold Controller.visit_invalidated_node at hv
  rcases hA : Controller.clear_node_cache c r ctx with ⟨res0, c1, ctx1⟩
  rw [hA] at hv
  obtain ⟨cI, cbuf, cnext, cemp, ckeys, cfree⟩ :=
    clear_node_cache_inv c r ctx res0 c1 ctx1 hA hinv
  cases res0 with
  | error e =>
    injection hv with h1 h2
    injection h2 with h2 h3
    subst h2 h3
    exact ⟨cI, fun b hb => cbuf ▸ hb, Nat.le_of_eq cnext.symm, cemp, ckeys⟩
  | ok u =>
    dsimp only at hv
    rcases hn : g.get_node r with _ | node <;> rw [hn] at hv
    · injection hv with h1 h2
      injection h2 with h2 h3
      subst h2 h3
      exact ⟨cI, fun b hb => cbuf ▸ hb, Nat.le_of_eq cnext.symm, cemp, ckeys⟩
    · dsimp only at hv
      rcases hB : Controller.allocate_param_value_buffers c1 node ctx1 with ⟨pvb, c2, ctx2⟩
      rw [hB] at hv
      have hB' : Controller.alloc_param_bufs_go c1 ctx1 node.params = (pvb, c2, ctx2) := hB
      obtain ⟨pI, pn, pe, pbuf, pnext, pfree, p5, p6, p7⟩ :=
        alloc_param_bufs_go_inv node.params c1 ctx1 pvb c2 ctx2 hB' cI
      have hframe2 : (∀ b ∈ c.buffers, b ∈ c2.buffers) ∧
          c.buffers_next ≤ c2.buffers_next ∧ c2.empty_buffer = c.empty_buffer ∧
          c2.nodes.map Prod.fst = c.nodes.map Prod.fst := by
        refine ⟨fun b hb => pbuf b (cbuf ▸ hb), ?_, pe.trans cemp, ?_⟩
        · rw [← cnext]
          exact pnext
        · rw [pn]
          exact ckeys
      rcases hbp : Controller.build_param_render_ports c2 r node pvb with e | prp <;>
        rw [hbp] at hv
      · injection hv with h1 h2
        injection h2 with h2 h3
        subst h2 h3
        exact ⟨pI, hframe2.1, hframe2.2.1, hframe2.2.2.1, hframe2.2.2.2⟩
      · dsimp only at hv
        rcases hcol : Controller.collect_audio_input_buffers c2 node with e | aib <;>
          rw [hcol] at hv
        · injection hv with h1 h2
          injection h2 with h2 h3
          subst h2 h3
          exact ⟨pI, hframe2.1, hframe2.2.1, hframe2.2.2.1, hframe2.2.2.2⟩
        · dsimp only at hv
          rcases hC : Controller.allocate_audio_output_buffers c2 node ctx2 with ⟨aob, c3, ctx3⟩
          rw [hC] at hv
          have hC' : Controller.alloc_audio_out_go c2 ctx2 node.audio_outputs =
            (aob, c3, ctx3) := hC
          obtain ⟨qI, qn, qe, qbuf, qnext, qfree, q5, q6, q7⟩ :=
            alloc_audio_out_go_inv node.audio_outputs c2 ctx2 aob c3 ctx3 hC' pI
          have hAprops : ∀ j ∈ pvb.map (fun p => p.2) ++
              (aob.map (fun p => p.2.2)).flatten,
              j ∈ c3.buffers ∧ j < c3.buffers_next ∧ j ∉ ctx3.free_buffers ∧
                j ≠ c3.empty_buffer ∧
                (j ∈ ctx1.free_buffers ∨ c1.buffers_next ≤ j) := by
            intro j hj
            rcases List.mem_append.mp hj with hj | hj
            · obtain ⟨m1, m2, m3, m4⟩ := p6 j hj
              refine ⟨qbuf j m1, Nat.lt_of_lt_of_le m2 qnext, fun hk => m3 (qfree _ hk), ?_,
                p7 j hj⟩
              rw [qe]
              exact m4
            · obtain ⟨m1, m2, m3, m4⟩ := q6 j hj
              refine ⟨m1, m2, m3, m4, ?_⟩
              rcases q7 j hj with hj2 | hj2
              · exact Or.inl (pfree j hj2)
              · exact Or.inr (Nat.le_trans pnext hj2)
          have hAnodup : (pvb.map (fun p => p.2) ++
              (aob.map (fun p => p.2.2)).flatten).Nodup := by
            rw [List.nodup_append]
            refine ⟨p5, q5, ?_⟩
            intro j hj1 hj2
            obtain ⟨m1, m2, m3, m4⟩ := p6 j hj1
            rcases q7 j hj2 with hj5 | hj5
            · exact m3 hj5
            · exact Nat.lt_irrefl _ (Nat.lt_of_lt_of_le m2 hj5)
          have hAnotin : ∀ j ∈ pvb.map (fun p => p.2) ++
              (aob.map (fun p => p.2.2)).flatten,
              ∀ p ∈ c3.nodes, j ∉ p.2.allocated_buffers := by
            intro j hj p hp hjp
            have hp1 : p ∈ c1.nodes := by
              rw [qn, pn] at hp
              exact hp
            obtain ⟨m1, m2, m3, m4⟩ := cI.2.2.2.2.2.1 p hp1
            obtain ⟨n1, n2, n3, n4⟩ := m2 j hjp
            rcases (hAprops j hj).2.2.2.2 with hj2 | hj2
            · exact n3 hj2
            · exact Nat.lt_irrefl _ (Nat.lt_of_lt_of_le n2 hj2)
          rcases hD : Controller.release_input_buffers c3 node ctx3 with ⟨res1, c4, ctx4⟩
          rw [hD] at hv
          have hD' : Controller.release_sources_go c3 ctx3 node.sources =
            (res1, c4, ctx4) := hD
          obtain ⟨rI, rbuf, rnext, remp, rkeys, rF⟩ :=
            release_sources_go_inv node.sources c3 ctx3 res1 c4 ctx4
              (pvb.map (fun p => p.2) ++ (aob.map (fun p => p.2.2)).flatten) hD' qI
              (fun j hj => ⟨(hAprops j hj).2.1, (hAprops j hj).2.2.1, hAnotin j hj⟩)
          have hframe4 : (∀ b ∈ c.buffers, b ∈ c4.buffers) ∧
              c.buffers_next ≤ c4.buffers_next ∧ c4.empty_buffer = c.empty_buffer ∧
              c4.nodes.map Prod.fst = c.nodes.map Prod.fst := by
            refine ⟨fun b hb => rbuf ▸ qbuf b (hframe2.1 b hb), ?_, ?_, ?_⟩
            · rw [rnext]
              exact Nat.le_trans hframe2.2.1 qnext
            · rw [remp, qe]
              exact hframe2.2.2.1
            · rw [rkeys, qn, pn]
              exact ckeys
          cases res1 with
          | error e =>
            injection hv with h1 h2
            injection h2 with h2 h3
            subst h2 h3
            exact ⟨rI, hframe4.1, hframe4.2.1, hframe4.2.2.1, hframe4.2.2.2⟩
          | ok u2 =>
            dsimp only at hv
            rcases hE : Controller.update_node_cache c4 r pvb prp aib aob with ⟨res2, c5⟩
            rw [hE] at hv
            have haib4 : ∀ q ∈ aib, ∀ b ∈ q.2,
                b ∈ c4.buffers ∧ b < c4.buffers_next := by
              intro q hq b hb
              obtain ⟨m1, m2⟩ := collect_audio_inputs_go_keys c2 node.audio_inputs aib hcol
                (fun p hp => (pI.2.2.2.2.2.1 p hp).2.2.1) pI.2.2.2.1 pI.2.2.1 q hq b hb
              refine ⟨?_, ?_⟩
              · rw [rbuf]
                exact qbuf b m1
              · rw [rnext]
                exact Nat.lt_of_lt_of_le m2 qnext
            have hprp4 : ∀ q ∈ prp, ∀ b ∈ ParamRenderPort.bufferKeys q.2,
                b ∈ c4.buffers ∧ b < c4.buffers_next := by
              intro q hq b hb
              rcases build_param_render_ports_go_keys c2 r pvb node.params prp hbp
                  (fun p hp => (pI.2.2.2.2.2.1 p hp).2.2.1) q hq b hb with hb2 | hb2
              · have := hAprops b (List.mem_append_left _ hb2)
                refine ⟨?_, ?_⟩
                · rw [rbuf]
                  exact this.1
                · rw [rnext]
                  exact this.2.1
              · refine ⟨?_, ?_⟩
                · rw [rbuf]
                  exact qbuf b hb2.1
                · rw [rnext]
                  exact Nat.lt_of_lt_of_le hb2.2 qnext
            have hA4 : ∀ j ∈ pvb.map (fun p => p.2) ++
                (aob.map (fun p => p.2.2)).flatten,
                j ∈ c4.buffers ∧ j < c4.buffers_next ∧ j ∉ ctx4.free_buffers ∧
                  j ≠ c4.empty_buffer ∧
                  ∀ p ∈ c4.nodes, j ∉ p.2.allocated_buffers := by
              intro j hj
              obtain ⟨m1, m2, m3, m4, m5⟩ := hAprops j hj
              obtain ⟨n1, n2⟩ := rF j hj
              refine ⟨?_, ?_, n1, ?_, n2⟩
              · rw [rbuf]
                exact m1
              · rw [rnext]
                exact m2
              · rw [remp]
                exact m4
            obtain ⟨uI, ubuf, unext, uemp, ukeys⟩ :=
              update_node_cache_inv c4 r pvb prp aib aob res2 c5 ctx4 hE rI
                hAnodup hA4 haib4 hprp4
            cases res2 with
            | error e =>
              injection hv with h1 h2
              injection h2 with h2 h3
              subst h2 h3
              refine ⟨uI, ?_, ?_, ?_, ?_⟩
              · intro b hb
                rw [ubuf]
                exact hframe4.1 b hb
              · rw [unext]
                exact hframe4.2.1
              · rw [uemp]
                exact hframe4.2.2.1
              · rw [ukeys]
                exact hframe4.2.2.2
            | ok u3 =>
              dsimp only at hv
              injection hv with h1 h2
              injection h2 with h2 h3
              subst h2 h3
              refine ⟨uI, ?_, ?_, ?_, ?_⟩
              · intro b hb
                rw [ubuf]
                exact hframe4.1 b hb
              · rw [unext]
                exact hframe4.2.1
              · rw [uemp]
                exact hframe4.2.2.1
              · rw [ukeys]
                exact hframe4.2.2.2

theorem update_nodes_inv (g : Graph) :
    ∀ (l seen : List Nat) (c : Controller) (ctx : UpdateContext)
      (res : Except ControllerError Unit) (c' : Controller) (ctx' : UpdateContext),
    Controller.update_nodes c l g ctx = (res, c', ctx') →
    (seen ++ l).Nodup →
    UpdInv c ctx →
    (∀ k ∈ c.nodes.map Prod.fst, k ∈ seen) →
    UpdInv c' ctx' ∧ (∀ b ∈ c.buffers, b ∈ c'.buffers) ∧
    c'.empty_buffer = c.empty_buffer ∧
    (∀ k ∈ c'.nodes.map Prod.fst, k ∈ seen ++ l) := by
  intro l
  induction l with
  | nil =>
    intro seen c ctx res c' ctx' hv hnd hinv hkeys
    unfold Controller.update_nodes at hv
    injection hv with h1 h2
    injection h2 with h2 h3
    subst h2 h3
    refine ⟨hinv, fun b hb => hb, rfl, ?_⟩
    intro k hk
    rw [List.append_nil]
    exact hkeys k hk
  | cons r rest ih =>
    intro seen c ctx res c' ctx' hv hnd hinv hkeys
    have hnd3 := List.nodup_append.mp hnd
    have hdisj : seen.Disjoint (r :: rest) := hnd3.2.2
    have hrseen : r ∉ seen := fun hr => hdisj hr (List.mem_cons_self _ _)
    have hnd' : ((seen ++ [r]) ++ rest).Nodup := by
      rw [← List.append_cons] at *
      exact hnd
    have hcr : (alookup c.nodes r).isNone = true := by
      rcases halk : alookup c.nodes r with _ | nc
      · rfl
      · exfalso
        apply hrseen
        exact hkeys r (List.mem_map.mpr ⟨(r, nc), mem_of_alookup halk, rfl⟩)
    unfold Controller.update_nodes at hv
    dsimp only at hv
    rw [if_pos hcr] at hv
    have hcbuf := create_node_buffers c r g
    have hcnext := create_node_buffers_next c r g
    have hcemp := create_node_empty c r g
    have hcnodes := create_node_nodes c r g
    rcases hA : Controller.create_node c r g with ⟨res0, c1⟩
    rw [hA] at hv hcbuf hcnext hcemp hcnodes
    dsimp only at hcbuf hcnext hcemp hcnodes
    cases res0 with
    | error e =>
      injection hv with h1 h2
      injection h2 with h2 h3
      subst h2 h3
      refine ⟨UpdInv_congr hinv hcnodes hcbuf hcnext hcemp rfl,
        fun b hb => hcbuf ▸ hb, hcemp, ?_⟩
      intro k hk
      rw [hcnodes] at hk
      exact List.mem_append_left _ (hkeys k hk)
    | ok nc =>
      dsimp only at hv
      obtain ⟨hsh1, hsh2, hsh3⟩ := create_node_ok_shape c r g nc c1 hA
      have hinv1 : UpdInv c1 ctx := UpdInv_congr hinv hcnodes hcbuf hcnext hcemp rfl
      have hrnotkeys : r ∉ c1.nodes.map Prod.fst := by
        rw [hcnodes]
        intro hr
        exact hrseen (hkeys r hr)
      have hkeys1 : (aInsert c1.nodes r nc).map Prod.fst = c1.nodes.map Prod.fst ++ [r] :=
        aInsert_keys_of_not_mem _ _ _ hrnotkeys
      have hinv1' : UpdInv { c1 with nodes := aInsert c1.nodes r nc } ctx := by
        obtain ⟨i1, i2, i3, i4, i5, i6, i7⟩ := hinv1
        refine ⟨i1, i2, i3, i4, ?_, ?_, ?_⟩
        · rw [hkeys1]
          rw [List.nodup_append]
          refine ⟨i5, List.nodup_singleton _, ?_⟩
          intro a ha ha2
          rw [List.mem_singleton.mp ha2] at ha
          exact hrnotkeys ha
        · intro p hp
          rcases mem_aInsert hp with hp2 | hp2
          · subst hp2
            dsimp only
            rw [hsh1, hsh2, hsh3]
            refine ⟨List.nodup_nil, ?_, ?_, ?_⟩
            · intro b hb
              simp at hb
            · intro q hq
              simp at hq
            · intro op hop
              simp at hop
          · exact i6 p hp2
        · intro p hp q hq hne b hb
          rcases mem_aInsert hp with hp2 | hp2
          · subst hp2
            dsimp only at hb
            rw [hsh2] at hb
            simp at hb
          · rcases mem_aInsert hq with hq2 | hq2
            · subst hq2
              dsimp only
              rw [hsh2]
              simp
            · exact i7 p hp2 q hq2 hne b hb
      have hkeysub1 : ∀ k ∈ (aInsert c1.nodes r nc).map Prod.fst, k ∈ seen ++ [r] := by
        intro k hk
        rw [hkeys1, hcnodes] at hk
        rcases List.mem_append.mp hk with hk | hk
        · exact List.mem_append_left _ (hkeys k hk)
        · exact List.mem_append_right _ hk
      rcases hn : g.get_node r with _ | node <;> rw [hn] at hv
      · injection hv with h1 h2
        injection h2 with h2 h3
        subst h2 h3
        refine ⟨hinv1', fun b hb => hcbuf ▸ hb, hcemp, ?_⟩
        intro k hk
        rcases List.mem_append.mp (hkeysub1 k hk) with hk2 | hk2
        · exact List.mem_append_left _ hk2
        · rw [List.mem_singleton.mp hk2]
          exact List.mem_append_right _ (List.mem_cons_self _ _)
      · dsimp only at hv
        rw [hcr, Bool.or_true, if_pos rfl] at hv
        rcases hB : Controller.visit_invalidated_node
            { c1 with nodes := aInsert c1.nodes r nc } r g ctx with ⟨res1, c2, ctx2⟩
        rw [hB] at hv
        obtain ⟨vI, vbuf, vnext, vemp, vkeys⟩ :=
          visit_invalidated_node_inv { c1 with nodes := aInsert c1.nodes r nc } r g ctx
            res1 c2 ctx2 hB hinv1'
        have hkeysub2 : ∀ k ∈ c2.nodes.map Prod.fst, k ∈ seen ++ [r] := by
          intro k hk
          rw [vkeys] at hk
          exact hkeysub1 k hk
        cases res1 with
        | error e =>
          injection hv with h1 h2
          injection h2 with h2 h3
          subst h2 h3
          refine ⟨vI, fun b hb => vbuf b (by rw [← hcbuf] at hb; exact hb), vemp.trans hcemp, ?_⟩
          intro k hk
          rcases List.mem_append.mp (hkeysub2 k hk) with hk2 | hk2
          · exact List.mem_append_left _ hk2
          · rw [List.mem_singleton.mp hk2]
            exact List.mem_append_right _ (List.mem_cons_self _ _)
        | ok u1 =>
          dsimp only at hv
          obtain ⟨r1, r2, r3, r4⟩ := ih (seen ++ [r]) c2 ctx2 res c' ctx' hv hnd' vI hkeysub2
          refine ⟨r1, fun b hb => r2 b (vbuf b (by rw [← hcbuf] at hb; exact hb)),
            r3.trans (vemp.trans hcemp), ?_⟩
          intro k hk
          rw [List.append_cons]
          exact r4 k hk

theorem collect_plan_ops_keys (c : Controller) (l : List Nat) :
    ∀ (ops : List RenderOp), Controller.collect_plan_ops c l = .ok ops →
    (∀ p ∈ c.nodes, ∀ op ∈ p.2.render_ops, ∀ b ∈ op.bufferKeys, b ∈ c.buffers) →
    ∀ op ∈ ops, ∀ b ∈ op.bufferKeys, b ∈ c.buffers := by
  induction l with
  | nil =>
    intro ops h hprops op hop
    unfold Controller.collect_plan_ops at h
    injection h with h
    subst h
    simp at hop
  | cons r rest ih =>
    intro ops h hprops op hop
    unfold Controller.collect_plan_ops at h
    rcases hnc : alookup c.nodes r with _ | nc <;> rw [hnc] at h
    · simp at h
    · dsimp only at h
      rcases hr : Controller.collect_plan_ops c rest with e | tail <;> rw [hr] at h
      · simp at h
      · dsimp only at h
        injection h with h
        subst h
        rcases List.mem_append.mp hop with hop | hop
        · exact hprops (r, nc) (mem_of_alookup hnc) op hop
        · exact ih tail hr hprops op hop

theorem collect_output_ops_keys (c : Controller) (bl : List (String × AudioOutRef)) :
    ∀ (ops : List RenderOp), Controller.collect_output_ops c bl = .ok ops →
    (∀ p ∈ c.nodes, ∀ q ∈ p.2.audio_output_buffers, ∀ b ∈ q.2, b ∈ c.buffers) →
    ∀ op ∈ ops, ∀ b ∈ op.bufferKeys, b ∈ c.buffers := by
  induction bl with
  | nil =>
    intro ops h hmap op hop
    unfold Controller.collect_output_ops at h
    injection h with h
    subst h
    simp at hop
  | cons p rest ih =>
    intro ops h hmap op hop
    rcases p with ⟨al0, aor0⟩
    unfold Controller.collect_output_ops at h
    rcases hnc : alookup c.nodes aor0.node_ref with _ | nc <;> rw [hnc] at h
    · simp at h
    · dsimp only at h
      rcases hb : nc.get_audio_output_buffer aor0.audio_port_key with e | bufs <;> rw [hb] at h
      · simp at h
      · dsimp only at h
        rcases hr : Controller.collect_output_ops c rest with e | tail <;> rw [hr] at h
        · simp at h
        · dsimp only at h
          injection h with h
          subst h
          rcases List.mem_cons.mp hop with hop | hop
          · subst hop
            intro b hbk
            have hbufs : alookup nc.audio_output_buffers aor0.audio_port_key = some bufs := by
              unfold NodeCache.get_audio_output_buffer at hb
              rcases hx : alookup nc.audio_output_buffers aor0.audio_port_key with _ | v <;>
                rw [hx] at hb
              · simp at hb
              · injection hb with hb
                subst hb
                rfl
            exact hmap (aor0.node_ref, nc) (mem_of_alookup hnc)
              (aor0.audio_port_key, bufs) (mem_of_alookup hbufs) b hbk
          · exact ih tail hr hmap op hop

theorem filter_alloc_le_one (b : Nat) :
    ∀ (m : List (Nat × NodeCache)), (m.map Prod.fst).Nodup →
    (∀ p ∈ m, ∀ q ∈ m, p.1 ≠ q.1 → ∀ x ∈ p.2.allocated_buffers,
      x ∉ q.2.allocated_buffers) →
    (m.filter (fun p => decide (b ∈ p.2.allocated_buffers))).length ≤ 1 := by
  intro m
  induction m with
  | nil =>
    intro hnd hdisj
    simp
  | cons p rest ih =>
    intro hnd hdisj
    rw [List.map_cons, List.nodup_cons] at hnd
    by_cases hb : b ∈ p.2.allocated_buffers
    · rw [List.filter_cons_of_pos (by simpa using hb)]
      have hz : rest.filter (fun p => decide (b ∈ p.2.allocated_buffers)) = [] := by
        rw [List.filter_eq_nil_iff]
        intro q hq
        simp only [decide_eq_true_eq]
        intro hbq
        have hne : p.1 ≠ q.1 := by
          intro he
          apply hnd.1
          rw [he]
          exact List.mem_map.mpr ⟨q, hq, rfl⟩
        exact hdisj p (List.mem_cons_self _ _) q (List.mem_cons_of_mem _ hq) hne b hb hbq
      rw [hz]
      simp
    · rw [List.filter_cons_of_neg (by simpa using hb)]
      exact ih hnd.2
        (fun p2 hp2 q hq hne =>
          hdisj p2 (List.mem_cons_of_mem _ hp2) q (List.mem_cons_of_mem _ hq) hne)

theorem ownersOf_le_one (c : Controller) (b : Nat)
    (hnd : (c.nodes.map Prod.fst).Nodup)
    (hdisj : ∀ p ∈ c.nodes, ∀ q ∈ c.nodes, p.1 ≠ q.1 →
      ∀ x ∈ p.2.allocated_buffers, x ∉ q.2.allocated_buffers) :
    (Controller.ownersOf c b).length ≤ 1 := by
  unfold Controller.ownersOf
  rw [List.length_map]
  exact filter_alloc_le_one b c.nodes hnd hdisj

theorem ownersOf_empty_nil (c : Controller)
    (h : ∀ p ∈ c.nodes, ∀ x ∈ p.2.allocated_buffers, x ≠ c.empty_buffer) :
    Controller.ownersOf c c.empty_buffer = [] := by
  unfold Controller.ownersOf
  have hz : c.nodes.filter (fun p => decide (c.empty_buffer ∈ p.2.allocated_buffers)) = [] := by
    rw [List.filter_eq_nil_iff]
    intro q hq
    simp only [decide_eq_true_eq]
    intro hbq
    exact h q hq c.empty_buffer hbq rfl
  rw [hz]
  rfl

/-- C1 (amended): for a first `update_graph` on a controller whose cache table
is empty and whose buffer registry holds only the empty buffer (the state
produced by `Controller::new`, with any factories registered), success implies
that every buffer key appearing in any render op of the sealed plan is
registered in the buffer registry and is contained in the `allocated_buffers`
set of AT MOST one `NodeCache` at the moment the plan is sealed, and the
empty buffer key is owned by no cache.  (The claimed "exactly one" is refuted
by `plan_buffer_ownership_counterexample`: a source node released by its last
consumer during the same pass keeps its buffers in the plan while owning
none.) -/
theorem plan_buffer_ownership_amended (c : Controller) (g : Graph)
    (hn0 : c.nodes = []) (hb0 : c.buffers = [c.empty_buffer])
    (hx0 : c.buffers_next = c.empty_buffer + 1)
    (hnd : g.topology.nodes.Nodup)
    (hok : (Controller.update_graph c g).1 = .ok ()) :
    ∃ plan,
      (Controller.update_graph c g).2.tx_queue =
        c.tx_queue ++ [Message.MoveRenderPlan plan] ∧
      (∀ op ∈ plan.operations, ∀ b ∈ op.bufferKeys,
        b ∈ (Controller.update_graph c g).2.buffers ∧
        (Controller.ownersOf (Controller.update_graph c g).2 b).length ≤ 1) ∧
      Controller.ownersOf (Controller.update_graph c g).2
        (Controller.update_graph c g).2.empty_buffer = [] := by
  obtain ⟨c1, ctx1, proc_ops, out_ops, hun, hplan, hout, hlen, hfin⟩ :=
    update_graph_ok_destruct c g hok
  have hfree0 : c.buffers.filter (fun k => decide (¬ k = c.empty_buffer)) = [] := by
    rw [hb0]
    simp
  have hinv0 : UpdInv c (UpdateContext.new g.topology
      (c.buffers.filter (fun k => decide (¬ k = c.empty_buffer)))) := by
    refine ⟨?_, ?_, ?_, ?_, ?_, ?_, ?_⟩
    · unfold UpdateContext.new
      dsimp only
      rw [hfree0]
      exact List.nodup_nil
    · unfold UpdateContext.new
      dsimp only
      rw [hfree0]
      intro f hf
      simp at hf
    · rw [hx0]
      exact Nat.lt_succ_self _
    · rw [hb0]
      exact List.mem_cons_self _ _
    · rw [hn0]
      exact List.nodup_nil
    · intro p hp
      rw [hn0] at hp
      simp at hp
    · intro p hp
      rw [hn0] at hp
      simp at hp
  obtain ⟨uI, ubuf, uemp, ukeys⟩ := update_nodes_inv g g.topology.nodes [] c _ (.ok ()) c1 ctx1
    hun (by simpa using hnd) hinv0 (by rw [hn0]; simp)
  obtain ⟨i1, i2, i3, i4, i5, i6, i7⟩ := uI
  have hfr := update_nodes_frame c g.topology.nodes g
    (UpdateContext.new g.topology
      (c.buffers.filter (fun k => decide (¬ k = c.empty_buffer))))
  rw [hun] at hfr
  dsimp only at hfr
  have htx : c1.tx_queue = c.tx_queue := hfr.2.1
  have hproc := collect_plan_ops_keys c1 g.topology.nodes proc_ops hplan
    (fun p hp op hop b hb => ((i6 p hp).2.2.2 op hop b hb).1)
  have houtk := collect_output_ops_keys c1 g.bound_audio_outputs out_ops hout
    (fun p hp q hq b hb => ((i6 p hp).2.2.1 q hq b hb).1)
  refine ⟨{ operations := proc_ops ++ out_ops }, ?_, ?_, ?_⟩
  · rw [hfin]
    dsimp only
    rw [htx]
  · intro op hop b hb
    rw [hfin]
    have hmem : b ∈ c1.buffers := by
      rcases List.mem_append.mp hop with hop | hop
      · exact hproc op hop b hb
      · exact houtk op hop b hb
    exact ⟨hmem, ownersOf_le_one _ b i5 i7⟩
  · rw [hfin]
    exact ownersOf_empty_nil _ (fun p hp x hx => ((i6 p hp).2.1 x hx).2.2.2)

/-- C1 (counterexample): the first update on the chain `S -> T` seals the plan
`[RenderProcessor(S) -> OUT [1], RenderProcessor(T) IN [1] -> OUT [2],
RenderOutput "OUT" [2]]`, where buffer `1` (the source's output) appears in
render ops and differs from the empty buffer `0`, yet at the moment the plan
is sealed NO cache owns it in its `allocated_buffers` (the visit of the last
consumer `T` already released it), refuting "exactly one". -/
theorem plan_buffer_ownership_counterexample :
    runST1.1 = .ok () ∧
    runST1.2.empty_buffer = 0 ∧
    runST1.2.tx_queue.getLast? = some (Message.MoveRenderPlan { operations :=
      [RenderOp.RenderProcessor 0 [] [("OUT", [1])] [],
       RenderOp.RenderProcessor 1 [("IN", [1])] [("OUT", [2])] [],
       RenderOp.RenderOutput "OUT" [2]] }) ∧
    (1 : Nat) ∈ RenderOp.bufferKeys (RenderOp.RenderProcessor 0 [] [("OUT", [1])] []) ∧
    (1 : Nat) ≠ 0 ∧
    Controller.ownersOf runST1.2 1 = [] :=
  ⟨by decide, by decide, by decide, by decide, by decide, by decide⟩

theorem plan_buffer_ownership_amended_witness :
    ctrl1.nodes = [] ∧ ctrl1.buffers = [ctrl1.empty_buffer] ∧
    ctrl1.buffers_next = ctrl1.empty_buffer + 1 ∧
    graphST.topology.nodes.Nodup ∧
    (Controller.update_graph ctrl1 graphST).1 = .ok () ∧
    (∃ plan,
      (Controller.update_graph ctrl1 graphST).2.tx_queue =
        ctrl1.tx_queue ++ [Message.MoveRenderPlan plan] ∧
      (∀ op ∈ plan.operations, ∀ b ∈ op.bufferKeys,
        b ∈ (Controller.update_graph ctrl1 graphST).2.buffers ∧
        (Controller.ownersOf (Controller.update_graph ctrl1 graphST).2 b).length ≤ 1) ∧
      Controller.ownersOf (Controller.update_graph ctrl1 graphST).2
        (Controller.update_graph ctrl1 graphST).2.empty_buffer = []) :=
  ⟨rfl, rfl, rfl, by decide, by decide,
    plan_buffer_ownership_amended ctrl1 graphST rfl rfl rfl (by decide) (by decide)⟩
